import Mathlib

/-!
# Verification of the feature dependency resolution engine of ArduPilot/CustomBuild

This file gives a shallow embedding of the `Features` module of
`src/web/static/js/add_build.js` (the feature dependency resolution engine of
the custom-build web portal) and proves properties of its operations.

Modelling conventions:

* A catalog is a flat `List Feature`, the `features` array of the module.
  The derived dictionaries (`features_by_id`, `categories_grouped`, and the
  `requiredFor` reverse edges built by `updateRequiredFor`) are modelled as
  functions of the catalog.
* The DOM checkbox states, which the code treats as the source of truth, are
  modelled by the field `checked : String → Bool` of `EngineState`.  A feature
  checkbox element with a given id exists exactly when some catalog feature has
  that id (`fillBuildOptions` renders one checkbox per feature).
* The recursive cascades (`checkUncheckOptionById` / `handleOptionStateChange`
  recursing through `enableDependenciesForFeature` and
  `disabledDependentsForFeature`) are defined with an explicit fuel parameter;
  `engineFuel` (catalog length + 1) is provably enough fuel, because every
  productive recursive frame flips a distinct feature id towards the cascade
  target state.
* `askToDisableDependentsForFeature` only fills the confirmation modal; it does
  not change any selection state.  The two modal buttons are modelled as the
  separate operations `disabledDependentsForFeature` (confirm) and
  `checkUncheckOptionById _ _ _ id true true` (cancel), exactly the `onclick`
  handlers the code installs.
-/

set_option linter.unusedVariables false
set_option linter.unnecessarySimpa false

/-- A category record as it appears inside a feature object of the API
response (`feature.category`). -/
structure FCategory where
  name : String
  description : String
deriving DecidableEq, Repr

/-- A feature record of the catalog (one element of the `features` array).
`default_enabled` models `feature.default.enabled`. -/
structure Feature where
  id : String
  name : String
  category : FCategory
  dependencies : List String
  default_enabled : Bool
deriving DecidableEq, Repr

/-- `features_by_id[id]`: the dictionary is built by iterating over the
features array and assigning, so the last feature with a given id wins. -/
def getOptionById (fs : List Feature) (id : String) : Option Feature :=
  fs.reverse.find? (fun f => f.id == id)

/-- The distinct feature ids: the keys of `features_by_id`. -/
def allIds (fs : List Feature) : List String :=
  (fs.map (fun f => f.id)).dedup

/-- `Object.keys(features_by_id).length`, the total option count used by
`updateGlobalCheckboxState`. -/
def totalOptions (fs : List Feature) : Nat :=
  (allIds fs).length

/-- Whether a checkbox element with this id exists in the DOM:
`fillBuildOptions` renders one checkbox per catalog feature. -/
def elementExists (fs : List Feature) (id : String) : Bool :=
  fs.any (fun f => f.id == id)

/-- The reverse dependency edges built by `updateRequiredFor`: feature `F` is
appended to `dep.requiredFor` once for every occurrence of `dep`'s id in
`F.dependencies`, iterating the features array in order.  Unknown dependency
ids get no `requiredFor` object and are dropped.  An absent (`undefined`)
`requiredFor` field is modelled as the empty list; the code only ever tests it
against `undefined` or iterates over it, and the field is non-empty whenever
it is defined. -/
def requiredFor (fs : List Feature) (d : String) : List String :=
  fs.foldr (fun f acc => ((f.dependencies.filter (fun x => x == d)).map (fun _ => f.id)) ++ acc) []

/-- `categories_grouped[cname].features`: the catalog features carrying this
category name, in catalog order. -/
def categoryFeatures (fs : List Feature) (cname : String) : List Feature :=
  fs.filter (fun f => f.category.name == cname)

/-- The category names: the keys of `categories_grouped`, as iterated by
`getAllCategories`. -/
def categoryNames (fs : List Feature) : List String :=
  (fs.map (fun f => f.category.name)).dedup

/-- The visible state of a tri-state checkbox element: its `checked` and
`indeterminate` DOM properties. -/
structure Indicator where
  checked : Bool
  indeterminate : Bool
deriving DecidableEq, Repr

/-- The mutable state owned by the engine: the per-feature checkbox states
(`checked`, the source of truth for selection), the cached
`selected_options` counter, the per-category tri-state checkboxes and the
global `check-uncheck-all` tri-state checkbox. -/
structure EngineState where
  checked : String → Bool
  selected_options : Int
  catInd : String → Indicator
  globalInd : Indicator

/-- Setting `element.checked` for the feature checkbox with this id. -/
def setChecked (s : EngineState) (id : String) (b : Bool) : EngineState :=
  { s with checked := fun x => if x = id then b else s.checked x }

/-- `updateCategoryCheckboxState`: recount the checked members of the
category; 0 members checked gives an unchecked indicator, all members checked
gives a fully checked indicator, and otherwise only the `indeterminate` flag
is set (the `checked` property keeps its previous value).  An unknown
category name is logged and ignored. -/
def updateCategoryCheckboxState (fs : List Feature) (s : EngineState) (cname : String) : EngineState :=
  let catFeats := categoryFeatures fs cname
  if catFeats.isEmpty then s
  else
    let cnt := catFeats.countP (fun f => s.checked f.id)
    let ind : Indicator :=
      if cnt = 0 then ⟨false, false⟩
      else if cnt = catFeats.length then ⟨true, false⟩
      else ⟨(s.catInd cname).checked, true⟩
    { s with catInd := fun c => if c = cname then ind else s.catInd c }

/-- `updateGlobalCheckboxState`: same switch over the cached
`selected_options` counter against the total option count. -/
def updateGlobalCheckboxState (fs : List Feature) (s : EngineState) : EngineState :=
  let ind : Indicator :=
    if s.selected_options = 0 then ⟨false, false⟩
    else if s.selected_options = (totalOptions fs : Int) then ⟨true, false⟩
    else ⟨s.globalInd.checked, true⟩
  { s with globalInd := ind }

/-- `checkUncheckOptionById(id, check, updateDependencies)` together with the
non-UI `handleOptionStateChange` call it makes after flipping the checkbox:
an unknown id or a checkbox already in the requested state is a no-op;
otherwise the checkbox is flipped, the counter adjusted, the matching cascade
run (`enableDependenciesForFeature` on the dependencies after a check,
`disabledDependentsForFeature` on the `requiredFor` edges after an uncheck,
skipped entirely when `updateDependencies` is false), and finally the
feature's category indicator and the global indicator are refreshed. -/
def checkUncheckOptionById (fs : List Feature) : Nat → EngineState → String → Bool → Bool → EngineState
  | 0, s, _, _, _ => s
  | fuel + 1, s, id, check, updateDependencies =>
    match getOptionById fs id with
    | none => s
    | some f =>
      if s.checked f.id = check then s
      else
        let s1 := setChecked s f.id check
        let s2 :=
          if check then
            let sa := { s1 with selected_options := s1.selected_options + 1 }
            if updateDependencies then
              f.dependencies.foldl (fun t d => checkUncheckOptionById fs fuel t d true true) sa
            else sa
          else
            let sa := { s1 with selected_options := s1.selected_options - 1 }
            if updateDependencies then
              (requiredFor fs f.id).foldl (fun t d => checkUncheckOptionById fs fuel t d false true) sa
            else sa
        updateGlobalCheckboxState fs (updateCategoryCheckboxState fs s2 f.category.name)

/-- `enableDependenciesForFeature`: check every dependency of the feature. -/
def enableDependenciesForFeature (fs : List Feature) (fuel : Nat) (s : EngineState) (id : String) : EngineState :=
  match getOptionById fs id with
  | none => s
  | some f =>
    if f.dependencies.isEmpty then s
    else f.dependencies.foldl (fun t d => checkUncheckOptionById fs fuel t d true true) s

/-- `disabledDependentsForFeature`: uncheck every feature listed in the
`requiredFor` edges of the feature (the confirm-button action of the
dependency modal, and the silent path for programmatic unchecks). -/
def disabledDependentsForFeature (fs : List Feature) (fuel : Nat) (s : EngineState) (id : String) : EngineState :=
  match getOptionById fs id with
  | none => s
  | some f =>
    if requiredFor fs f.id = [] then s
    else (requiredFor fs f.id).foldl (fun t d => checkUncheckOptionById fs fuel t d false true) s

/-- `askToDisableDependentsForFeature` computes the enabled dependent closure
and fills the confirmation modal; it changes no selection state itself.  Its
buttons are modelled as separate operations. -/
def askToDisableDependentsForFeature (fs : List Feature) (s : EngineState) (id : String) : EngineState :=
  s

/-- `handleOptionStateChange(feature_id, triggered_by_ui, updateDependencies)`
as called after the checkbox element already carries its new state (the
browser flips a checkbox before firing `onclick`). -/
def handleOptionStateChange (fs : List Feature) (fuel : Nat) (s : EngineState) (id : String) (triggered_by_ui updateDependencies : Bool) : EngineState :=
  if elementExists fs id = false then s
  else
    match getOptionById fs id with
    | none => s
    | some f =>
      let s2 :=
        if s.checked id then
          let sa := { s with selected_options := s.selected_options + 1 }
          if updateDependencies then
            f.dependencies.foldl (fun t d => checkUncheckOptionById fs fuel t d true true) sa
          else sa
        else
          let sa := { s with selected_options := s.selected_options - 1 }
          if updateDependencies then
            if triggered_by_ui then
              askToDisableDependentsForFeature fs sa f.id
            else
              (requiredFor fs f.id).foldl (fun t d => checkUncheckOptionById fs fuel t d false true) sa
          else sa
      updateGlobalCheckboxState fs (updateCategoryCheckboxState fs s2 f.category.name)

/-- A user click on a rendered feature checkbox: the browser flips
`element.checked`, then `onclick` fires
`Features.handleOptionStateChange(this.id, true)`. -/
def clickFeatureCheckbox (fs : List Feature) (fuel : Nat) (s : EngineState) (id : String) : EngineState :=
  if elementExists fs id then
    handleOptionStateChange fs fuel (setChecked s id (!(s.checked id))) id true true
  else s

/-- `featureIsDisabledByDefault`. -/
def featureIsDisabledByDefault (fs : List Feature) (id : String) : Bool :=
  match getOptionById fs id with
  | some f => !f.default_enabled
  | none => false

/-- `featureisEnabledByDefault` (sic). -/
def featureisEnabledByDefault (fs : List Feature) (id : String) : Bool :=
  !featureIsDisabledByDefault fs id

/-- `applyDefaults`: force every catalog feature, in catalog order, to its
default state through the cascading commit path. -/
def applyDefaults (fs : List Feature) (fuel : Nat) (s : EngineState) : EngineState :=
  fs.foldl (fun t f => checkUncheckOptionById fs fuel t f.id (featureisEnabledByDefault fs f.id) true) s

/-- `checkUncheckCategory`: force every member of the category through the
cascading commit path. -/
def checkUncheckCategory (fs : List Feature) (fuel : Nat) (s : EngineState) (cname : String) (check : Bool) : EngineState :=
  (categoryFeatures fs cname).foldl (fun t f => checkUncheckOptionById fs fuel t f.id check true) s

/-- `checkUncheckAll`: `checkUncheckCategory` over every category. -/
def checkUncheckAll (fs : List Feature) (fuel : Nat) (s : EngineState) (check : Bool) : EngineState :=
  (categoryNames fs).foldl (fun t c => checkUncheckCategory fs fuel t c check) s

/-- `applyRebuildFeatures(featuresList)`: uncheck everything, then check
exactly the listed ids with `updateDependencies = false` (no dependency
auto-enable). -/
def applyRebuildFeatures (fs : List Feature) (fuel : Nat) (s : EngineState) (ids : List String) : EngineState :=
  ids.foldl (fun t fid => checkUncheckOptionById fs fuel t fid true false) (checkUncheckAll fs fuel s false)

/-- `getEnabledDependentFeaturesHelper`: depth-first collection of the
enabled dependent closure, guarded by a visited set.  The threaded state is
`(visited, dependent_features)`. -/
def getEnabledDependentFeaturesHelper (fs : List Feature) (s : EngineState) : Nat → String → List String × List String → List String × List String
  | 0, _, st => st
  | fuel + 1, fid, st =>
    if st.1.contains fid then st
    else
      match getOptionById fs fid with
      | none => st
      | some f =>
        if s.checked f.id = false then st
        else
          let st1 := (fid :: st.1, st.2 ++ [fid])
          (requiredFor fs fid).foldl (fun t d => getEnabledDependentFeaturesHelper fs s fuel d t) st1

/-- `getEnabledDependentFeaturesFor`: run the helper over the `requiredFor`
edges of the feature, starting from an empty visited set. -/
def getEnabledDependentFeaturesFor (fs : List Feature) (s : EngineState) (fuel : Nat) (fid : String) : List String :=
  match getOptionById fs fid with
  | none => []
  | some f =>
    if requiredFor fs fid = [] then []
    else ((requiredFor fs fid).foldl (fun t d => getEnabledDependentFeaturesHelper fs s fuel d t) ([], [])).2

/-- Enough fuel for every cascade: along any chain of nested productive calls
each frame flips a distinct catalog id towards the (fixed) target state, so
the nesting depth never exceeds the catalog length plus one. -/
def engineFuel (fs : List Feature) : Nat :=
  fs.length + 1

/-- The state right after `Features.reset` plus `fillBuildOptions` on a fresh
page: every rendered checkbox unchecked, counter zero, all indicators clear. -/
def freshState : EngineState :=
  { checked := fun _ => false
    selected_options := 0
    catInd := fun _ => ⟨false, false⟩
    globalInd := ⟨false, false⟩ }

/-- `selectedIds`: the ids whose checkbox is currently checked, in DOM order
(the serialisation the submit handler sends as `selected_features`). -/
def selectedIds (fs : List Feature) (s : EngineState) : List String :=
  (allIds fs).filter (fun i => s.checked i)

/-! ## Basic catalog lemmas -/

theorem getOptionById_id {fs : List Feature} {id : String} {f : Feature}
    (h : getOptionById fs id = some f) : f.id = id := by
  have := List.find?_some h
  simpa using this

theorem getOptionById_mem {fs : List Feature} {id : String} {f : Feature}
    (h : getOptionById fs id = some f) : f ∈ fs := by
  have := List.mem_of_find?_eq_some h
  simpa using this

theorem elementExists_iff {fs : List Feature} {id : String} :
    elementExists fs id = true ↔ ∃ f ∈ fs, f.id = id := by
  simp [elementExists]

theorem elementExists_of_getOptionById {fs : List Feature} {id : String} {f : Feature}
    (h : getOptionById fs id = some f) : elementExists fs id = true := by
  exact elementExists_iff.2 ⟨f, getOptionById_mem h, getOptionById_id h⟩

theorem getOptionById_isSome_of_elementExists {fs : List Feature} {id : String}
    (h : elementExists fs id = true) : ∃ f, getOptionById fs id = some f := by
  rcases elementExists_iff.1 h with ⟨f, hf, hfid⟩
  have hs : (fs.reverse.find? (fun g => g.id == id)).isSome = true := by
    rw [List.find?_isSome]
    exact ⟨f, by simpa using hf, by simp [hfid]⟩
  rcases Option.isSome_iff_exists.1 hs with ⟨g, hg⟩
  exact ⟨g, hg⟩

theorem getOptionById_eq_none_of_not_elementExists {fs : List Feature} {id : String}
    (h : elementExists fs id = false) : getOptionById fs id = none := by
  rcases hopt : getOptionById fs id with _ | f
  · rfl
  · exact absurd (elementExists_of_getOptionById hopt) (by simp [h])

theorem mem_allIds_iff {fs : List Feature} {id : String} :
    id ∈ allIds fs ↔ elementExists fs id = true := by
  rw [allIds, List.mem_dedup, List.mem_map, elementExists_iff]

theorem mem_requiredFor_iff {fs : List Feature} {d x : String} :
    x ∈ requiredFor fs d ↔ ∃ f ∈ fs, f.id = x ∧ d ∈ f.dependencies := by
  induction fs with
  | nil => simp [requiredFor]
  | cons f fs ih =>
    simp only [requiredFor, List.foldr_cons, List.mem_append] at *
    constructor
    · rintro (h | h)
      · simp only [List.mem_map, List.mem_filter] at h
        rcases h with ⟨y, ⟨hy, hyd⟩, rfl⟩
        have hyd2 : y = d := by simpa using hyd
        exact ⟨f, by simp, rfl, hyd2 ▸ hy⟩
      · rcases ih.1 h with ⟨g, hg, hgx, hgd⟩
        exact ⟨g, by simp [hg], hgx, hgd⟩
    · rintro ⟨g, hg, hgx, hgd⟩
      rcases List.mem_cons.1 hg with rfl | hg
      · refine Or.inl ?_
        simp only [List.mem_map, List.mem_filter]
        exact ⟨d, ⟨hgd, by simp⟩, hgx⟩
      · exact Or.inr (ih.2 ⟨g, hg, hgx, hgd⟩)

theorem elementExists_of_mem_requiredFor {fs : List Feature} {d x : String}
    (h : x ∈ requiredFor fs d) : elementExists fs x = true := by
  rcases mem_requiredFor_iff.1 h with ⟨f, hf, hfx, _⟩
  exact elementExists_iff.2 ⟨f, hf, hfx⟩

theorem mem_requiredFor_of_dep {fs : List Feature} {f : Feature} (hf : f ∈ fs) {d : String}
    (hd : d ∈ f.dependencies) : f.id ∈ requiredFor fs d :=
  mem_requiredFor_iff.2 ⟨f, hf, rfl, hd⟩

/-! ## State-field lemmas -/

/-- Flip a checkbox on and bump the counter: the state change of a productive
check, before cascades and indicator refreshes. -/
def flipOn (s : EngineState) (id : String) : EngineState :=
  { setChecked s id true with selected_options := s.selected_options + 1 }

/-- Flip a checkbox off and drop the counter. -/
def flipOff (s : EngineState) (id : String) : EngineState :=
  { setChecked s id false with selected_options := s.selected_options - 1 }

@[simp] theorem setChecked_checked (s : EngineState) (id : String) (b : Bool) (x : String) :
    (setChecked s id b).checked x = if x = id then b else s.checked x := rfl

@[simp] theorem setChecked_selected (s : EngineState) (id : String) (b : Bool) :
    (setChecked s id b).selected_options = s.selected_options := rfl

@[simp] theorem setChecked_catInd (s : EngineState) (id : String) (b : Bool) :
    (setChecked s id b).catInd = s.catInd := rfl

@[simp] theorem setChecked_globalInd (s : EngineState) (id : String) (b : Bool) :
    (setChecked s id b).globalInd = s.globalInd := rfl

@[simp] theorem flipOn_checked (s : EngineState) (id x : String) :
    (flipOn s id).checked x = if x = id then true else s.checked x := rfl

@[simp] theorem flipOn_selected (s : EngineState) (id : String) :
    (flipOn s id).selected_options = s.selected_options + 1 := rfl

@[simp] theorem flipOn_catInd (s : EngineState) (id : String) :
    (flipOn s id).catInd = s.catInd := rfl

@[simp] theorem flipOn_globalInd (s : EngineState) (id : String) :
    (flipOn s id).globalInd = s.globalInd := rfl

@[simp] theorem flipOff_checked (s : EngineState) (id x : String) :
    (flipOff s id).checked x = if x = id then false else s.checked x := rfl

@[simp] theorem flipOff_selected (s : EngineState) (id : String) :
    (flipOff s id).selected_options = s.selected_options - 1 := rfl

@[simp] theorem flipOff_catInd (s : EngineState) (id : String) :
    (flipOff s id).catInd = s.catInd := rfl

@[simp] theorem flipOff_globalInd (s : EngineState) (id : String) :
    (flipOff s id).globalInd = s.globalInd := rfl

@[simp] theorem updateCategory_checked (fs : List Feature) (s : EngineState) (c : String) :
    (updateCategoryCheckboxState fs s c).checked = s.checked := by
  simp only [updateCategoryCheckboxState]
  split <;> rfl

@[simp] theorem updateCategory_selected (fs : List Feature) (s : EngineState) (c : String) :
    (updateCategoryCheckboxState fs s c).selected_options = s.selected_options := by
  simp only [updateCategoryCheckboxState]
  split <;> rfl

@[simp] theorem updateCategory_globalInd (fs : List Feature) (s : EngineState) (c : String) :
    (updateCategoryCheckboxState fs s c).globalInd = s.globalInd := by
  simp only [updateCategoryCheckboxState]
  split <;> rfl

theorem updateCategory_catInd_other (fs : List Feature) (s : EngineState) {c c2 : String}
    (h : c2 ≠ c) : (updateCategoryCheckboxState fs s c).catInd c2 = s.catInd c2 := by
  by_cases hemp : (categoryFeatures fs c).isEmpty
  · simp [updateCategoryCheckboxState, hemp]
  · simp [updateCategoryCheckboxState, hemp, h]

@[simp] theorem updateGlobal_checked (fs : List Feature) (s : EngineState) :
    (updateGlobalCheckboxState fs s).checked = s.checked := rfl

@[simp] theorem updateGlobal_selected (fs : List Feature) (s : EngineState) :
    (updateGlobalCheckboxState fs s).selected_options = s.selected_options := rfl

@[simp] theorem updateGlobal_catInd (fs : List Feature) (s : EngineState) :
    (updateGlobalCheckboxState fs s).catInd = s.catInd := rfl

/-! ## Cascade unfolding equations -/

theorem cu_zero (fs : List Feature) (s : EngineState) (id : String) (c u : Bool) :
    checkUncheckOptionById fs 0 s id c u = s := rfl

theorem cu_none {fs : List Feature} {id : String} (hopt : getOptionById fs id = none)
    (fuel : Nat) (s : EngineState) (c u : Bool) :
    checkUncheckOptionById fs fuel s id c u = s := by
  cases fuel with
  | zero => rfl
  | succ n => simp [checkUncheckOptionById, hopt]

theorem cu_same {fs : List Feature} {id : String} {f : Feature} {s : EngineState} {c : Bool}
    (hopt : getOptionById fs id = some f) (hch : s.checked id = c)
    (fuel : Nat) (u : Bool) :
    checkUncheckOptionById fs (fuel + 1) s id c u = s := by
  have hid := getOptionById_id hopt
  simp [checkUncheckOptionById, hopt, hid, hch]

theorem cu_same_any {fs : List Feature} {id : String} {f : Feature} {s : EngineState} {c : Bool}
    (hopt : getOptionById fs id = some f) (hch : s.checked id = c)
    (fuel : Nat) (u : Bool) :
    checkUncheckOptionById fs fuel s id c u = s := by
  cases fuel with
  | zero => rfl
  | succ n => exact cu_same hopt hch n u

theorem cu_succ_true {fs : List Feature} {id : String} {f : Feature} {s : EngineState}
    (hopt : getOptionById fs id = some f) (hch : s.checked id = false)
    (fuel : Nat) (u : Bool) :
    checkUncheckOptionById fs (fuel + 1) s id true u =
      updateGlobalCheckboxState fs (updateCategoryCheckboxState fs
        (if u then
          f.dependencies.foldl (fun t d => checkUncheckOptionById fs fuel t d true true)
            (flipOn s id)
        else flipOn s id) f.category.name) := by
  have hid := getOptionById_id hopt
  simp only [checkUncheckOptionById, hopt, hid, hch, Bool.false_eq_true, if_false]
  rfl

theorem cu_succ_false {fs : List Feature} {id : String} {f : Feature} {s : EngineState}
    (hopt : getOptionById fs id = some f) (hch : s.checked id = true)
    (fuel : Nat) (u : Bool) :
    checkUncheckOptionById fs (fuel + 1) s id false u =
      updateGlobalCheckboxState fs (updateCategoryCheckboxState fs
        (if u then
          (requiredFor fs id).foldl (fun t d => checkUncheckOptionById fs fuel t d false true)
            (flipOff s id)
        else flipOff s id) f.category.name) := by
  have hid := getOptionById_id hopt
  simp only [checkUncheckOptionById, hopt, hid, hch, Bool.true_eq_false, if_false]
  rfl

/-! ## Generic fold preservation -/

theorem foldl_preserve {α : Type} {P : EngineState → Prop} {step : EngineState → α → EngineState}
    (h : ∀ t a, P t → P (step t a)) :
    ∀ (L : List α) (t : EngineState), P t → P (L.foldl step t) := by
  intro L
  induction L with
  | nil => intro t ht; simpa using ht
  | cons a L ih =>
    intro t ht
    simpa using ih (step t a) (h t a ht)

/-! ## Cascade monotonicity and basic behaviour -/

theorem cu_true_mono (fs : List Feature) :
    ∀ (fuel : Nat) (s : EngineState) (id : String) (u : Bool) (x : String),
      s.checked x = true → (checkUncheckOptionById fs fuel s id true u).checked x = true := by
  intro fuel
  induction fuel with
  | zero => intro s id u x hx; simpa [cu_zero] using hx
  | succ n ih =>
    intro s id u x hx
    rcases hopt : getOptionById fs id with _ | f
    · simpa [cu_none hopt] using hx
    · by_cases hch : s.checked id = true
      · simpa [cu_same hopt hch] using hx
      · have hch2 : s.checked id = false := by
          cases h2 : s.checked id
          · rfl
          · exact absurd h2 hch
        rw [cu_succ_true hopt hch2]
        have hbase : (flipOn s id).checked x = true := by
          simp only [flipOn_checked]
          split <;> simp [hx]
        have hfold : ∀ (L : List String) (t : EngineState), t.checked x = true →
            (L.foldl (fun t d => checkUncheckOptionById fs n t d true true) t).checked x = true :=
          foldl_preserve (fun t d ht => ih t d true x ht)
        simp only [updateGlobal_checked, updateCategory_checked]
        by_cases hu : u
        · simpa [hu] using hfold _ _ hbase
        · simpa [hu] using hbase

theorem cu_false_anti (fs : List Feature) :
    ∀ (fuel : Nat) (s : EngineState) (id : String) (u : Bool) (x : String),
      s.checked x = false → (checkUncheckOptionById fs fuel s id false u).checked x = false := by
  intro fuel
  induction fuel with
  | zero => intro s id u x hx; simpa [cu_zero] using hx
  | succ n ih =>
    intro s id u x hx
    rcases hopt : getOptionById fs id with _ | f
    · simpa [cu_none hopt] using hx
    · by_cases hch : s.checked id = false
      · simpa [cu_same hopt hch] using hx
      · have hch2 : s.checked id = true := by
          cases h2 : s.checked id
          · exact absurd h2 hch
          · rfl
        rw [cu_succ_false hopt hch2]
        have hbase : (flipOff s id).checked x = false := by
          simp only [flipOff_checked]
          split <;> simp [hx]
        have hfold : ∀ (L : List String) (t : EngineState), t.checked x = false →
            (L.foldl (fun t d => checkUncheckOptionById fs n t d false true) t).checked x = false :=
          foldl_preserve (fun t d ht => ih t d true x ht)
        simp only [updateGlobal_checked, updateCategory_checked]
        by_cases hu : u
        · simpa [hu] using hfold _ _ hbase
        · simpa [hu] using hbase

theorem cu_unknown_unchanged (fs : List Feature) {x : String}
    (hx : elementExists fs x = false) :
    ∀ (fuel : Nat) (s : EngineState) (id : String) (c u : Bool),
      (checkUncheckOptionById fs fuel s id c u).checked x = s.checked x := by
  intro fuel
  induction fuel with
  | zero => intro s id c u; simp [cu_zero]
  | succ n ih =>
    intro s id c u
    rcases hopt : getOptionById fs id with _ | f
    · simp [cu_none hopt]
    · have hne : x ≠ id := by
        intro h
        rw [h] at hx
        exact absurd (elementExists_of_getOptionById hopt) (by simp [hx])
      by_cases hch : s.checked id = c
      · simp [cu_same hopt hch]
      · have hfold : ∀ (c2 : Bool) (L : List String) (t : EngineState), t.checked x = s.checked x →
            (L.foldl (fun t d => checkUncheckOptionById fs n t d c2 true) t).checked x = s.checked x := by
          intro c2
          exact foldl_preserve (fun t d ht => by rw [ih t d c2 true]; exact ht)
        cases c with
        | true =>
          have hch2 : s.checked id = false := by
            cases h2 : s.checked id
            · rfl
            · exact absurd h2 (by simpa [h2] using hch)
          rw [cu_succ_true hopt hch2]
          have hbase : (flipOn s id).checked x = s.checked x := by simp [hne]
          simp only [updateGlobal_checked, updateCategory_checked]
          by_cases hu : u
          · simpa [hu] using hfold true _ _ hbase
          · simpa [hu] using hbase
        | false =>
          have hch2 : s.checked id = true := by
            cases h2 : s.checked id
            · exact absurd h2 (by simpa [h2] using hch)
            · rfl
          rw [cu_succ_false hopt hch2]
          have hbase : (flipOff s id).checked x = s.checked x := by simp [hne]
          simp only [updateGlobal_checked, updateCategory_checked]
          by_cases hu : u
          · simpa [hu] using hfold false _ _ hbase
          · simpa [hu] using hbase

theorem cu_target {fs : List Feature} {id : String} {f : Feature}
    (hopt : getOptionById fs id = some f) (fuel : Nat) (s : EngineState) (c u : Bool) :
    (checkUncheckOptionById fs (fuel + 1) s id c u).checked id = c := by
  by_cases hch : s.checked id = c
  · rw [cu_same hopt hch]
    exact hch
  · cases c with
    | true =>
      have hch2 : s.checked id = false := by
        cases h2 : s.checked id
        · rfl
        · exact absurd h2 (by simpa [h2] using hch)
      rw [cu_succ_true hopt hch2]
      have hbase : (flipOn s id).checked id = true := by simp
      simp only [updateGlobal_checked, updateCategory_checked]
      by_cases hu : u
      · simpa [hu] using
          foldl_preserve (fun t d ht => cu_true_mono fs fuel t d true id ht) _ _ hbase
      · simpa [hu] using hbase
    | false =>
      have hch2 : s.checked id = true := by
        cases h2 : s.checked id
        · exact absurd h2 (by simpa [h2] using hch)
        · rfl
      rw [cu_succ_false hopt hch2]
      have hbase : (flipOff s id).checked id = false := by simp
      simp only [updateGlobal_checked, updateCategory_checked]
      by_cases hu : u
      · simpa [hu] using
          foldl_preserve (fun t d ht => cu_false_anti fs fuel t d true id ht) _ _ hbase
      · simpa [hu] using hbase

/-! ## The user-click composites -/

theorem click_eq_cu {fs : List Feature} {id : String} {s : EngineState}
    (hel : elementExists fs id = true) (hch : s.checked id = false) (fuel : Nat) :
    clickFeatureCheckbox fs fuel s id = checkUncheckOptionById fs (fuel + 1) s id true true := by
  rcases getOptionById_isSome_of_elementExists hel with ⟨f, hopt⟩
  rw [cu_succ_true hopt hch]
  simp only [clickFeatureCheckbox, hel, if_true, handleOptionStateChange, hopt,
    Bool.true_eq_false, if_false, hch]
  simp [flipOn, setChecked]

theorem click_pend {fs : List Feature} {id : String} {s : EngineState} {f : Feature}
    (hel : elementExists fs id = true) (hch : s.checked id = true)
    (hopt : getOptionById fs id = some f) (fuel : Nat) :
    clickFeatureCheckbox fs fuel s id =
      updateGlobalCheckboxState fs
        (updateCategoryCheckboxState fs (flipOff s id) f.category.name) := by
  simp only [clickFeatureCheckbox, hel, if_true, handleOptionStateChange, hopt,
    Bool.true_eq_false, if_false, hch]
  simp [flipOff, setChecked, askToDisableDependentsForFeature]

/-! ## The selected-options counter invariant -/

/-- The number of distinct rendered checkboxes currently checked. -/
def onCount (fs : List Feature) (s : EngineState) : Nat :=
  (allIds fs).countP (fun i => s.checked i)

/-- The cached counter agrees with a full recount. -/
def CounterOK (fs : List Feature) (s : EngineState) : Prop :=
  s.selected_options = (onCount fs s : Int)

theorem allIds_nodup (fs : List Feature) : (allIds fs).Nodup :=
  List.nodup_dedup _

theorem countP_set_true {l : List String} (hl : l.Nodup) {id : String} (hid : id ∈ l)
    {chk : String → Bool} (hch : chk id = false) :
    l.countP (fun x => if x = id then true else chk x) = l.countP chk + 1 := by
  induction l with
  | nil => cases hid
  | cons a l ih =>
    rcases List.mem_cons.1 hid with h1 | hmem
    · subst h1
      have hnot : id ∉ l := (List.nodup_cons.1 hl).1
      have hcong : l.countP (fun x => if x = id then true else chk x) = l.countP chk := by
        apply List.countP_congr
        intro x hx
        have hne : x ≠ id := fun h => hnot (h ▸ hx)
        simp [hne]
      rw [List.countP_cons, List.countP_cons, hcong]
      simp [hch]
    · have hne : a ≠ id := fun h => (List.nodup_cons.1 hl).1 (h ▸ hmem)
      have hrec := ih (List.nodup_cons.1 hl).2 hmem
      rw [List.countP_cons, List.countP_cons, hrec]
      have : (if a = id then true else chk a) = chk a := by simp [hne]
      rw [this]
      omega

theorem countP_set_false {l : List String} (hl : l.Nodup) {id : String} (hid : id ∈ l)
    {chk : String → Bool} (hch : chk id = true) :
    l.countP (fun x => if x = id then false else chk x) + 1 = l.countP chk := by
  induction l with
  | nil => cases hid
  | cons a l ih =>
    rcases List.mem_cons.1 hid with h1 | hmem
    · subst h1
      have hnot : id ∉ l := (List.nodup_cons.1 hl).1
      have hcong : l.countP (fun x => if x = id then false else chk x) = l.countP chk := by
        apply List.countP_congr
        intro x hx
        have hne : x ≠ id := fun h => hnot (h ▸ hx)
        simp [hne]
      rw [List.countP_cons, List.countP_cons, hcong]
      simp [hch]
    · have hne : a ≠ id := fun h => (List.nodup_cons.1 hl).1 (h ▸ hmem)
      have hrec := ih (List.nodup_cons.1 hl).2 hmem
      rw [List.countP_cons, List.countP_cons]
      have : (if a = id then false else chk a) = chk a := by simp [hne]
      rw [this]
      omega

theorem onCount_flipOn {fs : List Feature} {id : String} {f : Feature} {s : EngineState}
    (hopt : getOptionById fs id = some f) (hch : s.checked id = false) :
    onCount fs (flipOn s id) = onCount fs s + 1 := by
  have hid : id ∈ allIds fs := mem_allIds_iff.2 (elementExists_of_getOptionById hopt)
  exact countP_set_true (allIds_nodup fs) hid hch

theorem onCount_flipOff {fs : List Feature} {id : String} {f : Feature} {s : EngineState}
    (hopt : getOptionById fs id = some f) (hch : s.checked id = true) :
    onCount fs (flipOff s id) + 1 = onCount fs s := by
  have hid : id ∈ allIds fs := mem_allIds_iff.2 (elementExists_of_getOptionById hopt)
  exact countP_set_false (allIds_nodup fs) hid hch

theorem onCount_updateCategory (fs : List Feature) (s : EngineState) (c : String) :
    onCount fs (updateCategoryCheckboxState fs s c) = onCount fs s := by
  unfold onCount
  rw [updateCategory_checked]

theorem onCount_updateGlobal (fs : List Feature) (s : EngineState) :
    onCount fs (updateGlobalCheckboxState fs s) = onCount fs s := rfl

theorem CounterOK_updateGlobal {fs : List Feature} {s : EngineState} (h : CounterOK fs s) :
    CounterOK fs (updateGlobalCheckboxState fs s) := by
  unfold CounterOK at *
  rw [updateGlobal_selected, onCount_updateGlobal]
  exact h

theorem CounterOK_updateCategory {fs : List Feature} {s : EngineState} {c : String}
    (h : CounterOK fs s) : CounterOK fs (updateCategoryCheckboxState fs s c) := by
  unfold CounterOK at *
  rw [updateCategory_selected, onCount_updateCategory]
  exact h

theorem cu_preserves_CounterOK (fs : List Feature) :
    ∀ (fuel : Nat) (s : EngineState) (id : String) (c u : Bool),
      CounterOK fs s → CounterOK fs (checkUncheckOptionById fs fuel s id c u) := by
  intro fuel
  induction fuel with
  | zero => intro s id c u h; simpa [cu_zero] using h
  | succ n ih =>
    intro s id c u h
    rcases hopt : getOptionById fs id with _ | f
    · simpa [cu_none hopt] using h
    · by_cases hch : s.checked id = c
      · simpa [cu_same hopt hch] using h
      · have hfold : ∀ (c2 : Bool) (L : List String) (t : EngineState), CounterOK fs t →
            CounterOK fs (L.foldl (fun t d => checkUncheckOptionById fs n t d c2 true) t) := by
          intro c2
          exact foldl_preserve (fun t d ht => ih t d c2 true ht)
        cases c with
        | true =>
          have hch2 : s.checked id = false := by
            cases h2 : s.checked id
            · rfl
            · exact absurd h2 (by simpa [h2] using hch)
          rw [cu_succ_true hopt hch2]
          have hbase : CounterOK fs (flipOn s id) := by
            unfold CounterOK at *
            rw [flipOn_selected, onCount_flipOn hopt hch2, h]
            push_cast
            ring
          apply CounterOK_updateGlobal
          apply CounterOK_updateCategory
          by_cases hu : u
          · simpa [hu] using hfold true _ _ hbase
          · simpa [hu] using hbase
        | false =>
          have hch2 : s.checked id = true := by
            cases h2 : s.checked id
            · exact absurd h2 (by simpa [h2] using hch)
            · rfl
          rw [cu_succ_false hopt hch2]
          have hbase : CounterOK fs (flipOff s id) := by
            unfold CounterOK at *
            rw [flipOff_selected, h]
            have := onCount_flipOff hopt hch2
            omega
          apply CounterOK_updateGlobal
          apply CounterOK_updateCategory
          by_cases hu : u
          · simpa [hu] using hfold false _ _ hbase
          · simpa [hu] using hbase

/-! ## Tri-state indicator invariants -/

/-- A tri-state checkbox matches a count of `cnt` selected out of `total`:
indeterminate exactly in the strict middle, and when not indeterminate the
`checked` property reflects whether anything is selected. -/
def IndMatches (ind : Indicator) (cnt total : Nat) : Prop :=
  (ind.indeterminate = true ↔ (cnt ≠ 0 ∧ cnt ≠ total)) ∧
  (ind.indeterminate = false → ind.checked = decide (cnt ≠ 0))

/-- The same for the global checkbox, whose switch runs over the (integer)
cached counter. -/
def GIndMatches (ind : Indicator) (sel : Int) (total : Nat) : Prop :=
  (ind.indeterminate = true ↔ (sel ≠ 0 ∧ sel ≠ (total : Int))) ∧
  (ind.indeterminate = false → ind.checked = decide (sel ≠ 0))

/-- Checked members of a category. -/
def catCount (fs : List Feature) (s : EngineState) (c : String) : Nat :=
  (categoryFeatures fs c).countP (fun f => s.checked f.id)

/-- The category checkbox for `c` matches the member recount. -/
def CatOKat (fs : List Feature) (s : EngineState) (c : String) : Prop :=
  IndMatches (s.catInd c) (catCount fs s c) (categoryFeatures fs c).length

/-- The global checkbox matches the cached counter. -/
def GlobalOK (fs : List Feature) (s : EngineState) : Prop :=
  GIndMatches s.globalInd s.selected_options (totalOptions fs)

theorem IndMatches_compute (cnt total : Nat) (prev : Indicator) :
    IndMatches
      (if cnt = 0 then ⟨false, false⟩
       else if cnt = total then ⟨true, false⟩
       else ⟨prev.checked, true⟩) cnt total := by
  unfold IndMatches
  by_cases h0 : cnt = 0
  · simp [h0]
  · by_cases ht : cnt = total
    · have htne : total ≠ 0 := by omega
      simp [h0, ht, htne]
    · simp [h0, ht]

theorem GIndMatches_compute (sel : Int) (total : Nat) (prev : Indicator) :
    GIndMatches
      (if sel = 0 then ⟨false, false⟩
       else if sel = (total : Int) then ⟨true, false⟩
       else ⟨prev.checked, true⟩) sel total := by
  unfold GIndMatches
  by_cases h0 : sel = 0
  · simp [h0]
  · by_cases ht : sel = (total : Int)
    · have htne : total ≠ 0 := by
        intro h
        apply h0
        rw [ht, h]
        simp
      simp [h0, ht, htne]
    · simp [h0, ht]

theorem updateGlobal_establishes (fs : List Feature) (s : EngineState) :
    GlobalOK fs (updateGlobalCheckboxState fs s) := by
  unfold GlobalOK updateGlobalCheckboxState
  simpa using GIndMatches_compute s.selected_options (totalOptions fs) s.globalInd

theorem catCount_congr {fs : List Feature} {s t : EngineState} {c : String}
    (h : ∀ x, s.checked x = t.checked x) : catCount fs s c = catCount fs t c := by
  unfold catCount
  apply List.countP_congr
  intro f hf
  rw [h f.id]

theorem updateCategory_establishes {fs : List Feature} {c : String}
    (hne : (categoryFeatures fs c).isEmpty = false) (s : EngineState) :
    CatOKat fs (updateCategoryCheckboxState fs s c) c := by
  unfold CatOKat
  have hcnt : catCount fs (updateCategoryCheckboxState fs s c) c = catCount fs s c :=
    catCount_congr (fun x => by rw [updateCategory_checked])
  rw [hcnt]
  unfold updateCategoryCheckboxState
  rw [if_neg (by simp [hne])]
  simpa [catCount] using
    IndMatches_compute ((categoryFeatures fs c).countP (fun f => s.checked f.id))
      (categoryFeatures fs c).length (s.catInd c)

/-! ## Uniqueness lemmas under distinct ids -/

theorem getOptionById_unique {fs : List Feature} (hnd : (fs.map Feature.id).Nodup)
    {id : String} {f g : Feature} (hopt : getOptionById fs id = some f)
    (hg : g ∈ fs) (hgid : g.id = id) : g = f := by
  have hf : f ∈ fs := getOptionById_mem hopt
  have hfid : f.id = id := getOptionById_id hopt
  exact List.inj_on_of_nodup_map hnd hg hf (by rw [hgid, hfid])

theorem getOptionById_self {fs : List Feature} (hnd : (fs.map Feature.id).Nodup)
    {f : Feature} (hf : f ∈ fs) : getOptionById fs f.id = some f := by
  have hel : elementExists fs f.id = true := elementExists_iff.2 ⟨f, hf, rfl⟩
  rcases getOptionById_isSome_of_elementExists hel with ⟨g, hg⟩
  rw [hg, getOptionById_unique hnd hg hf rfl]

/-! ## Indicator preservation lemmas -/

theorem CatOKat_updateGlobal {fs : List Feature} {s : EngineState} {c : String}
    (h : CatOKat fs s c) : CatOKat fs (updateGlobalCheckboxState fs s) c := by
  unfold CatOKat at *
  have hcnt : catCount fs (updateGlobalCheckboxState fs s) c = catCount fs s c :=
    catCount_congr (fun x => by rw [updateGlobal_checked])
  rw [hcnt]
  exact h

theorem CatOKat_updateCategory_other {fs : List Feature} {s : EngineState} {c c2 : String}
    (hne : c ≠ c2) (h : CatOKat fs s c) :
    CatOKat fs (updateCategoryCheckboxState fs s c2) c := by
  unfold CatOKat at *
  have hcnt : catCount fs (updateCategoryCheckboxState fs s c2) c = catCount fs s c :=
    catCount_congr (fun x => by rw [updateCategory_checked])
  rw [hcnt, updateCategory_catInd_other fs s hne]
  exact h

theorem catCount_flip_other {fs : List Feature} (hnd : (fs.map Feature.id).Nodup)
    {id : String} {f : Feature} (hopt : getOptionById fs id = some f) {c : String}
    (hcat : f.category.name ≠ c) (s : EngineState) (b : Bool) :
    (categoryFeatures fs c).countP
        (fun g => if g.id = id then b else s.checked g.id) = catCount fs s c := by
  unfold catCount
  apply List.countP_congr
  intro g hg
  have hmem : g ∈ fs := List.mem_of_mem_filter hg
  have hgc : g.category.name = c := by
    have := List.of_mem_filter hg
    simpa using this
  have hne : g.id ≠ id := by
    intro h
    have := getOptionById_unique hnd hopt hmem h
    rw [this] at hgc
    exact hcat hgc
  simp [hne]

theorem CatOKat_flipOn_other {fs : List Feature} (hnd : (fs.map Feature.id).Nodup)
    {id : String} {f : Feature} (hopt : getOptionById fs id = some f) {c : String}
    (hcat : f.category.name ≠ c) {s : EngineState} (h : CatOKat fs s c) :
    CatOKat fs (flipOn s id) c := by
  unfold CatOKat at *
  have hcnt : catCount fs (flipOn s id) c = catCount fs s c := by
    unfold catCount
    simpa using catCount_flip_other hnd hopt hcat s true
  rw [hcnt]
  exact h

theorem CatOKat_flipOff_other {fs : List Feature} (hnd : (fs.map Feature.id).Nodup)
    {id : String} {f : Feature} (hopt : getOptionById fs id = some f) {c : String}
    (hcat : f.category.name ≠ c) {s : EngineState} (h : CatOKat fs s c) :
    CatOKat fs (flipOff s id) c := by
  unfold CatOKat at *
  have hcnt : catCount fs (flipOff s id) c = catCount fs s c := by
    unfold catCount
    simpa using catCount_flip_other hnd hopt hcat s false
  rw [hcnt]
  exact h

theorem categoryFeatures_isEmpty_false_of_mem {fs : List Feature} {f : Feature}
    (hf : f ∈ fs) : (categoryFeatures fs f.category.name).isEmpty = false := by
  have : f ∈ categoryFeatures fs f.category.name := by
    unfold categoryFeatures
    exact List.mem_filter.2 ⟨hf, by simp⟩
  cases hemp : (categoryFeatures fs f.category.name).isEmpty
  · rfl
  · rw [List.isEmpty_iff] at hemp
    rw [hemp] at this
    cases this

theorem cu_preserves_CatOKat {fs : List Feature} (hnd : (fs.map Feature.id).Nodup) :
    ∀ (fuel : Nat) (s : EngineState) (id : String) (ch u : Bool) (c : String),
      CatOKat fs s c → CatOKat fs (checkUncheckOptionById fs fuel s id ch u) c := by
  intro fuel
  induction fuel with
  | zero => intro s id ch u c h; simpa [cu_zero] using h
  | succ n ih =>
    intro s id ch u c h
    rcases hopt : getOptionById fs id with _ | f
    · simpa [cu_none hopt] using h
    · by_cases hch : s.checked id = ch
      · simpa [cu_same hopt hch] using h
      · have hfold : ∀ (c2 : Bool) (L : List String) (t : EngineState), CatOKat fs t c →
            CatOKat fs (L.foldl (fun t d => checkUncheckOptionById fs n t d c2 true) t) c := by
          intro c2
          exact foldl_preserve (fun t d ht => ih t d c2 true c ht)
        have hfin : ∀ t : EngineState, CatOKat fs t c →
            CatOKat fs (updateGlobalCheckboxState fs
              (updateCategoryCheckboxState fs t f.category.name)) c := by
          intro t ht
          by_cases hc : c = f.category.name
          · subst hc
            exact CatOKat_updateGlobal
              (updateCategory_establishes
                (categoryFeatures_isEmpty_false_of_mem (getOptionById_mem hopt)) t)
          · exact CatOKat_updateGlobal (CatOKat_updateCategory_other hc ht)
        have hfinE : ∀ t : EngineState,
            CatOKat fs (updateGlobalCheckboxState fs
              (updateCategoryCheckboxState fs t f.category.name)) c ∨ True := fun _ => Or.inr trivial
        cases ch with
        | true =>
          have hch2 : s.checked id = false := by
            cases h2 : s.checked id
            · rfl
            · exact absurd h2 (by simpa [h2] using hch)
          rw [cu_succ_true hopt hch2]
          by_cases hc : c = f.category.name
          · subst hc
            exact CatOKat_updateGlobal
              (updateCategory_establishes
                (categoryFeatures_isEmpty_false_of_mem (getOptionById_mem hopt)) _)
          · have hbase : CatOKat fs (flipOn s id) c :=
              CatOKat_flipOn_other hnd hopt (fun hh => hc hh.symm) h
            apply hfin
            by_cases hu : u
            · simpa [hu] using hfold true _ _ hbase
            · simpa [hu] using hbase
        | false =>
          have hch2 : s.checked id = true := by
            cases h2 : s.checked id
            · exact absurd h2 (by simpa [h2] using hch)
            · rfl
          rw [cu_succ_false hopt hch2]
          by_cases hc : c = f.category.name
          · subst hc
            exact CatOKat_updateGlobal
              (updateCategory_establishes
                (categoryFeatures_isEmpty_false_of_mem (getOptionById_mem hopt)) _)
          · have hbase : CatOKat fs (flipOff s id) c :=
              CatOKat_flipOff_other hnd hopt (fun hh => hc hh.symm) h
            apply hfin
            by_cases hu : u
            · simpa [hu] using hfold false _ _ hbase
            · simpa [hu] using hbase

theorem cu_preserves_GlobalOK (fs : List Feature) (fuel : Nat) (s : EngineState)
    (id : String) (ch u : Bool) (h : GlobalOK fs s) :
    GlobalOK fs (checkUncheckOptionById fs fuel s id ch u) := by
  cases fuel with
  | zero => simpa [cu_zero] using h
  | succ n =>
    rcases hopt : getOptionById fs id with _ | f
    · simpa [cu_none hopt] using h
    · by_cases hch : s.checked id = ch
      · simpa [cu_same hopt hch] using h
      · cases ch with
        | true =>
          have hch2 : s.checked id = false := by
            cases h2 : s.checked id
            · rfl
            · exact absurd h2 (by simpa [h2] using hch)
          rw [cu_succ_true hopt hch2]
          exact updateGlobal_establishes fs _
        | false =>
          have hch2 : s.checked id = true := by
            cases h2 : s.checked id
            · exact absurd h2 (by simpa [h2] using hch)
            · rfl
          rw [cu_succ_false hopt hch2]
          exact updateGlobal_establishes fs _

/-! ## Establishment by a productive toggle -/

theorem cu_establishes_CatOKat {fs : List Feature} {id : String} {f : Feature}
    (hopt : getOptionById fs id = some f) {s : EngineState} {ch : Bool}
    (hch : s.checked id ≠ ch) (n : Nat) (u : Bool) :
    CatOKat fs (checkUncheckOptionById fs (n + 1) s id ch u) f.category.name := by
  have hest := categoryFeatures_isEmpty_false_of_mem (getOptionById_mem hopt)
  cases ch with
  | true =>
    have hch2 : s.checked id = false := by
      cases h2 : s.checked id
      · rfl
      · exact absurd h2 (by simpa [h2] using hch)
    rw [cu_succ_true hopt hch2]
    exact CatOKat_updateGlobal (updateCategory_establishes hest _)
  | false =>
    have hch2 : s.checked id = true := by
      cases h2 : s.checked id
      · exact absurd h2 (by simpa [h2] using hch)
      · rfl
    rw [cu_succ_false hopt hch2]
    exact CatOKat_updateGlobal (updateCategory_establishes hest _)

theorem cu_establishes_GlobalOK {fs : List Feature} {id : String} {f : Feature}
    (hopt : getOptionById fs id = some f) {s : EngineState} {ch : Bool}
    (hch : s.checked id ≠ ch) (n : Nat) (u : Bool) :
    GlobalOK fs (checkUncheckOptionById fs (n + 1) s id ch u) := by
  cases ch with
  | true =>
    have hch2 : s.checked id = false := by
      cases h2 : s.checked id
      · rfl
      · exact absurd h2 (by simpa [h2] using hch)
    rw [cu_succ_true hopt hch2]
    exact updateGlobal_establishes fs _
  | false =>
    have hch2 : s.checked id = true := by
      cases h2 : s.checked id
      · exact absurd h2 (by simpa [h2] using hch)
      · rfl
    rw [cu_succ_false hopt hch2]
    exact updateGlobal_establishes fs _

/-! ## Bulk operations preserve pointwise invariants -/

theorem checkUncheckCategory_preserve {fs : List Feature} {P : EngineState → Prop}
    (hcu : ∀ fuel s id c u, P s → P (checkUncheckOptionById fs fuel s id c u))
    (fuel : Nat) (c : String) (b : Bool) :
    ∀ s, P s → P (checkUncheckCategory fs fuel s c b) :=
  fun s hs => foldl_preserve (fun t f ht => hcu fuel t f.id b true ht) _ s hs

theorem checkUncheckAll_preserve {fs : List Feature} {P : EngineState → Prop}
    (hcu : ∀ fuel s id c u, P s → P (checkUncheckOptionById fs fuel s id c u))
    (fuel : Nat) (b : Bool) :
    ∀ s, P s → P (checkUncheckAll fs fuel s b) :=
  fun s hs =>
    foldl_preserve (fun t c ht => checkUncheckCategory_preserve hcu fuel c b t ht) _ s hs

theorem applyDefaults_preserve {fs : List Feature} {P : EngineState → Prop}
    (hcu : ∀ fuel s id c u, P s → P (checkUncheckOptionById fs fuel s id c u))
    (fuel : Nat) :
    ∀ s, P s → P (applyDefaults fs fuel s) :=
  fun s hs =>
    foldl_preserve (fun t f ht => hcu fuel t f.id (featureisEnabledByDefault fs f.id) true ht) _ s hs

theorem applyRebuildFeatures_preserve {fs : List Feature} {P : EngineState → Prop}
    (hcu : ∀ fuel s id c u, P s → P (checkUncheckOptionById fs fuel s id c u))
    (fuel : Nat) (ids : List String) :
    ∀ s, P s → P (applyRebuildFeatures fs fuel s ids) :=
  fun s hs =>
    foldl_preserve (fun t i ht => hcu fuel t i true false ht) _ _
      (checkUncheckAll_preserve hcu fuel false s hs)

theorem disabledDependentsForFeature_preserve {fs : List Feature} {P : EngineState → Prop}
    (hcu : ∀ fuel s id c u, P s → P (checkUncheckOptionById fs fuel s id c u))
    (fuel : Nat) (id : String) :
    ∀ s, P s → P (disabledDependentsForFeature fs fuel s id) := by
  intro s hs
  unfold disabledDependentsForFeature
  rcases getOptionById fs id with _ | f
  · exact hs
  · by_cases hr : requiredFor fs f.id = []
    · simpa [hr] using hs
    · simp only [hr, if_false]
      exact foldl_preserve (fun t d ht => hcu fuel t d false true ht) _ s hs

/-! ## The click composite preserves the invariants -/

theorem clickFeature_preserves_CounterOK {fs : List Feature} (fuel : Nat)
    (s : EngineState) (id : String) (h : CounterOK fs s) :
    CounterOK fs (clickFeatureCheckbox fs fuel s id) := by
  by_cases hel : elementExists fs id = true
  · rcases getOptionById_isSome_of_elementExists hel with ⟨f, hopt⟩
    by_cases hch : s.checked id = true
    · rw [click_pend hel hch hopt]
      apply CounterOK_updateGlobal
      apply CounterOK_updateCategory
      unfold CounterOK at *
      rw [flipOff_selected, h]
      have := onCount_flipOff hopt hch
      omega
    · have hch2 : s.checked id = false := by
        cases h2 : s.checked id
        · rfl
        · exact absurd h2 hch
      rw [click_eq_cu hel hch2]
      exact cu_preserves_CounterOK fs _ s id true true h
  · unfold clickFeatureCheckbox
    simpa [hel] using h

theorem clickFeature_preserves_CatOKat {fs : List Feature} (hnd : (fs.map Feature.id).Nodup)
    (fuel : Nat) (s : EngineState) (id : String) (c : String) (h : CatOKat fs s c) :
    CatOKat fs (clickFeatureCheckbox fs fuel s id) c := by
  by_cases hel : elementExists fs id = true
  · rcases getOptionById_isSome_of_elementExists hel with ⟨f, hopt⟩
    by_cases hch : s.checked id = true
    · rw [click_pend hel hch hopt]
      by_cases hc : c = f.category.name
      · subst hc
        exact CatOKat_updateGlobal
          (updateCategory_establishes
            (categoryFeatures_isEmpty_false_of_mem (getOptionById_mem hopt)) _)
      · exact CatOKat_updateGlobal (CatOKat_updateCategory_other hc
          (CatOKat_flipOff_other hnd hopt (fun hh => hc hh.symm) h))
    · have hch2 : s.checked id = false := by
        cases h2 : s.checked id
        · rfl
        · exact absurd h2 hch
      rw [click_eq_cu hel hch2]
      exact cu_preserves_CatOKat hnd _ s id true true c h
  · unfold clickFeatureCheckbox
    simpa [hel] using h

theorem clickFeature_preserves_GlobalOK {fs : List Feature} (fuel : Nat)
    (s : EngineState) (id : String) (h : GlobalOK fs s) :
    GlobalOK fs (clickFeatureCheckbox fs fuel s id) := by
  by_cases hel : elementExists fs id = true
  · rcases getOptionById_isSome_of_elementExists hel with ⟨f, hopt⟩
    by_cases hch : s.checked id = true
    · rw [click_pend hel hch hopt]
      exact updateGlobal_establishes fs _
    · have hch2 : s.checked id = false := by
        cases h2 : s.checked id
        · rfl
        · exact absurd h2 hch
      rw [click_eq_cu hel hch2]
      exact cu_preserves_GlobalOK fs _ s id true true h
  · unfold clickFeatureCheckbox
    simpa [hel] using h

/-! ## Reachable engine states -/

/-- The browser flips the category header checkbox (clearing `indeterminate`)
before `onclick` fires `Features.checkUncheckCategory(name, this.checked)`. -/
def categoryCheckboxFlip (s : EngineState) (c : String) : EngineState :=
  { s with catInd := fun x => if x = c then ⟨!(s.catInd c).checked, false⟩ else s.catInd x }

/-- The browser flips the `check-uncheck-all` checkbox before `onclick` fires
`Features.checkUncheckAll(this.checked)`. -/
def globalCheckboxFlip (s : EngineState) : EngineState :=
  { s with globalInd := ⟨!s.globalInd.checked, false⟩ }

/-- All states the engine can reach from a freshly loaded catalog through its
exported operations (programmatic toggles, user clicks on feature, category
and global checkboxes, the confirmation-modal buttons, defaults, bulk
operations and rebuild hydration). -/
inductive Reachable (fs : List Feature) : EngineState → Prop
  | init : Reachable fs freshState
  | toggle (s : EngineState) (id : String) (check udep : Bool) :
      Reachable fs s →
      Reachable fs (checkUncheckOptionById fs (engineFuel fs) s id check udep)
  | click (s : EngineState) (id : String) :
      Reachable fs s → Reachable fs (clickFeatureCheckbox fs (engineFuel fs) s id)
  | confirmDeps (s : EngineState) (id : String) :
      Reachable fs s → Reachable fs (disabledDependentsForFeature fs (engineFuel fs) s id)
  | defaults (s : EngineState) :
      Reachable fs s → Reachable fs (applyDefaults fs (engineFuel fs) s)
  | bulkAll (s : EngineState) (b : Bool) :
      Reachable fs s → Reachable fs (checkUncheckAll fs (engineFuel fs) s b)
  | bulkCategory (s : EngineState) (c : String) (b : Bool) :
      Reachable fs s → Reachable fs (checkUncheckCategory fs (engineFuel fs) s c b)
  | categoryClick (s : EngineState) (c : String) (hc : c ∈ categoryNames fs) :
      Reachable fs s →
      Reachable fs (checkUncheckCategory fs (engineFuel fs)
        (categoryCheckboxFlip s c) c (!(s.catInd c).checked))
  | globalClick (s : EngineState) :
      Reachable fs s →
      Reachable fs (checkUncheckAll fs (engineFuel fs)
        (globalCheckboxFlip s) (!s.globalInd.checked))
  | rebuild (s : EngineState) (ids : List String) :
      Reachable fs s → Reachable fs (applyRebuildFeatures fs (engineFuel fs) s ids)

theorem freshState_CounterOK (fs : List Feature) : CounterOK fs freshState := by
  unfold CounterOK onCount freshState
  simp

theorem freshState_CatOKat (fs : List Feature) (c : String) : CatOKat fs freshState c := by
  unfold CatOKat catCount freshState IndMatches
  simp

theorem freshState_GlobalOK (fs : List Feature) : GlobalOK fs freshState := by
  unfold GlobalOK freshState GIndMatches
  simp

theorem CounterOK_catFlip {fs : List Feature} {s : EngineState} (c : String)
    (h : CounterOK fs s) : CounterOK fs (categoryCheckboxFlip s c) := h

theorem CounterOK_globalFlip {fs : List Feature} {s : EngineState}
    (h : CounterOK fs s) : CounterOK fs (globalCheckboxFlip s) := h

theorem GlobalOK_catFlip {fs : List Feature} {s : EngineState} (c : String)
    (h : GlobalOK fs s) : GlobalOK fs (categoryCheckboxFlip s c) := h

theorem CatOKat_catFlip_other {fs : List Feature} {s : EngineState} {c c2 : String}
    (hne : c2 ≠ c) (h : CatOKat fs s c2) : CatOKat fs (categoryCheckboxFlip s c) c2 := by
  unfold CatOKat at *
  have hcnt : catCount fs (categoryCheckboxFlip s c) c2 = catCount fs s c2 :=
    catCount_congr (fun x => rfl)
  rw [hcnt]
  have hind : (categoryCheckboxFlip s c).catInd c2 = s.catInd c2 := by
    unfold categoryCheckboxFlip
    simp [hne]
  rw [hind]
  exact h

theorem CatOKat_globalFlip {fs : List Feature} {s : EngineState} {c : String}
    (h : CatOKat fs s c) : CatOKat fs (globalCheckboxFlip s) c := by
  unfold CatOKat at *
  have hcnt : catCount fs (globalCheckboxFlip s) c = catCount fs s c :=
    catCount_congr (fun x => rfl)
  rw [hcnt]
  exact h

/-- The counter invariant holds in every reachable state. -/
theorem reachable_CounterOK {fs : List Feature} :
    ∀ {s : EngineState}, Reachable fs s → CounterOK fs s := by
  intro s hr
  induction hr with
  | init => exact freshState_CounterOK fs
  | toggle s id check udep hr ih => exact cu_preserves_CounterOK fs _ s id check udep ih
  | click s id hr ih => exact clickFeature_preserves_CounterOK _ s id ih
  | confirmDeps s id hr ih =>
    exact disabledDependentsForFeature_preserve (cu_preserves_CounterOK fs) _ id s ih
  | defaults s hr ih => exact applyDefaults_preserve (cu_preserves_CounterOK fs) _ s ih
  | bulkAll s b hr ih => exact checkUncheckAll_preserve (cu_preserves_CounterOK fs) _ b s ih
  | bulkCategory s c b hr ih =>
    exact checkUncheckCategory_preserve (cu_preserves_CounterOK fs) _ c b s ih
  | categoryClick s c hc hr ih =>
    exact checkUncheckCategory_preserve (cu_preserves_CounterOK fs) _ c _ _
      (CounterOK_catFlip c ih)
  | globalClick s hr ih =>
    exact checkUncheckAll_preserve (cu_preserves_CounterOK fs) _ _ _
      (CounterOK_globalFlip ih)
  | rebuild s ids hr ih =>
    exact applyRebuildFeatures_preserve (cu_preserves_CounterOK fs) _ ids s ih

/-! ## Category and global clicks restore their indicators -/

theorem catFold_cases {fs : List Feature} (hnd : (fs.map Feature.id).Nodup)
    (c : String) (b : Bool) (n : Nat) :
    ∀ (L : List Feature), (∀ g ∈ L, g ∈ fs ∧ g.category.name = c) → ∀ t : EngineState,
      (L.foldl (fun t g => checkUncheckOptionById fs (n + 1) t g.id b true) t = t
        ∧ ∀ g ∈ L, t.checked g.id = b) ∨
      CatOKat fs (L.foldl (fun t g => checkUncheckOptionById fs (n + 1) t g.id b true) t) c := by
  intro L
  induction L with
  | nil =>
    intro hL t
    exact Or.inl ⟨rfl, by simp⟩
  | cons g L ih =>
    intro hL t
    have hg := hL g (by simp)
    have hopt := getOptionById_self hnd hg.1
    by_cases hch : t.checked g.id = b
    · have hstep : checkUncheckOptionById fs (n + 1) t g.id b true = t :=
        cu_same hopt hch n true
      rcases ih (fun x hx => hL x (by simp [hx])) t with ⟨heq, hall⟩ | hok
      · left
        refine ⟨?_, ?_⟩
        · simp only [List.foldl_cons, hstep]
          exact heq
        · intro x hx
          rcases List.mem_cons.1 hx with rfl | hx2
          · exact hch
          · exact hall x hx2
      · right
        simp only [List.foldl_cons, hstep]
        exact hok
    · right
      simp only [List.foldl_cons]
      have hest : CatOKat fs (checkUncheckOptionById fs (n + 1) t g.id b true) c := by
        rw [← hg.2]
        exact cu_establishes_CatOKat hopt hch n true
      exact foldl_preserve
        (fun t2 g2 h2 => cu_preserves_CatOKat hnd (n + 1) t2 g2.id b true c h2) L _ hest

theorem memberFold_global_cases {fs : List Feature} (hnd : (fs.map Feature.id).Nodup)
    (b : Bool) (n : Nat) :
    ∀ (L : List Feature), (∀ g ∈ L, g ∈ fs) → ∀ t : EngineState,
      (L.foldl (fun t g => checkUncheckOptionById fs (n + 1) t g.id b true) t = t
        ∧ ∀ g ∈ L, t.checked g.id = b) ∨
      GlobalOK fs (L.foldl (fun t g => checkUncheckOptionById fs (n + 1) t g.id b true) t) := by
  intro L
  induction L with
  | nil =>
    intro hL t
    exact Or.inl ⟨rfl, by simp⟩
  | cons g L ih =>
    intro hL t
    have hg := hL g (by simp)
    have hopt := getOptionById_self hnd hg
    by_cases hch : t.checked g.id = b
    · have hstep : checkUncheckOptionById fs (n + 1) t g.id b true = t :=
        cu_same hopt hch n true
      rcases ih (fun x hx => hL x (by simp [hx])) t with ⟨heq, hall⟩ | hok
      · left
        refine ⟨?_, ?_⟩
        · simp only [List.foldl_cons, hstep]
          exact heq
        · intro x hx
          rcases List.mem_cons.1 hx with rfl | hx2
          · exact hch
          · exact hall x hx2
      · right
        simp only [List.foldl_cons, hstep]
        exact hok
    · right
      simp only [List.foldl_cons]
      have hest : GlobalOK fs (checkUncheckOptionById fs (n + 1) t g.id b true) :=
        cu_establishes_GlobalOK hopt hch n true
      exact foldl_preserve
        (fun t2 g2 h2 => cu_preserves_GlobalOK fs (n + 1) t2 g2.id b true h2) L _ hest

theorem allFold_cases {fs : List Feature} (hnd : (fs.map Feature.id).Nodup)
    (b : Bool) (n : Nat) :
    ∀ (cats : List String) (t : EngineState),
      (cats.foldl (fun t c => checkUncheckCategory fs (n + 1) t c b) t = t
        ∧ ∀ c ∈ cats, ∀ g ∈ categoryFeatures fs c, t.checked g.id = b) ∨
      GlobalOK fs (cats.foldl (fun t c => checkUncheckCategory fs (n + 1) t c b) t) := by
  intro cats
  induction cats with
  | nil =>
    intro t
    exact Or.inl ⟨rfl, by simp⟩
  | cons c cats ih =>
    intro t
    have hmem : ∀ g ∈ categoryFeatures fs c, g ∈ fs := fun g hg => List.mem_of_mem_filter hg
    rcases memberFold_global_cases hnd b n (categoryFeatures fs c) hmem t with ⟨heq, hall⟩ | hok
    · have hstep : checkUncheckCategory fs (n + 1) t c b = t := heq
      rcases ih t with ⟨heq2, hall2⟩ | hok2
      · left
        refine ⟨?_, ?_⟩
        · simp only [List.foldl_cons, hstep]
          exact heq2
        · intro c2 hc2
          rcases List.mem_cons.1 hc2 with rfl | hc3
          · exact hall
          · exact hall2 c2 hc3
      · right
        simp only [List.foldl_cons, hstep]
        exact hok2
    · right
      simp only [List.foldl_cons]
      have : GlobalOK fs (checkUncheckCategory fs (n + 1) t c b) := hok
      exact foldl_preserve
        (fun t2 c2 h2 =>
          checkUncheckCategory_preserve (cu_preserves_GlobalOK fs) (n + 1) c2 b t2 h2)
        cats _ this

theorem totalOptions_ne_zero {fs : List Feature} (hne : fs ≠ []) : totalOptions fs ≠ 0 := by
  unfold totalOptions allIds
  intro h
  rw [List.length_eq_zero] at h
  rcases fs with _ | ⟨f, fs⟩
  · exact hne rfl
  · have : f.id ∈ (List.map Feature.id (f :: fs)).dedup := by
      rw [List.mem_dedup]
      simp
    rw [h] at this
    cases this

theorem categoryFeatures_length_ne_zero {fs : List Feature} {c : String}
    (hc : c ∈ categoryNames fs) : (categoryFeatures fs c).length ≠ 0 := by
  unfold categoryNames at hc
  rw [List.mem_dedup, List.mem_map] at hc
  rcases hc with ⟨f, hf, hfc⟩
  have : f ∈ categoryFeatures fs c := by
    unfold categoryFeatures
    exact List.mem_filter.2 ⟨hf, by simp [hfc]⟩
  intro h
  rw [List.length_eq_zero] at h
  rw [h] at this
  cases this

theorem catCount_all_eq {fs : List Feature} {s : EngineState} {c : String} {b : Bool}
    (hall : ∀ g ∈ categoryFeatures fs c, s.checked g.id = b) :
    catCount fs s c = if b then (categoryFeatures fs c).length else 0 := by
  unfold catCount
  cases b with
  | true =>
    rw [if_pos rfl]
    rw [List.countP_eq_length]
    intro g hg
    simpa using hall g hg
  | false =>
    rw [if_neg (by simp)]
    rw [List.countP_eq_zero]
    intro g hg
    simp [hall g hg]

theorem onCount_all_eq {fs : List Feature} {s : EngineState} {b : Bool}
    (hall : ∀ g ∈ fs, s.checked g.id = b) :
    onCount fs s = if b then totalOptions fs else 0 := by
  unfold onCount totalOptions
  have hids : ∀ i ∈ allIds fs, s.checked i = b := by
    intro i hi
    unfold allIds at hi
    rw [List.mem_dedup, List.mem_map] at hi
    rcases hi with ⟨g, hg, rfl⟩
    exact hall g hg
  cases b with
  | true =>
    rw [if_pos rfl]
    rw [List.countP_eq_length]
    intro i hi
    simpa using hids i hi
  | false =>
    rw [if_neg (by simp)]
    rw [List.countP_eq_zero]
    intro i hi
    simp [hids i hi]

/-- In every reachable state of a well-formed, non-empty catalog every
category indicator and the global indicator match the tri-state rule. -/
theorem reachable_Ind {fs : List Feature} (hnd : (fs.map Feature.id).Nodup) (hne : fs ≠ []) :
    ∀ {s : EngineState}, Reachable fs s →
      (∀ c ∈ categoryNames fs, CatOKat fs s c) ∧ GlobalOK fs s := by
  intro s hr
  induction hr with
  | init => exact ⟨fun c hc => freshState_CatOKat fs c, freshState_GlobalOK fs⟩
  | toggle s id check udep hr ih =>
    exact ⟨fun c hc => cu_preserves_CatOKat hnd _ s id check udep c (ih.1 c hc),
      cu_preserves_GlobalOK fs _ s id check udep ih.2⟩
  | click s id hr ih =>
    exact ⟨fun c hc => clickFeature_preserves_CatOKat hnd _ s id c (ih.1 c hc),
      clickFeature_preserves_GlobalOK _ s id ih.2⟩
  | confirmDeps s id hr ih =>
    refine ⟨fun c hc => ?_, ?_⟩
    · exact disabledDependentsForFeature_preserve
        (fun fuel t i cb ub ht => cu_preserves_CatOKat hnd fuel t i cb ub c ht) _ id s (ih.1 c hc)
    · exact disabledDependentsForFeature_preserve (cu_preserves_GlobalOK fs) _ id s ih.2
  | defaults s hr ih =>
    refine ⟨fun c hc => ?_, ?_⟩
    · exact applyDefaults_preserve
        (fun fuel t i cb ub ht => cu_preserves_CatOKat hnd fuel t i cb ub c ht) _ s (ih.1 c hc)
    · exact applyDefaults_preserve (cu_preserves_GlobalOK fs) _ s ih.2
  | bulkAll s b hr ih =>
    refine ⟨fun c hc => ?_, ?_⟩
    · exact checkUncheckAll_preserve
        (fun fuel t i cb ub ht => cu_preserves_CatOKat hnd fuel t i cb ub c ht) _ b s (ih.1 c hc)
    · exact checkUncheckAll_preserve (cu_preserves_GlobalOK fs) _ b s ih.2
  | bulkCategory s c b hr ih =>
    refine ⟨fun c2 hc2 => ?_, ?_⟩
    · exact checkUncheckCategory_preserve
        (fun fuel t i cb ub ht => cu_preserves_CatOKat hnd fuel t i cb ub c2 ht) _ c b s (ih.1 c2 hc2)
    · exact checkUncheckCategory_preserve (cu_preserves_GlobalOK fs) _ c b s ih.2
  | categoryClick s c hc hr ih =>
    refine ⟨fun c2 hc2 => ?_, ?_⟩
    · by_cases hcc : c2 = c
      · subst hcc
        have hcases := catFold_cases hnd c2 (!(s.catInd c2).checked) fs.length
          (categoryFeatures fs c2)
          (fun g hg => ⟨List.mem_of_mem_filter hg, by simpa using List.of_mem_filter hg⟩)
          (categoryCheckboxFlip s c2)
        rcases hcases with ⟨heq, hall⟩ | hok
        · exfalso
          have hallS : ∀ g ∈ categoryFeatures fs c2,
              s.checked g.id = !(s.catInd c2).checked := hall
          have hcnt := catCount_all_eq hallS
          have hIM := ih.1 c2 hc2
          unfold CatOKat IndMatches at hIM
          have hlen := categoryFeatures_length_ne_zero hc2
          cases hb : (s.catInd c2).checked with
          | false =>
            rw [hb] at hcnt
            simp only [Bool.not_false, if_pos rfl] at hcnt
            have hind : (s.catInd c2).indeterminate = false := by
              rcases h2 : (s.catInd c2).indeterminate with _ | _
              · rfl
              · rcases hIM.1.1 h2 with ⟨_, hcne⟩
                exact absurd hcnt hcne
            have := hIM.2 hind
            rw [hb, hcnt] at this
            simp [hlen] at this
          | true =>
            rw [hb] at hcnt
            simp only [Bool.not_true] at hcnt
            rw [if_neg (by simp)] at hcnt
            have hind : (s.catInd c2).indeterminate = false := by
              rcases h2 : (s.catInd c2).indeterminate with _ | _
              · rfl
              · rcases hIM.1.1 h2 with ⟨hcne, _⟩
                exact absurd hcnt hcne
            have := hIM.2 hind
            rw [hb, hcnt] at this
            simp at this
        · exact hok
      · exact checkUncheckCategory_preserve
          (fun fuel t i cb ub ht => cu_preserves_CatOKat hnd fuel t i cb ub c2 ht) _ c _ _
          (CatOKat_catFlip_other hcc (ih.1 c2 hc2))
    · exact checkUncheckCategory_preserve (cu_preserves_GlobalOK fs) _ c _ _
        (GlobalOK_catFlip c ih.2)
  | globalClick s hr ih =>
    refine ⟨fun c2 hc2 => ?_, ?_⟩
    · exact checkUncheckAll_preserve
        (fun fuel t i cb ub ht => cu_preserves_CatOKat hnd fuel t i cb ub c2 ht) _ _ _
        (CatOKat_globalFlip (ih.1 c2 hc2))
    · have hcases := allFold_cases hnd (!s.globalInd.checked) fs.length
        (categoryNames fs) (globalCheckboxFlip s)
      rcases hcases with ⟨heq, hall⟩ | hok
      · exfalso
        have hallS : ∀ g ∈ fs, s.checked g.id = !s.globalInd.checked := by
          intro g hg
          have hcn : g.category.name ∈ categoryNames fs := by
            unfold categoryNames
            rw [List.mem_dedup, List.mem_map]
            exact ⟨g, hg, rfl⟩
          have hgm : g ∈ categoryFeatures fs g.category.name := by
            unfold categoryFeatures
            exact List.mem_filter.2 ⟨hg, by simp⟩
          exact hall g.category.name hcn g hgm
        have hcnt := onCount_all_eq hallS
        have hco := reachable_CounterOK hr
        unfold CounterOK at hco
        have hGI := ih.2
        unfold GlobalOK GIndMatches at hGI
        have htot := totalOptions_ne_zero hne
        cases hb : s.globalInd.checked with
        | false =>
          rw [hb] at hcnt
          simp at hcnt
          have hsel : s.selected_options = (totalOptions fs : Int) := by
            rw [hco, hcnt]
          have hind : s.globalInd.indeterminate = false := by
            rcases h2 : s.globalInd.indeterminate with _ | _
            · rfl
            · rcases hGI.1.1 h2 with ⟨_, hcne⟩
              exact absurd hsel hcne
          have := hGI.2 hind
          rw [hb, hsel] at this
          have hselne : (totalOptions fs : Int) ≠ 0 := by
            exact_mod_cast htot
          simp [hselne] at this
        | true =>
          rw [hb] at hcnt
          simp only [Bool.not_true] at hcnt
          rw [if_neg (by simp)] at hcnt
          have hsel : s.selected_options = 0 := by
            rw [hco, hcnt]
            rfl
          have hind : s.globalInd.indeterminate = false := by
            rcases h2 : s.globalInd.indeterminate with _ | _
            · rfl
            · rcases hGI.1.1 h2 with ⟨hcne, _⟩
              exact absurd hsel hcne
          have := hGI.2 hind
          rw [hb, hsel] at this
          simp at this
      · exact hok
  | rebuild s ids hr ih =>
    refine ⟨fun c hc => ?_, ?_⟩
    · exact applyRebuildFeatures_preserve
        (fun fuel t i cb ub ht => cu_preserves_CatOKat hnd fuel t i cb ub c ht) _ ids s (ih.1 c hc)
    · exact applyRebuildFeatures_preserve (cu_preserves_GlobalOK fs) _ ids s ih.2

/-! ## From IndMatches to the tri-state biconditionals -/

theorem IndMatches_biconds {ind : Indicator} {cnt total : Nat}
    (h : IndMatches ind cnt total) (hle : cnt ≤ total) (htot : total ≠ 0) :
    ((ind.checked = false ∧ ind.indeterminate = false) ↔ cnt = 0) ∧
    ((ind.checked = true ∧ ind.indeterminate = false) ↔ cnt = total) ∧
    (ind.indeterminate = true ↔ (0 < cnt ∧ cnt < total)) := by
  obtain ⟨h1, h2⟩ := h
  refine ⟨?_, ?_, ?_⟩
  · constructor
    · rintro ⟨hc, hi⟩
      have := h2 hi
      rw [hc] at this
      have hcnt0 : ¬cnt ≠ 0 := by
        intro hn
        simp [hn] at this
      omega
    · intro h0
      have hi : ind.indeterminate = false := by
        cases hii : ind.indeterminate
        · rfl
        · rcases h1.1 hii with ⟨hn, _⟩
          exact absurd h0 hn
      refine ⟨?_, hi⟩
      have := h2 hi
      rw [this]
      simp [h0]
  · constructor
    · rintro ⟨hc, hi⟩
      have := h2 hi
      rw [hc] at this
      have hcnt : cnt ≠ 0 := by
        intro hn
        rw [hn] at this
        simp at this
      have hnotmid : ¬(cnt ≠ 0 ∧ cnt ≠ total) := by
        intro hm
        rw [h1.2 hm] at hi
        cases hi
      omega
    · intro ht
      have hi : ind.indeterminate = false := by
        cases hii : ind.indeterminate
        · rfl
        · rcases h1.1 hii with ⟨_, hn⟩
          exact absurd ht hn
      refine ⟨?_, hi⟩
      have := h2 hi
      rw [this]
      have : cnt ≠ 0 := by omega
      simp [this]
  · rw [h1]
    omega

theorem GIndMatches_natCast {ind : Indicator} {cnt total : Nat}
    (h : GIndMatches ind (cnt : Int) total) : IndMatches ind cnt total := by
  obtain ⟨h1, h2⟩ := h
  constructor
  · rw [h1]
    constructor
    · rintro ⟨ha, hb⟩
      exact ⟨by exact_mod_cast ha, by exact_mod_cast hb⟩
    · rintro ⟨ha, hb⟩
      exact ⟨by exact_mod_cast ha, by exact_mod_cast hb⟩
  · intro hi
    rw [h2 hi]
    by_cases h0 : cnt = 0
    · simp [h0]
    · have : (cnt : Int) ≠ 0 := by exact_mod_cast h0
      simp [h0, this]

theorem catCount_le_length (fs : List Feature) (s : EngineState) (c : String) :
    catCount fs s c ≤ (categoryFeatures fs c).length :=
  List.countP_le_length _

theorem onCount_le_totalOptions (fs : List Feature) (s : EngineState) :
    onCount fs s ≤ totalOptions fs :=
  List.countP_le_length _

/-! ## A concrete witness catalog: the dependency chain A ← B ← C -/

def featA : Feature :=
  { id := "A", name := "A", category := { name := "core", description := "" },
    dependencies := [], default_enabled := false }

def featB : Feature :=
  { id := "B", name := "B", category := { name := "core", description := "" },
    dependencies := ["A"], default_enabled := false }

def featC : Feature :=
  { id := "C", name := "C", category := { name := "core", description := "" },
    dependencies := ["B"], default_enabled := false }

def chainCatalog : List Feature := [featA, featB, featC]

/-! ## Claim C5: tri-state indicator boundaries -/

/-- C5: in every reachable state of a well-formed non-empty catalog, each
category indicator is unselected exactly when 0 of its members are selected,
fully selected exactly when all are, and indeterminate otherwise; the global
indicator follows the same rule over the total feature count. -/
theorem tri_state_boundaries {fs : List Feature} (hnd : (fs.map Feature.id).Nodup)
    (hne : fs ≠ []) {s : EngineState} (hr : Reachable fs s) :
    (∀ c ∈ categoryNames fs,
      (((s.catInd c).checked = false ∧ (s.catInd c).indeterminate = false) ↔
        catCount fs s c = 0) ∧
      (((s.catInd c).checked = true ∧ (s.catInd c).indeterminate = false) ↔
        catCount fs s c = (categoryFeatures fs c).length) ∧
      ((s.catInd c).indeterminate = true ↔
        (0 < catCount fs s c ∧ catCount fs s c < (categoryFeatures fs c).length))) ∧
    ((s.globalInd.checked = false ∧ s.globalInd.indeterminate = false) ↔ onCount fs s = 0) ∧
    ((s.globalInd.checked = true ∧ s.globalInd.indeterminate = false) ↔
      onCount fs s = totalOptions fs) ∧
    (s.globalInd.indeterminate = true ↔
      (0 < onCount fs s ∧ onCount fs s < totalOptions fs)) := by
  obtain ⟨hcat, hglob⟩ := reachable_Ind hnd hne hr
  have hcount := reachable_CounterOK hr
  constructor
  · intro c hc
    exact IndMatches_biconds (hcat c hc) (catCount_le_length fs s c)
      (categoryFeatures_length_ne_zero hc)
  · have hgi : GIndMatches s.globalInd ((onCount fs s : Int)) (totalOptions fs) := by
      unfold CounterOK at hcount
      rw [← hcount]
      exact hglob
    exact IndMatches_biconds (GIndMatches_natCast hgi) (onCount_le_totalOptions fs s)
      (totalOptions_ne_zero hne)

/-- C5 witness: on the three-feature chain catalog, freshly loaded, the
category indicator of `core` reads unselected exactly because 0 of its 3
members are selected. -/
theorem tri_state_boundaries_witness :
    ((freshState.catInd "core").checked = false ∧
      (freshState.catInd "core").indeterminate = false) ↔
      catCount chainCatalog freshState "core" = 0 :=
  ((tri_state_boundaries (by decide) (by decide) Reachable.init).1 "core" (by decide)).1

/-! ## Claim C10: counter consistency -/

/-- C10: in every reachable state the cached `selected_options` counter equals
the exact number of selected features, so the global indicator switch computed
from the counter agrees with the one a full recount would produce. -/
theorem counter_consistency {fs : List Feature} {s : EngineState} (hr : Reachable fs s) :
    s.selected_options = (onCount fs s : Int) ∧
    updateGlobalCheckboxState fs s =
      updateGlobalCheckboxState fs { s with selected_options := (onCount fs s : Int) } := by
  have h := reachable_CounterOK hr
  refine ⟨h, ?_⟩
  unfold CounterOK at h
  rw [← h]

/-- C10 witness: after programmatically toggling `B` on (which cascades to
`A`) the counter of the resulting state equals the recount. -/
theorem counter_consistency_witness :
    (checkUncheckOptionById chainCatalog (engineFuel chainCatalog) freshState "B" true true).selected_options =
      (onCount chainCatalog
        (checkUncheckOptionById chainCatalog (engineFuel chainCatalog) freshState "B" true true) : Int) :=
  (counter_consistency (Reachable.toggle freshState "B" true true Reachable.init)).1

/-! ## Claim C7: toggle idempotence -/

/-- C7: repeating a programmatic toggle with the same intended end state is a
complete no-op the second time (so `selectedIds` and every aggregate indicator
are identical after each invocation), and re-invoking the enable cascade on an
already-selected id is a no-op. -/
theorem toggle_idempotent (fs : List Feature) (s : EngineState) (id : String) (check : Bool) :
    checkUncheckOptionById fs (engineFuel fs)
        (checkUncheckOptionById fs (engineFuel fs) s id check true) id check true =
      checkUncheckOptionById fs (engineFuel fs) s id check true ∧
    (s.checked id = true →
      checkUncheckOptionById fs (engineFuel fs) s id true true = s) := by
  have hfuel : engineFuel fs = fs.length + 1 := rfl
  constructor
  · rcases hopt : getOptionById fs id with _ | f
    · rw [cu_none hopt, cu_none hopt]
    · have htgt : (checkUncheckOptionById fs (engineFuel fs) s id check true).checked id = check := by
        rw [hfuel]
        exact cu_target hopt fs.length s check true
      rw [hfuel] at htgt ⊢
      exact cu_same hopt htgt fs.length true
  · intro hch
    rcases hopt : getOptionById fs id with _ | f
    · exact cu_none hopt _ s true true
    · rw [hfuel]
      exact cu_same hopt hch fs.length true

/-- C7 witness: toggling `B` off twice on the chain catalog (from the fresh
state with `B` toggled on) leaves the state of the first toggle unchanged, and
re-enabling the already-selected `B` is a no-op. -/
theorem toggle_idempotent_witness :
    (checkUncheckOptionById chainCatalog (engineFuel chainCatalog)
        (checkUncheckOptionById chainCatalog (engineFuel chainCatalog)
          (checkUncheckOptionById chainCatalog (engineFuel chainCatalog) freshState "B" true true)
          "B" false true) "B" false true =
      checkUncheckOptionById chainCatalog (engineFuel chainCatalog)
        (checkUncheckOptionById chainCatalog (engineFuel chainCatalog) freshState "B" true true)
        "B" false true) ∧
    (checkUncheckOptionById chainCatalog (engineFuel chainCatalog)
        (checkUncheckOptionById chainCatalog (engineFuel chainCatalog) freshState "B" true true)
        "B" true true =
      checkUncheckOptionById chainCatalog (engineFuel chainCatalog) freshState "B" true true) :=
  ⟨(toggle_idempotent chainCatalog
      (checkUncheckOptionById chainCatalog (engineFuel chainCatalog) freshState "B" true true)
      "B" false).1,
   (toggle_idempotent chainCatalog
      (checkUncheckOptionById chainCatalog (engineFuel chainCatalog) freshState "B" true true)
      "B" false).2 (by decide)⟩

/-! ## Claim C8: unknown-id tolerance -/

/-- C8: a reference to a feature id absent from the catalog is a harmless
no-op everywhere it can occur: programmatic toggles on it do nothing, a state
change event for it does nothing, hydration input containing it behaves as if
it were dropped, an enable cascade over a dependency list containing it skips
it, and the derived reverse-dependency index never mentions it. -/
theorem unknown_id_tolerance {fs : List Feature} {g : String}
    (hg : getOptionById fs g = none) :
    (∀ (fuel : Nat) (s : EngineState) (c u : Bool),
      checkUncheckOptionById fs fuel s g c u = s) ∧
    (∀ (fuel : Nat) (s : EngineState) (ui u : Bool),
      handleOptionStateChange fs fuel s g ui u = s) ∧
    (∀ (fuel : Nat) (s : EngineState) (rest : List String),
      applyRebuildFeatures fs fuel s (g :: rest) = applyRebuildFeatures fs fuel s rest) ∧
    (∀ (fuel : Nat) (s : EngineState) (L : List String) (c2 : Bool),
      (g :: L).foldl (fun t d => checkUncheckOptionById fs fuel t d c2 true) s =
        L.foldl (fun t d => checkUncheckOptionById fs fuel t d c2 true) s) ∧
    (∀ d : String, g ∉ requiredFor fs d) := by
  have hel : elementExists fs g = false := by
    cases h : elementExists fs g
    · rfl
    · rcases getOptionById_isSome_of_elementExists h with ⟨f, hf⟩
      rw [hf] at hg
      cases hg
  refine ⟨fun fuel s c u => cu_none hg fuel s c u, ?_, ?_, ?_, ?_⟩
  · intro fuel s ui u
    unfold handleOptionStateChange
    rw [hel]
    simp
  · intro fuel s rest
    unfold applyRebuildFeatures
    rw [List.foldl_cons, cu_none hg]
  · intro fuel s L c2
    rw [List.foldl_cons, cu_none hg]
  · intro d hmem
    rcases mem_requiredFor_iff.1 hmem with ⟨f, hf, hfid, _⟩
    have : elementExists fs g = true := elementExists_iff.2 ⟨f, hf, hfid⟩
    rw [hel] at this
    cases this

/-- C8 witness: on the chain catalog the id `GHOST` is unknown, and a
programmatic toggle of it, a state-change event for it, and hydration input
mentioning it are all no-ops, and it appears in no reverse-dependency list. -/
theorem unknown_id_tolerance_witness :
    checkUncheckOptionById chainCatalog 4 freshState "GHOST" true true = freshState ∧
    handleOptionStateChange chainCatalog 4 freshState "GHOST" true true = freshState ∧
    applyRebuildFeatures chainCatalog 4 freshState ["GHOST", "B"] =
      applyRebuildFeatures chainCatalog 4 freshState ["B"] ∧
    "GHOST" ∉ requiredFor chainCatalog "A" := by
  have h := @unknown_id_tolerance chainCatalog "GHOST" (by decide)
  exact ⟨h.1 4 freshState true true, h.2.1 4 freshState true true,
    h.2.2.1 4 freshState ["B"], h.2.2.2.2 "A"⟩

/-! ## Clearing and hydration lemmas -/

theorem cu_noDeps_checked {fs : List Feature} {id : String} {f : Feature}
    (hopt : getOptionById fs id = some f) (n : Nat) (t : EngineState) (x : String) :
    (checkUncheckOptionById fs (n + 1) t id true false).checked x =
      if x = id then true else t.checked x := by
  by_cases hch : t.checked id = true
  · rw [cu_same hopt hch]
    by_cases hx : x = id
    · rw [hx, if_pos rfl, hch]
    · rw [if_neg hx]
  · have hch2 : t.checked id = false := by
      cases h2 : t.checked id
      · rfl
      · exact absurd h2 hch
    rw [cu_succ_true hopt hch2]
    simp only [if_neg Bool.false_ne_true, updateGlobal_checked, updateCategory_checked]
    simp [flipOn_checked]

theorem memberClear {fs : List Feature} (n : Nat) :
    ∀ (L : List Feature), (∀ f ∈ L, f ∈ fs) → ∀ (t : EngineState) {g : Feature}, g ∈ L →
      (L.foldl (fun t f => checkUncheckOptionById fs (n + 1) t f.id false true) t).checked g.id
        = false := by
  intro L
  induction L with
  | nil => intro hL t g hg; cases hg
  | cons f L ih =>
    intro hL t g hg
    rcases getOptionById_isSome_of_elementExists
      (elementExists_iff.2 ⟨f, hL f (by simp), rfl⟩) with ⟨f2, hopt⟩
    rcases List.mem_cons.1 hg with rfl | hg2
    · rw [List.foldl_cons]
      have hafter : (checkUncheckOptionById fs (n + 1) t g.id false true).checked g.id = false :=
        cu_target hopt n t false true
      exact foldl_preserve
        (fun t2 f2 h2 => cu_false_anti fs (n + 1) t2 f2.id true g.id h2) L _ hafter
    · rw [List.foldl_cons]
      exact ih (fun x hx => hL x (by simp [hx])) _ hg2

theorem catsClear {fs : List Feature} (n : Nat) :
    ∀ (cats : List String) (t : EngineState) {y : String},
      (∃ c ∈ cats, ∃ g ∈ categoryFeatures fs c, g.id = y) →
      (cats.foldl (fun t c => checkUncheckCategory fs (n + 1) t c false) t).checked y = false := by
  intro cats
  induction cats with
  | nil =>
    intro t y hy
    rcases hy with ⟨c, hc, _⟩
    cases hc
  | cons c cats ih =>
    intro t y hy
    rcases hy with ⟨c2, hc2, g, hg, hgy⟩
    rcases List.mem_cons.1 hc2 with rfl | hc3
    · rw [List.foldl_cons]
      have hafter : (checkUncheckCategory fs (n + 1) t c2 false).checked y = false := by
        unfold checkUncheckCategory
        rw [← hgy]
        exact memberClear n (categoryFeatures fs c2)
          (fun x hx => List.mem_of_mem_filter hx) t hg
      exact foldl_preserve
        (fun t2 c3 h2 =>
          foldl_preserve
            (fun t3 f3 h3 => cu_false_anti fs (n + 1) t3 f3.id true y h3)
            (categoryFeatures fs c3) t2 h2) cats _ hafter
    · rw [List.foldl_cons]
      exact ih _ ⟨c2, hc3, g, hg, hgy⟩

theorem checkUncheckAll_clears {fs : List Feature} (n : Nat) (s : EngineState) {y : String}
    (hy : elementExists fs y = true) :
    (checkUncheckAll fs (n + 1) s false).checked y = false := by
  rcases elementExists_iff.1 hy with ⟨g, hg, hgy⟩
  unfold checkUncheckAll
  apply catsClear
  refine ⟨g.category.name, ?_, g, ?_, hgy⟩
  · unfold categoryNames
    rw [List.mem_dedup, List.mem_map]
    exact ⟨g, hg, rfl⟩
  · unfold categoryFeatures
    exact List.mem_filter.2 ⟨hg, by simp⟩

theorem rebuild_fold_checked {fs : List Feature} (n : Nat) :
    ∀ (ids : List String), (∀ i ∈ ids, elementExists fs i = true) →
      ∀ (t : EngineState) (x : String),
      (ids.foldl (fun t i => checkUncheckOptionById fs (n + 1) t i true false) t).checked x =
        (t.checked x || decide (x ∈ ids)) := by
  intro ids
  induction ids with
  | nil => intro hids t x; simp
  | cons i ids ih =>
    intro hids t x
    rcases getOptionById_isSome_of_elementExists (hids i (by simp)) with ⟨f, hopt⟩
    rw [List.foldl_cons, ih (fun j hj => hids j (by simp [hj]))]
    rw [cu_noDeps_checked hopt]
    by_cases hx : x = i
    · simp [hx]
    · simp [hx]

/-! ## Claim C6: hydration fidelity -/

/-- C6: `applyRebuildFeatures` first clears the whole selection and then marks
exactly the given (known) ids as selected without enabling their dependencies,
so the selected ids afterwards are exactly the given set, even when a given
feature's dependency is not in the set. -/
theorem hydration_fidelity {fs : List Feature} {ids : List String}
    (hids : ∀ i ∈ ids, elementExists fs i = true) (s : EngineState) :
    (∀ y, elementExists fs y = true →
      (checkUncheckAll fs (engineFuel fs) s false).checked y = false) ∧
    (∀ x, x ∈ selectedIds fs (applyRebuildFeatures fs (engineFuel fs) s ids) ↔ x ∈ ids) := by
  have hfuel : engineFuel fs = fs.length + 1 := rfl
  constructor
  · intro y hy
    rw [hfuel]
    exact checkUncheckAll_clears fs.length s hy
  · intro x
    unfold selectedIds
    rw [List.mem_filter]
    unfold applyRebuildFeatures
    rw [hfuel, rebuild_fold_checked fs.length ids hids]
    constructor
    · rintro ⟨hmem, hchk⟩
      have hclear : (checkUncheckAll fs (fs.length + 1) s false).checked x = false :=
        checkUncheckAll_clears fs.length s (mem_allIds_iff.1 hmem)
      rw [hclear] at hchk
      simpa using hchk
    · intro hmem
      have hknown : elementExists fs x = true := hids x hmem
      refine ⟨mem_allIds_iff.2 hknown, ?_⟩
      simp [hmem]

/-- C6 witness: hydrating `["B", "C"]` on the chain catalog yields exactly
`{B, C}` selected although `B` depends on `A`. -/
theorem hydration_fidelity_witness :
    ("B" ∈ selectedIds chainCatalog
        (applyRebuildFeatures chainCatalog (engineFuel chainCatalog) freshState ["B", "C"]) ∧
     "C" ∈ selectedIds chainCatalog
        (applyRebuildFeatures chainCatalog (engineFuel chainCatalog) freshState ["B", "C"])) ∧
    "A" ∉ selectedIds chainCatalog
        (applyRebuildFeatures chainCatalog (engineFuel chainCatalog) freshState ["B", "C"]) := by
  have h := @hydration_fidelity chainCatalog ["B", "C"] (by decide) freshState
  refine ⟨⟨(h.2 "B").2 (by decide), (h.2 "C").2 (by decide)⟩, ?_⟩
  intro hmem
  have := (h.2 "A").1 hmem
  simp at this

/-! ## Termination of the dependent-closure collection (fuel stability) -/

theorem foldl_pres_gen {β : Type} {α : Type} {P : β → Prop} {step : β → α → β}
    (h : ∀ t a, P t → P (step t a)) :
    ∀ (L : List α) (t : β), P t → P (L.foldl step t) := by
  intro L
  induction L with
  | nil => intro t ht; simpa using ht
  | cons a L ih =>
    intro t ht
    simpa using ih (step t a) (h t a ht)

/-- Catalog ids not yet in the visited set: the measure that bounds the
recursion of `getEnabledDependentFeaturesHelper`. -/
def unvisitedCount (fs : List Feature) (v : List String) : Nat :=
  (allIds fs).countP (fun i => !(v.contains i))

theorem unvisitedCount_cons {fs : List Feature} {v : List String} {fid : String}
    (hfid : fid ∈ allIds fs) (hnv : ¬ fid ∈ v) :
    unvisitedCount fs (fid :: v) + 1 = unvisitedCount fs v := by
  unfold unvisitedCount
  have hcong : (allIds fs).countP (fun i => !((fid :: v).contains i)) =
      (allIds fs).countP (fun i => if i = fid then false else !(v.contains i)) := by
    apply List.countP_congr
    intro i hi
    by_cases hif : i = fid
    · simp [hif]
    · simp [List.contains_cons, hif]
  rw [hcong]
  exact countP_set_false (allIds_nodup fs) hfid (by simp [hnv])

theorem helper_visited_subset (fs : List Feature) (s : EngineState) :
    ∀ (fuel : Nat) (fid : String) (st : List String × List String),
      ∀ x ∈ st.1, x ∈ (getEnabledDependentFeaturesHelper fs s fuel fid st).1 := by
  intro fuel
  induction fuel with
  | zero => intro fid st x hx; simpa [getEnabledDependentFeaturesHelper] using hx
  | succ n ih =>
    intro fid st x hx
    unfold getEnabledDependentFeaturesHelper
    by_cases hv : st.1.contains fid = true
    · rw [if_pos hv]
      exact hx
    · rw [if_neg hv]
      rcases hopt : getOptionById fs fid with _ | f
      · exact hx
      · by_cases hch : s.checked f.id = false
        · simpa [hch] using hx
        · have hch2 : s.checked f.id = true := by
            cases h2 : s.checked f.id
            · exact absurd h2 hch
            · rfl
          simp only [hch2, Bool.true_eq_false, if_false]
          have hbase : x ∈ (fid :: st.1, st.2 ++ [fid]).1 := by
            simp only []
            exact List.mem_cons_of_mem fid hx
          exact foldl_pres_gen
            (fun t2 d h2 => ih d t2 x h2) (requiredFor fs fid) _ hbase

theorem countP_mono_of_imp {l : List String} {p q : String → Bool}
    (h : ∀ a ∈ l, p a = true → q a = true) : l.countP p ≤ l.countP q := by
  induction l with
  | nil => simp
  | cons a l ih =>
    rw [List.countP_cons, List.countP_cons]
    have hrec := ih (fun x hx => h x (by simp [hx]))
    by_cases hp : p a = true
    · have hq := h a (by simp) hp
      simp [hp, hq]
      omega
    · have hp2 : p a = false := by
        cases h2 : p a
        · rfl
        · exact absurd h2 hp
      simp [hp2]
      omega

theorem helper_unvisited_le (fs : List Feature) (s : EngineState)
    (fuel : Nat) (fid : String) (st : List String × List String) :
    unvisitedCount fs (getEnabledDependentFeaturesHelper fs s fuel fid st).1 ≤
      unvisitedCount fs st.1 := by
  apply countP_mono_of_imp
  intro i hi hni
  cases h2 : st.1.contains i
  · simp
  · exfalso
    have hmem : i ∈ st.1 := List.elem_iff.1 h2
    have hres := helper_visited_subset fs s fuel fid st i hmem
    have hc : (getEnabledDependentFeaturesHelper fs s fuel fid st).1.contains i = true :=
      List.elem_iff.2 hres
    rw [hc] at hni
    simp at hni

theorem helper_visited_eq (fs : List Feature) (s : EngineState) {fid : String}
    {st : List String × List String} (hv : st.1.contains fid = true) (fuel : Nat) :
    getEnabledDependentFeaturesHelper fs s (fuel + 1) fid st = st := by
  unfold getEnabledDependentFeaturesHelper
  rw [if_pos hv]

theorem helper_none_eq (fs : List Feature) (s : EngineState) {fid : String}
    {st : List String × List String} (hv : ¬ st.1.contains fid = true)
    (hopt : getOptionById fs fid = none) (fuel : Nat) :
    getEnabledDependentFeaturesHelper fs s (fuel + 1) fid st = st := by
  unfold getEnabledDependentFeaturesHelper
  rw [if_neg hv, hopt]

theorem helper_unchecked_eq (fs : List Feature) (s : EngineState) {fid : String}
    {st : List String × List String} {f : Feature} (hv : ¬ st.1.contains fid = true)
    (hopt : getOptionById fs fid = some f) (hch : s.checked fid = false) (fuel : Nat) :
    getEnabledDependentFeaturesHelper fs s (fuel + 1) fid st = st := by
  have hid := getOptionById_id hopt
  unfold getEnabledDependentFeaturesHelper
  rw [if_neg hv, hopt]
  simp [hid, hch]

theorem helper_productive_eq (fs : List Feature) (s : EngineState) {fid : String}
    {st : List String × List String} {f : Feature} (hv : ¬ st.1.contains fid = true)
    (hopt : getOptionById fs fid = some f) (hch : s.checked fid = true) (fuel : Nat) :
    getEnabledDependentFeaturesHelper fs s (fuel + 1) fid st =
      (requiredFor fs fid).foldl (fun t d => getEnabledDependentFeaturesHelper fs s fuel d t)
        (fid :: st.1, st.2 ++ [fid]) := by
  have hid := getOptionById_id hopt
  simp only [getEnabledDependentFeaturesHelper]
  rw [if_neg hv]
  simp only [hopt, hid, hch, Bool.true_eq_false, if_false]

theorem helper_succ_stable (fs : List Feature) (s : EngineState) :
    ∀ (fuel : Nat) (fid : String) (st : List String × List String),
      unvisitedCount fs st.1 + 1 ≤ fuel →
      getEnabledDependentFeaturesHelper fs s fuel fid st =
        getEnabledDependentFeaturesHelper fs s (fuel + 1) fid st := by
  intro fuel
  induction fuel with
  | zero => intro fid st h; omega
  | succ n ih =>
    intro fid st h
    have hfold : ∀ (L : List String) (st2 : List String × List String),
        unvisitedCount fs st2.1 + 1 ≤ n →
        L.foldl (fun t d => getEnabledDependentFeaturesHelper fs s n d t) st2 =
          L.foldl (fun t d => getEnabledDependentFeaturesHelper fs s (n + 1) d t) st2 := by
      intro L
      induction L with
      | nil => intro st2 h2; rfl
      | cons d L ihL =>
        intro st2 h2
        rw [List.foldl_cons, List.foldl_cons, ← ih d st2 h2]
        apply ihL
        have := helper_unvisited_le fs s n d st2
        omega
    by_cases hv : st.1.contains fid = true
    · rw [helper_visited_eq fs s hv, helper_visited_eq fs s hv]
    · rcases hopt : getOptionById fs fid with _ | f
      · rw [helper_none_eq fs s hv hopt, helper_none_eq fs s hv hopt]
      · by_cases hch : s.checked fid = true
        · rw [helper_productive_eq fs s hv hopt hch, helper_productive_eq fs s hv hopt hch]
          apply hfold
          have hfid : fid ∈ allIds fs :=
            mem_allIds_iff.2 (elementExists_of_getOptionById hopt)
          have hnv : ¬ fid ∈ st.1 := fun hm => hv (List.elem_iff.2 hm)
          have := unvisitedCount_cons hfid hnv
          simp only []
          omega
        · have hch2 : s.checked fid = false := by
            cases h2 : s.checked fid
            · rfl
            · exact absurd h2 hch
          rw [helper_unchecked_eq fs s hv hopt hch2, helper_unchecked_eq fs s hv hopt hch2]

theorem helper_stable_ge (fs : List Feature) (s : EngineState) :
    ∀ (k fuel : Nat) (fid : String) (st : List String × List String),
      unvisitedCount fs st.1 + 1 ≤ fuel →
      getEnabledDependentFeaturesHelper fs s fuel fid st =
        getEnabledDependentFeaturesHelper fs s (fuel + k) fid st := by
  intro k
  induction k with
  | zero => intro fuel fid st h; rfl
  | succ m ih =>
    intro fuel fid st h
    rw [ih fuel fid st h]
    have : fuel + (m + 1) = (fuel + m) + 1 := by omega
    rw [this]
    exact helper_succ_stable fs s (fuel + m) fid st (by omega)

theorem helper_stable (fs : List Feature) (s : EngineState) {fuel1 fuel2 : Nat}
    (fid : String) (st : List String × List String)
    (h1 : unvisitedCount fs st.1 + 1 ≤ fuel1) (h2 : unvisitedCount fs st.1 + 1 ≤ fuel2) :
    getEnabledDependentFeaturesHelper fs s fuel1 fid st =
      getEnabledDependentFeaturesHelper fs s fuel2 fid st := by
  set b := unvisitedCount fs st.1 + 1 with hb
  have e1 : fuel1 = b + (fuel1 - b) := by omega
  have e2 : fuel2 = b + (fuel2 - b) := by omega
  rw [e1, e2, ← helper_stable_ge fs s (fuel1 - b) b fid st (by omega),
    ← helper_stable_ge fs s (fuel2 - b) b fid st (by omega)]

theorem allIds_length_le (fs : List Feature) : (allIds fs).length ≤ fs.length := by
  unfold allIds
  calc ((fs.map Feature.id).dedup).length ≤ (fs.map Feature.id).length :=
        List.Sublist.length_le (List.dedup_sublist _)
    _ = fs.length := List.length_map _ _

theorem unvisitedCount_le (fs : List Feature) (v : List String) :
    unvisitedCount fs v ≤ fs.length :=
  le_trans (List.countP_le_length _) (allIds_length_le fs)

theorem getEnabledDependentFeaturesFor_stable (fs : List Feature) (s : EngineState)
    {fuel1 fuel2 : Nat} (fid : String)
    (h1 : fs.length + 1 ≤ fuel1) (h2 : fs.length + 1 ≤ fuel2) :
    getEnabledDependentFeaturesFor fs s fuel1 fid =
      getEnabledDependentFeaturesFor fs s fuel2 fid := by
  unfold getEnabledDependentFeaturesFor
  rcases getOptionById fs fid with _ | f
  · rfl
  · by_cases hr : requiredFor fs fid = []
    · rw [if_pos hr, if_pos hr]
    · rw [if_neg hr, if_neg hr]
      have hfold : ∀ (L : List String) (st : List String × List String),
          unvisitedCount fs st.1 + 1 ≤ fuel1 → unvisitedCount fs st.1 + 1 ≤ fuel2 →
          L.foldl (fun t d => getEnabledDependentFeaturesHelper fs s fuel1 d t) st =
            L.foldl (fun t d => getEnabledDependentFeaturesHelper fs s fuel2 d t) st := by
        intro L
        induction L with
        | nil => intro st ha hb; rfl
        | cons d L ihL =>
          intro st ha hb
          rw [List.foldl_cons, List.foldl_cons, helper_stable fs s d st ha hb]
          apply ihL
          · have := helper_unvisited_le fs s fuel2 d st
            have hle := unvisitedCount_le fs (getEnabledDependentFeaturesHelper fs s fuel2 d st).1
            omega
          · have hle := unvisitedCount_le fs (getEnabledDependentFeaturesHelper fs s fuel2 d st).1
            omega
      have hnil : unvisitedCount fs ([] : List String) + 1 ≤ fs.length + 1 := by
        have := unvisitedCount_le fs ([] : List String)
        omega
      rw [hfold (requiredFor fs fid) ([], []) (le_trans hnil h1) (le_trans hnil h2)]

/-! ## Stability of the disable cascade -/

theorem onCount_cu_false_le (fs : List Feature) (fuel : Nat) (s : EngineState)
    (id : String) (u : Bool) :
    onCount fs (checkUncheckOptionById fs fuel s id false u) ≤ onCount fs s := by
  apply countP_mono_of_imp
  intro i hi hres
  cases h2 : s.checked i
  · rw [cu_false_anti fs fuel s id u i h2] at hres
    cases hres
  · rfl

theorem cu_false_succ_stable (fs : List Feature) :
    ∀ (fuel : Nat) (s : EngineState) (id : String),
      onCount fs s + 1 ≤ fuel →
      checkUncheckOptionById fs fuel s id false true =
        checkUncheckOptionById fs (fuel + 1) s id false true := by
  intro fuel
  induction fuel with
  | zero => intro s id h; omega
  | succ n ih =>
    intro s id h
    rcases hopt : getOptionById fs id with _ | f
    · rw [cu_none hopt, cu_none hopt]
    · by_cases hch : s.checked id = false
      · rw [cu_same hopt hch, cu_same hopt hch]
      · have hch2 : s.checked id = true := by
          cases h2 : s.checked id
          · exact absurd h2 hch
          · rfl
        rw [cu_succ_false hopt hch2, cu_succ_false hopt hch2]
        simp only [if_pos rfl, if_true]
        have hfold : ∀ (L : List String) (t : EngineState),
            onCount fs t + 1 ≤ n →
            L.foldl (fun t d => checkUncheckOptionById fs n t d false true) t =
              L.foldl (fun t d => checkUncheckOptionById fs (n + 1) t d false true) t := by
          intro L
          induction L with
          | nil => intro t h2; rfl
          | cons d L ihL =>
            intro t h2
            rw [List.foldl_cons, List.foldl_cons, ← ih t d h2]
            apply ihL
            have := onCount_cu_false_le fs n t d true
            omega
        rw [hfold]
        have hflip := onCount_flipOff hopt hch2
        omega

theorem cu_false_stable_ge (fs : List Feature) :
    ∀ (k fuel : Nat) (s : EngineState) (id : String),
      onCount fs s + 1 ≤ fuel →
      checkUncheckOptionById fs fuel s id false true =
        checkUncheckOptionById fs (fuel + k) s id false true := by
  intro k
  induction k with
  | zero => intro fuel s id h; rfl
  | succ m ih =>
    intro fuel s id h
    rw [ih fuel s id h]
    have : fuel + (m + 1) = (fuel + m) + 1 := by omega
    rw [this]
    exact cu_false_succ_stable fs (fuel + m) s id (by omega)

theorem onCount_le_length (fs : List Feature) (s : EngineState) :
    onCount fs s ≤ fs.length :=
  le_trans (List.countP_le_length _) (allIds_length_le fs)

theorem cu_false_stable (fs : List Feature) {fuel1 fuel2 : Nat} (s : EngineState)
    (id : String) (h1 : onCount fs s + 1 ≤ fuel1) (h2 : onCount fs s + 1 ≤ fuel2) :
    checkUncheckOptionById fs fuel1 s id false true =
      checkUncheckOptionById fs fuel2 s id false true := by
  set b := onCount fs s + 1 with hb
  have e1 : fuel1 = b + (fuel1 - b) := by omega
  have e2 : fuel2 = b + (fuel2 - b) := by omega
  rw [e1, e2, ← cu_false_stable_ge fs (fuel1 - b) b s id (by omega),
    ← cu_false_stable_ge fs (fuel2 - b) b s id (by omega)]

/-! ## Claim C9: termination under cycles -/

def featX : Feature :=
  { id := "X", name := "X", category := { name := "cyc", description := "" },
    dependencies := ["Y"], default_enabled := false }

def featY : Feature :=
  { id := "Y", name := "Y", category := { name := "cyc", description := "" },
    dependencies := ["X"], default_enabled := false }

/-- A catalog whose dependencies form a cycle. -/
def cycleCatalog : List Feature := [featX, featY]

/-- C9: for every catalog (cyclic dependency graphs included) and every state,
collecting the enabled dependent closure for a disable request needs no more
than catalog-length-plus-one nested recursion: with any fuel of at least that
bound the result is the same, i.e. the recursion has stabilised (the visited
set bounds the helper, and the checked-state guard bounds the disable
cascade), so a disable request never recurses unboundedly. -/
theorem disable_termination {fs : List Feature} {fuel : Nat}
    (hfuel : fs.length + 1 ≤ fuel) (s : EngineState) (fid : String) :
    getEnabledDependentFeaturesFor fs s fuel fid =
      getEnabledDependentFeaturesFor fs s (engineFuel fs) fid ∧
    checkUncheckOptionById fs fuel s fid false true =
      checkUncheckOptionById fs (engineFuel fs) s fid false true := by
  have hfe : engineFuel fs = fs.length + 1 := rfl
  constructor
  · exact getEnabledDependentFeaturesFor_stable fs s fid hfuel (by rw [hfe])
  · apply cu_false_stable fs s fid
    · have := onCount_le_length fs s
      omega
    · rw [hfe]
      have := onCount_le_length fs s
      omega

/-- C9 witness: on the cyclic two-feature catalog with both features enabled,
closure collection and the disable cascade give the same result at fuel 50 as
at the canonical bound. -/
theorem disable_termination_witness :
    getEnabledDependentFeaturesFor cycleCatalog
        (checkUncheckOptionById cycleCatalog (engineFuel cycleCatalog) freshState "X" true true)
        50 "X" =
      getEnabledDependentFeaturesFor cycleCatalog
        (checkUncheckOptionById cycleCatalog (engineFuel cycleCatalog) freshState "X" true true)
        (engineFuel cycleCatalog) "X" ∧
    checkUncheckOptionById cycleCatalog 50
        (checkUncheckOptionById cycleCatalog (engineFuel cycleCatalog) freshState "X" true true)
        "X" false true =
      checkUncheckOptionById cycleCatalog (engineFuel cycleCatalog)
        (checkUncheckOptionById cycleCatalog (engineFuel cycleCatalog) freshState "X" true true)
        "X" false true :=
  disable_termination (by decide)
    (checkUncheckOptionById cycleCatalog (engineFuel cycleCatalog) freshState "X" true true) "X"

/-! ## Reachability along dependents and dependencies -/

/-- `ReachDis fs chk g x`: `x` is reachable from `g` by following
`requiredFor` (dependents) edges through nodes that `chk` marks selected
(every node after `g`, including `x`, is selected). -/
inductive ReachDis (fs : List Feature) (chk : String → Bool) (g : String) : String → Prop
  | head (d : String) : d ∈ requiredFor fs g → chk d = true → ReachDis fs chk g d
  | step (d e : String) : ReachDis fs chk g d → e ∈ requiredFor fs d → chk e = true →
      ReachDis fs chk g e

/-- `ReachEn fs chk g x`: `x` is reachable from `g` by following declared
dependency edges through known nodes that `chk` marks unselected. -/
inductive ReachEn (fs : List Feature) (chk : String → Bool) (g : String) : String → Prop
  | head (f : Feature) (d : String) : getOptionById fs g = some f → d ∈ f.dependencies →
      elementExists fs d = true → chk d = false → ReachEn fs chk g d
  | step (d : String) (fd : Feature) (e : String) : ReachEn fs chk g d →
      getOptionById fs d = some fd → e ∈ fd.dependencies →
      elementExists fs e = true → chk e = false → ReachEn fs chk g e

theorem ReachDis_mono {fs : List Feature} {chk1 chk2 : String → Bool}
    (h : ∀ w, chk1 w = true → chk2 w = true) {g x : String}
    (hr : ReachDis fs chk1 g x) : ReachDis fs chk2 g x := by
  induction hr with
  | head d hd hc => exact ReachDis.head d hd (h d hc)
  | step d e hd he hc ih => exact ReachDis.step d e ih he (h e hc)

theorem ReachDis_target_checked {fs : List Feature} {chk : String → Bool} {g x : String}
    (hr : ReachDis fs chk g x) : chk x = true := by
  cases hr with
  | head d hd hc => exact hc
  | step d e hd he hc => exact hc

theorem ReachDis_target_known {fs : List Feature} {chk : String → Bool} {g x : String}
    (hr : ReachDis fs chk g x) : elementExists fs x = true := by
  cases hr with
  | head d hd hc => exact elementExists_of_mem_requiredFor hd
  | step d e hd he hc => exact elementExists_of_mem_requiredFor he

theorem ReachDis_prepend {fs : List Feature} {chk : String → Bool} {g y x : String}
    (hy : y ∈ requiredFor fs g) (hcy : chk y = true)
    (hr : ReachDis fs chk y x) : ReachDis fs chk g x := by
  induction hr with
  | head d hd hc => exact ReachDis.step y d (ReachDis.head y hy hcy) hd hc
  | step d e hd he hc ih => exact ReachDis.step d e ih he hc

theorem ReachDis_erase {fs : List Feature} {chk : String → Bool} {g x : String}
    (hr : ReachDis fs chk g x) :
    x = g ∨ ReachDis fs (fun w => if w = g then false else chk w) g x := by
  induction hr with
  | head d hd hc =>
    by_cases hdg : d = g
    · exact Or.inl hdg
    · exact Or.inr (ReachDis.head d hd (by simp [hdg, hc]))
  | step d e hd he hc ih =>
    by_cases heg : e = g
    · exact Or.inl heg
    · rcases ih with rfl | ih2
      · exact Or.inr (ReachDis.head e he (by simp [heg, hc]))
      · exact Or.inr (ReachDis.step d e ih2 he (by simp [heg, hc]))

theorem ReachEn_mono {fs : List Feature} {chk1 chk2 : String → Bool}
    (h : ∀ w, chk1 w = false → chk2 w = false) {g x : String}
    (hr : ReachEn fs chk1 g x) : ReachEn fs chk2 g x := by
  induction hr with
  | head f d hf hd hel hc => exact ReachEn.head f d hf hd hel (h d hc)
  | step d fd e hd hf he hel hc ih => exact ReachEn.step d fd e ih hf he hel (h e hc)

theorem ReachEn_target_unchecked {fs : List Feature} {chk : String → Bool} {g x : String}
    (hr : ReachEn fs chk g x) : chk x = false := by
  cases hr with
  | head f d hf hd hel hc => exact hc
  | step d fd e hd hf he hel hc => exact hc

theorem ReachEn_target_known {fs : List Feature} {chk : String → Bool} {g x : String}
    (hr : ReachEn fs chk g x) : elementExists fs x = true := by
  cases hr with
  | head f d hf hd hel hc => exact hel
  | step d fd e hd hf he hel hc => exact hel

theorem ReachEn_prepend {fs : List Feature} {chk : String → Bool} {g y x : String}
    {f : Feature} (hf : getOptionById fs g = some f) (hy : y ∈ f.dependencies)
    (hely : elementExists fs y = true) (hcy : chk y = false)
    (hr : ReachEn fs chk y x) : ReachEn fs chk g x := by
  induction hr with
  | head f2 d hf2 hd hel hc =>
    exact ReachEn.step y f2 d (ReachEn.head f y hf hy hely hcy) hf2 hd hel hc
  | step d fd e hd hf2 he hel hc ih => exact ReachEn.step d fd e ih hf2 he hel hc

theorem ReachEn_erase {fs : List Feature} {chk : String → Bool} {g x : String}
    (hr : ReachEn fs chk g x) :
    x = g ∨ ReachEn fs (fun w => if w = g then true else chk w) g x := by
  induction hr with
  | head f d hf hd hel hc =>
    by_cases hdg : d = g
    · exact Or.inl hdg
    · exact Or.inr (ReachEn.head f d hf hd hel (by simp [hdg, hc]))
  | step d fd e hd hf he hel hc ih =>
    by_cases heg : e = g
    · exact Or.inl heg
    · rcases ih with rfl | ih2
      · exact Or.inr (ReachEn.head fd e hf he hel (by simp [heg, hc]))
      · exact Or.inr (ReachEn.step d fd e ih2 hf he hel (by simp [heg, hc]))

/-! ## Exactness of the disable cascade -/

theorem disFold_clears (fs : List Feature) (m : Nat) :
    ∀ (L : List String) (t : EngineState) {y : String}, y ∈ L → elementExists fs y = true →
      (L.foldl (fun a d => checkUncheckOptionById fs (m + 1) a d false true) t).checked y
        = false := by
  intro L
  induction L with
  | nil => intro t y hy _; cases hy
  | cons z L ihL =>
    intro t y hy hely
    rw [List.foldl_cons]
    rcases List.mem_cons.1 hy with rfl | hy2
    · rcases getOptionById_isSome_of_elementExists hely with ⟨f2, hopt2⟩
      have hafter := cu_target hopt2 m t false true
      exact foldl_preserve (fun a w ha => cu_false_anti fs (m + 1) a w true y ha) L _ hafter
    · exact ihL _ hy2 hely

theorem dis_c (fs : List Feature) :
    ∀ (fuel : Nat) (t : EngineState) (id : String), onCount fs t + 1 ≤ fuel →
      ∀ d, (checkUncheckOptionById fs fuel t id false true).checked d = false →
        t.checked d = false ∨
        ∀ y ∈ requiredFor fs d,
          (checkUncheckOptionById fs fuel t id false true).checked y = false := by
  intro fuel
  induction fuel with
  | zero => intro t id hade; omega
  | succ n ih =>
    intro t id hade d hd
    rcases hopt : getOptionById fs id with _ | f
    · rw [cu_none hopt] at hd ⊢
      exact Or.inl hd
    · by_cases hch : t.checked id = false
      · rw [cu_same hopt hch] at hd ⊢
        exact Or.inl hd
      · have hch2 : t.checked id = true := by
          cases h2 : t.checked id
          · exact absurd h2 hch
          · rfl
        have hone : 1 ≤ onCount fs t := by
          have hidm : id ∈ allIds fs :=
            mem_allIds_iff.2 (elementExists_of_getOptionById hopt)
          have : (allIds fs).countP (fun i => t.checked i) ≠ 0 := by
            intro h0
            rw [List.countP_eq_zero] at h0
            have := h0 id hidm
            simp [hch2] at this
          unfold onCount
          omega
        have hade2 : onCount fs (flipOff t id) + 1 ≤ n := by
          have := onCount_flipOff hopt hch2
          omega
        have foldC : ∀ (L : List String) (t2 : EngineState), onCount fs t2 + 1 ≤ n →
            ∀ d2, (L.foldl (fun a w => checkUncheckOptionById fs n a w false true) t2).checked d2 = false →
              t2.checked d2 = false ∨
              ∀ y ∈ requiredFor fs d2,
                (L.foldl (fun a w => checkUncheckOptionById fs n a w false true) t2).checked y
                  = false := by
          intro L
          induction L with
          | nil => intro t2 _ d2 hd2; exact Or.inl hd2
          | cons z L ihL =>
            intro t2 h2 d2 hd2
            rw [List.foldl_cons] at hd2 ⊢
            have h3 : onCount fs (checkUncheckOptionById fs n t2 z false true) + 1 ≤ n := by
              have := onCount_cu_false_le fs n t2 z true
              omega
            rcases ihL _ h3 d2 hd2 with h4 | h4
            · rcases ih t2 z h2 d2 h4 with h5 | h5
              · exact Or.inl h5
              · refine Or.inr (fun y hy => ?_)
                exact foldl_preserve
                  (fun a w ha => cu_false_anti fs n a w true y ha) L _ (h5 y hy)
            · exact Or.inr h4
        rw [cu_succ_false hopt hch2] at hd ⊢
        simp only [if_pos rfl, if_true, updateGlobal_checked, updateCategory_checked] at hd ⊢
        have hade3 : onCount fs (flipOff t id) + 1 ≤ n := hade2
        rcases foldC (requiredFor fs id) (flipOff t id) hade3 d hd with h3 | h3
        · by_cases hdid : d = id
          · subst hdid
            refine Or.inr (fun y hy => ?_)
            have hely : elementExists fs y = true := elementExists_of_mem_requiredFor hy
            obtain ⟨m, rfl⟩ : ∃ m, n = m + 1 := ⟨n - 1, by omega⟩
            exact disFold_clears fs m (requiredFor fs d) (flipOff t d) hy hely
          · rw [flipOff_checked, if_neg hdid] at h3
            exact Or.inl h3
        · exact Or.inr h3

theorem disFold_c (fs : List Feature) (fuel : Nat) :
    ∀ (L : List String) (t : EngineState), onCount fs t + 1 ≤ fuel →
      ∀ d, (L.foldl (fun a w => checkUncheckOptionById fs fuel a w false true) t).checked d = false →
        t.checked d = false ∨
        ∀ y ∈ requiredFor fs d,
          (L.foldl (fun a w => checkUncheckOptionById fs fuel a w false true) t).checked y
            = false := by
  intro L
  induction L with
  | nil => intro t _ d hd; exact Or.inl hd
  | cons z L ihL =>
    intro t h2 d hd
    rw [List.foldl_cons] at hd ⊢
    have h3 : onCount fs (checkUncheckOptionById fs fuel t z false true) + 1 ≤ fuel := by
      have := onCount_cu_false_le fs fuel t z true
      omega
    rcases ihL _ h3 d hd with h4 | h4
    · rcases dis_c fs fuel t z h2 d h4 with h5 | h5
      · exact Or.inl h5
      · refine Or.inr (fun y hy => ?_)
        exact foldl_preserve
          (fun a w ha => cu_false_anti fs fuel a w true y ha) L _ (h5 y hy)
    · exact Or.inr h4

theorem dis_d (fs : List Feature) :
    ∀ (fuel : Nat) (t : EngineState) (id : String) (x : String),
      (checkUncheckOptionById fs fuel t id false true).checked x = false →
      t.checked x = false ∨ x = id ∨ ReachDis fs t.checked id x := by
  intro fuel
  induction fuel with
  | zero =>
    intro t id x hx
    rw [cu_zero] at hx
    exact Or.inl hx
  | succ n ih =>
    intro t id x hx
    rcases hopt : getOptionById fs id with _ | f
    · rw [cu_none hopt] at hx
      exact Or.inl hx
    · by_cases hch : t.checked id = false
      · rw [cu_same hopt hch] at hx
        exact Or.inl hx
      · have hch2 : t.checked id = true := by
          cases h2 : t.checked id
          · exact absurd h2 hch
          · rfl
        have foldD : ∀ (L : List String) (t2 : EngineState) (x2 : String),
            (L.foldl (fun a w => checkUncheckOptionById fs n a w false true) t2).checked x2 = false →
            t2.checked x2 = false ∨
            ∃ y ∈ L, t2.checked y = true ∧ (x2 = y ∨ ReachDis fs t2.checked y x2) := by
          intro L
          induction L with
          | nil => intro t2 x2 hx2; exact Or.inl hx2
          | cons z L ihL =>
            intro t2 x2 hx2
            rw [List.foldl_cons] at hx2
            have hanti : ∀ w, (checkUncheckOptionById fs n t2 z false true).checked w = true →
                t2.checked w = true := by
              intro w hw
              cases h3 : t2.checked w
              · rw [cu_false_anti fs n t2 z true w h3] at hw
                cases hw
              · rfl
            rcases ihL _ x2 hx2 with h4 | h4
            · rcases ih t2 z x2 h4 with h5 | h5
              · exact Or.inl h5
              · by_cases hzt : t2.checked z = true
                · rcases h5 with rfl | h6
                  · exact Or.inr ⟨x2, by simp, hzt, Or.inl rfl⟩
                  · exact Or.inr ⟨z, by simp, hzt, Or.inr h6⟩
                · have hzt2 : t2.checked z = false := by
                    cases h6 : t2.checked z
                    · rfl
                    · exact absurd h6 hzt
                  rcases hopt2 : getOptionById fs z with _ | f2
                  · rw [cu_none hopt2] at h4
                    exact Or.inl h4
                  · rw [cu_same_any hopt2 hzt2] at h4
                    exact Or.inl h4
            · rcases h4 with ⟨y, hyL, hyc, hyr⟩
              refine Or.inr ⟨y, by simp [hyL], hanti y hyc, ?_⟩
              rcases hyr with rfl | h6
              · exact Or.inl rfl
              · exact Or.inr (ReachDis_mono hanti h6)
        rw [cu_succ_false hopt hch2] at hx
        simp only [if_pos rfl, if_true, updateGlobal_checked, updateCategory_checked] at hx
        rcases foldD (requiredFor fs id) (flipOff t id) x hx with h3 | h3
        · by_cases hxid : x = id
          · exact Or.inr (Or.inl hxid)
          · rw [flipOff_checked, if_neg hxid] at h3
            exact Or.inl h3
        · rcases h3 with ⟨y, hyL, hyc, hyr⟩
          have hyid : y ≠ id := by
            intro h
            rw [flipOff_checked, if_pos h] at hyc
            cases hyc
          rw [flipOff_checked, if_neg hyid] at hyc
          have hmono : ∀ w, (flipOff t id).checked w = true → t.checked w = true := by
            intro w hw
            rw [flipOff_checked] at hw
            by_cases hwid : w = id
            · rw [if_pos hwid] at hw
              cases hw
            · rw [if_neg hwid] at hw
              exact hw
          rcases hyr with rfl | h6
          · exact Or.inr (Or.inr (ReachDis.head x hyL hyc))
          · exact Or.inr (Or.inr
              (ReachDis_prepend hyL hyc (ReachDis_mono hmono h6)))

theorem disFold_d (fs : List Feature) (fuel : Nat) :
    ∀ (L : List String) (t : EngineState) (x : String),
      (L.foldl (fun a w => checkUncheckOptionById fs fuel a w false true) t).checked x = false →
      t.checked x = false ∨
      ∃ y ∈ L, t.checked y = true ∧ (x = y ∨ ReachDis fs t.checked y x) := by
  intro L
  induction L with
  | nil => intro t x hx; exact Or.inl hx
  | cons z L ihL =>
    intro t x hx
    rw [List.foldl_cons] at hx
    have hanti : ∀ w, (checkUncheckOptionById fs fuel t z false true).checked w = true →
        t.checked w = true := by
      intro w hw
      cases h3 : t.checked w
      · rw [cu_false_anti fs fuel t z true w h3] at hw
        cases hw
      · rfl
    rcases ihL _ x hx with h4 | h4
    · rcases dis_d fs fuel t z x h4 with h5 | h5
      · exact Or.inl h5
      · by_cases hzt : t.checked z = true
        · rcases h5 with rfl | h6
          · exact Or.inr ⟨x, by simp, hzt, Or.inl rfl⟩
          · exact Or.inr ⟨z, by simp, hzt, Or.inr h6⟩
        · have hzt2 : t.checked z = false := by
            cases h6 : t.checked z
            · rfl
            · exact absurd h6 hzt
          rcases hopt2 : getOptionById fs z with _ | f2
          · rw [cu_none hopt2] at h4
            exact Or.inl h4
          · rw [cu_same_any hopt2 hzt2] at h4
            exact Or.inl h4
    · rcases h4 with ⟨y, hyL, hyc, hyr⟩
      refine Or.inr ⟨y, by simp [hyL], hanti y hyc, ?_⟩
      rcases hyr with rfl | h6
      · exact Or.inl rfl
      · exact Or.inr (ReachDis_mono hanti h6)

theorem disFold_complete (fs : List Feature) (m : Nat) (g : String)
    (t : EngineState) (hade : onCount fs t + 1 ≤ m + 1) :
    ∀ x, ReachDis fs t.checked g x →
      ((requiredFor fs g).foldl (fun a w => checkUncheckOptionById fs (m + 1) a w false true) t).checked x
        = false := by
  intro x hr
  induction hr with
  | head d hd hc =>
    exact disFold_clears fs m (requiredFor fs g) t hd (elementExists_of_mem_requiredFor hd)
  | step d e hd he hc ihd =>
    have hdc : t.checked d = true := ReachDis_target_checked hd
    rcases disFold_c fs (m + 1) (requiredFor fs g) t hade d ihd with h3 | h3
    · rw [hdc] at h3
      cases h3
    · exact h3 e he

theorem disFold_exact (fs : List Feature) (m : Nat) (g : String)
    (t : EngineState) (hade : onCount fs t + 1 ≤ m + 1) :
    ∀ x, ((requiredFor fs g).foldl (fun a w => checkUncheckOptionById fs (m + 1) a w false true) t).checked x
        = false ↔
      (t.checked x = false ∨ ReachDis fs t.checked g x) := by
  intro x
  constructor
  · intro hx
    rcases disFold_d fs (m + 1) (requiredFor fs g) t x hx with h3 | h3
    · exact Or.inl h3
    · rcases h3 with ⟨y, hyL, hyc, hyr⟩
      rcases hyr with rfl | h6
      · exact Or.inr (ReachDis.head x hyL hyc)
      · exact Or.inr (ReachDis_prepend hyL hyc h6)
  · intro hx
    rcases hx with hx | hx
    · exact foldl_preserve (fun a w ha => cu_false_anti fs (m + 1) a w true x ha) _ t hx
    · exact disFold_complete fs m g t hade x hx

/-! ## Exactness at the level of a single disable call -/

theorem cu_false_exact {fs : List Feature} {g : String} {f : Feature}
    (hopt : getOptionById fs g = some f) (m : Nat) (t : EngineState)
    (hch : t.checked g = true) (hade : onCount fs t ≤ m + 1) :
    ∀ x, (checkUncheckOptionById fs (m + 2) t g false true).checked x = false ↔
      (t.checked x = false ∨ x = g ∨ ReachDis fs t.checked g x) := by
  intro x
  have hade2 : onCount fs (flipOff t g) + 1 ≤ m + 1 := by
    have := onCount_flipOff hopt hch
    omega
  have hmain := disFold_exact fs m g (flipOff t g) hade2 x
  have heq : checkUncheckOptionById fs (m + 2) t g false true =
      updateGlobalCheckboxState fs (updateCategoryCheckboxState fs
        ((requiredFor fs g).foldl
          (fun a w => checkUncheckOptionById fs (m + 1) a w false true) (flipOff t g))
        f.category.name) := by
    rw [cu_succ_false hopt hch]
    simp only [if_pos rfl, if_true]
  rw [heq]
  simp only [updateGlobal_checked, updateCategory_checked]
  rw [hmain]
  constructor
  · rintro (hx | hx)
    · rw [flipOff_checked] at hx
      by_cases hxg : x = g
      · exact Or.inr (Or.inl hxg)
      · rw [if_neg hxg] at hx
        exact Or.inl hx
    · refine Or.inr (Or.inr (ReachDis_mono ?_ hx))
      intro w hw
      rw [flipOff_checked] at hw
      by_cases hwg : w = g
      · rw [if_pos hwg] at hw; cases hw
      · rw [if_neg hwg] at hw; exact hw
  · rintro (hx | rfl | hx)
    · refine Or.inl ?_
      rw [flipOff_checked]
      by_cases hxg : x = g
      · rw [if_pos hxg]
      · rw [if_neg hxg]; exact hx
    · exact Or.inl (by rw [flipOff_checked, if_pos rfl])
    · rcases ReachDis_erase hx with rfl | h2
      · exact Or.inl (by rw [flipOff_checked, if_pos rfl])
      · refine Or.inr (ReachDis_mono ?_ h2)
        intro w hw
        by_cases hwg : w = g
        · rw [if_pos hwg] at hw; cases hw
        · rw [if_neg hwg] at hw
          rw [flipOff_checked, if_neg hwg]
          exact hw

/-! ## Exactness of the enable cascade -/

/-- The number of distinct rendered checkboxes currently unchecked. -/
def offCount (fs : List Feature) (s : EngineState) : Nat :=
  (allIds fs).countP (fun i => !(s.checked i))

theorem offCount_flipOn {fs : List Feature} {id : String} {f : Feature} {s : EngineState}
    (hopt : getOptionById fs id = some f) (hch : s.checked id = false) :
    offCount fs (flipOn s id) + 1 = offCount fs s := by
  have hid : id ∈ allIds fs := mem_allIds_iff.2 (elementExists_of_getOptionById hopt)
  have hcong : (allIds fs).countP (fun i => !((flipOn s id).checked i)) =
      (allIds fs).countP (fun i => if i = id then false else !(s.checked i)) := by
    apply List.countP_congr
    intro i hi
    by_cases hie : i = id <;> simp [flipOn, setChecked, hie]
  unfold offCount
  rw [hcong]
  exact @countP_set_false (allIds fs) (allIds_nodup fs) id hid
    (fun i => !(s.checked i)) (by simp [hch])

theorem offCount_cu_true_le (fs : List Feature) (fuel : Nat) (s : EngineState)
    (id : String) (u : Bool) :
    offCount fs (checkUncheckOptionById fs fuel s id true u) ≤ offCount fs s := by
  apply countP_mono_of_imp
  intro i hi hres
  cases h2 : s.checked i
  · simp [h2]
  · rw [cu_true_mono fs fuel s id u i h2] at hres
    simp at hres

theorem enFold_fills (fs : List Feature) (m : Nat) :
    ∀ (L : List String) (t : EngineState) {y : String}, y ∈ L → elementExists fs y = true →
      (L.foldl (fun a d => checkUncheckOptionById fs (m + 1) a d true true) t).checked y
        = true := by
  intro L
  induction L with
  | nil => intro t y hy _; cases hy
  | cons z L ihL =>
    intro t y hy hely
    rw [List.foldl_cons]
    rcases List.mem_cons.1 hy with rfl | hy2
    · rcases getOptionById_isSome_of_elementExists hely with ⟨f2, hopt2⟩
      have hafter := cu_target hopt2 m t true true
      exact foldl_preserve (fun a w ha => cu_true_mono fs (m + 1) a w true y ha) L _ hafter
    · exact ihL _ hy2 hely

theorem en_c (fs : List Feature) :
    ∀ (fuel : Nat) (t : EngineState) (id : String), offCount fs t + 1 ≤ fuel →
      ∀ d, (checkUncheckOptionById fs fuel t id true true).checked d = true →
        t.checked d = true ∨
        ∀ fd, getOptionById fs d = some fd → ∀ y ∈ fd.dependencies,
          elementExists fs y = true →
          (checkUncheckOptionById fs fuel t id true true).checked y = true := by
  intro fuel
  induction fuel with
  | zero => intro t id hade; omega
  | succ n ih =>
    intro t id hade d hd
    rcases hopt : getOptionById fs id with _ | f
    · rw [cu_none hopt] at hd ⊢
      exact Or.inl hd
    · by_cases hch : t.checked id = true
      · rw [cu_same hopt hch] at hd ⊢
        exact Or.inl hd
      · have hch2 : t.checked id = false := by
          cases h2 : t.checked id
          · rfl
          · exact absurd h2 hch
        have hone : 1 ≤ offCount fs t := by
          have hidm : id ∈ allIds fs :=
            mem_allIds_iff.2 (elementExists_of_getOptionById hopt)
          have : (allIds fs).countP (fun i => !(t.checked i)) ≠ 0 := by
            intro h0
            rw [List.countP_eq_zero] at h0
            have := h0 id hidm
            simp [hch2] at this
          unfold offCount
          omega
        have hade2 : offCount fs (flipOn t id) + 1 ≤ n := by
          have := offCount_flipOn hopt hch2
          omega
        have foldC : ∀ (L : List String) (t2 : EngineState), offCount fs t2 + 1 ≤ n →
            ∀ d2, (L.foldl (fun a w => checkUncheckOptionById fs n a w true true) t2).checked d2 = true →
              t2.checked d2 = true ∨
              ∀ fd, getOptionById fs d2 = some fd → ∀ y ∈ fd.dependencies,
                elementExists fs y = true →
                (L.foldl (fun a w => checkUncheckOptionById fs n a w true true) t2).checked y
                  = true := by
          intro L
          induction L with
          | nil => intro t2 _ d2 hd2; exact Or.inl hd2
          | cons z L ihL =>
            intro t2 h2 d2 hd2
            rw [List.foldl_cons] at hd2 ⊢
            have h3 : offCount fs (checkUncheckOptionById fs n t2 z true true) + 1 ≤ n := by
              have := offCount_cu_true_le fs n t2 z true
              omega
            rcases ihL _ h3 d2 hd2 with h4 | h4
            · rcases ih t2 z h2 d2 h4 with h5 | h5
              · exact Or.inl h5
              · refine Or.inr (fun fd hfd y hy hely => ?_)
                exact foldl_preserve
                  (fun a w ha => cu_true_mono fs n a w true y ha) L _ (h5 fd hfd y hy hely)
            · exact Or.inr h4
        rw [cu_succ_true hopt hch2] at hd ⊢
        simp only [if_pos rfl, if_true, updateGlobal_checked, updateCategory_checked] at hd ⊢
        have hade3 : offCount fs (flipOn t id) + 1 ≤ n := hade2
        rcases foldC f.dependencies (flipOn t id) hade3 d hd with h3 | h3
        · by_cases hdid : d = id
          · subst hdid
            refine Or.inr (fun fd hfd y hy hely => ?_)
            have hfdf : fd = f := by
              rw [hopt] at hfd
              exact (Option.some.inj hfd).symm
            rw [hfdf] at hy
            obtain ⟨m, rfl⟩ : ∃ m, n = m + 1 := ⟨n - 1, by omega⟩
            exact enFold_fills fs m f.dependencies (flipOn t d) hy hely
          · rw [flipOn_checked, if_neg hdid] at h3
            exact Or.inl h3
        · exact Or.inr h3

theorem enFold_c (fs : List Feature) (fuel : Nat) :
    ∀ (L : List String) (t : EngineState), offCount fs t + 1 ≤ fuel →
      ∀ d, (L.foldl (fun a w => checkUncheckOptionById fs fuel a w true true) t).checked d = true →
        t.checked d = true ∨
        ∀ fd, getOptionById fs d = some fd → ∀ y ∈ fd.dependencies,
          elementExists fs y = true →
          (L.foldl (fun a w => checkUncheckOptionById fs fuel a w true true) t).checked y
            = true := by
  intro L
  induction L with
  | nil => intro t _ d hd; exact Or.inl hd
  | cons z L ihL =>
    intro t h2 d hd
    rw [List.foldl_cons] at hd ⊢
    have h3 : offCount fs (checkUncheckOptionById fs fuel t z true true) + 1 ≤ fuel := by
      have := offCount_cu_true_le fs fuel t z true
      omega
    rcases ihL _ h3 d hd with h4 | h4
    · rcases en_c fs fuel t z h2 d h4 with h5 | h5
      · exact Or.inl h5
      · refine Or.inr (fun fd hfd y hy hely => ?_)
        exact foldl_preserve
          (fun a w ha => cu_true_mono fs fuel a w true y ha) L _ (h5 fd hfd y hy hely)
    · exact Or.inr h4

theorem en_d (fs : List Feature) :
    ∀ (fuel : Nat) (t : EngineState) (id : String) (x : String),
      (checkUncheckOptionById fs fuel t id true true).checked x = true →
      t.checked x = true ∨ x = id ∨ ReachEn fs t.checked id x := by
  intro fuel
  induction fuel with
  | zero =>
    intro t id x hx
    rw [cu_zero] at hx
    exact Or.inl hx
  | succ n ih =>
    intro t id x hx
    rcases hopt : getOptionById fs id with _ | f
    · rw [cu_none hopt] at hx
      exact Or.inl hx
    · by_cases hch : t.checked id = true
      · rw [cu_same hopt hch] at hx
        exact Or.inl hx
      · have hch2 : t.checked id = false := by
          cases h2 : t.checked id
          · rfl
          · exact absurd h2 hch
        have foldE : ∀ (L : List String) (t2 : EngineState) (x2 : String),
            (L.foldl (fun a w => checkUncheckOptionById fs n a w true true) t2).checked x2 = true →
            t2.checked x2 = true ∨
            ∃ y ∈ L, elementExists fs y = true ∧ t2.checked y = false ∧
              (x2 = y ∨ ReachEn fs t2.checked y x2) := by
          intro L
          induction L with
          | nil => intro t2 x2 hx2; exact Or.inl hx2
          | cons z L ihL =>
            intro t2 x2 hx2
            rw [List.foldl_cons] at hx2
            have hanti : ∀ w, (checkUncheckOptionById fs n t2 z true true).checked w = false →
                t2.checked w = false := by
              intro w hw
              cases h3 : t2.checked w
              · rfl
              · rw [cu_true_mono fs n t2 z true w h3] at hw
                cases hw
            rcases ihL _ x2 hx2 with h4 | h4
            · rcases ih t2 z x2 h4 with h5 | h5
              · exact Or.inl h5
              · by_cases hzt : t2.checked z = false
                · rcases hopt2 : getOptionById fs z with _ | f2
                  · rw [cu_none hopt2] at h4
                    exact Or.inl h4
                  · have helz : elementExists fs z = true :=
                      elementExists_of_getOptionById hopt2
                    rcases h5 with rfl | h6
                    · exact Or.inr ⟨x2, by simp, helz, hzt, Or.inl rfl⟩
                    · exact Or.inr ⟨z, by simp, helz, hzt, Or.inr h6⟩
                · have hzt2 : t2.checked z = true := by
                    cases h6 : t2.checked z
                    · exact absurd h6 hzt
                    · rfl
                  rcases hopt2 : getOptionById fs z with _ | f2
                  · rw [cu_none hopt2] at h4
                    exact Or.inl h4
                  · rw [cu_same_any hopt2 hzt2] at h4
                    exact Or.inl h4
            · rcases h4 with ⟨y, hyL, hely, hyc, hyr⟩
              refine Or.inr ⟨y, by simp [hyL], hely, hanti y hyc, ?_⟩
              rcases hyr with rfl | h6
              · exact Or.inl rfl
              · exact Or.inr (ReachEn_mono hanti h6)
        rw [cu_succ_true hopt hch2] at hx
        simp only [if_pos rfl, if_true, updateGlobal_checked, updateCategory_checked] at hx
        rcases foldE f.dependencies (flipOn t id) x hx with h3 | h3
        · by_cases hxid : x = id
          · exact Or.inr (Or.inl hxid)
          · rw [flipOn_checked, if_neg hxid] at h3
            exact Or.inl h3
        · rcases h3 with ⟨y, hyL, hely, hyc, hyr⟩
          have hyid : y ≠ id := by
            intro h
            rw [flipOn_checked, if_pos h] at hyc
            cases hyc
          rw [flipOn_checked, if_neg hyid] at hyc
          have hmono : ∀ w, (flipOn t id).checked w = false → t.checked w = false := by
            intro w hw
            rw [flipOn_checked] at hw
            by_cases hwid : w = id
            · rw [if_pos hwid] at hw
              cases hw
            · rw [if_neg hwid] at hw
              exact hw
          rcases hyr with rfl | h6
          · exact Or.inr (Or.inr (ReachEn.head f x hopt hyL hely hyc))
          · exact Or.inr (Or.inr
              (ReachEn_prepend hopt hyL hely hyc (ReachEn_mono hmono h6)))

theorem enFold_d (fs : List Feature) (fuel : Nat) :
    ∀ (L : List String) (t : EngineState) (x : String),
      (L.foldl (fun a w => checkUncheckOptionById fs fuel a w true true) t).checked x = true →
      t.checked x = true ∨
      ∃ y ∈ L, elementExists fs y = true ∧ t.checked y = false ∧
        (x = y ∨ ReachEn fs t.checked y x) := by
  intro L
  induction L with
  | nil => intro t x hx; exact Or.inl hx
  | cons z L ihL =>
    intro t x hx
    rw [List.foldl_cons] at hx
    have hanti : ∀ w, (checkUncheckOptionById fs fuel t z true true).checked w = false →
        t.checked w = false := by
      intro w hw
      cases h3 : t.checked w
      · rfl
      · rw [cu_true_mono fs fuel t z true w h3] at hw
        cases hw
    rcases ihL _ x hx with h4 | h4
    · rcases en_d fs fuel t z x h4 with h5 | h5
      · exact Or.inl h5
      · by_cases hzt : t.checked z = false
        · rcases hopt2 : getOptionById fs z with _ | f2
          · rw [cu_none hopt2] at h4
            exact Or.inl h4
          · have helz : elementExists fs z = true :=
              elementExists_of_getOptionById hopt2
            rcases h5 with rfl | h6
            · exact Or.inr ⟨x, by simp, helz, hzt, Or.inl rfl⟩
            · exact Or.inr ⟨z, by simp, helz, hzt, Or.inr h6⟩
        · have hzt2 : t.checked z = true := by
            cases h6 : t.checked z
            · exact absurd h6 hzt
            · rfl
          rcases hopt2 : getOptionById fs z with _ | f2
          · rw [cu_none hopt2] at h4
            exact Or.inl h4
          · rw [cu_same_any hopt2 hzt2] at h4
            exact Or.inl h4
    · rcases h4 with ⟨y, hyL, hely, hyc, hyr⟩
      refine Or.inr ⟨y, by simp [hyL], hely, hanti y hyc, ?_⟩
      rcases hyr with rfl | h6
      · exact Or.inl rfl
      · exact Or.inr (ReachEn_mono hanti h6)

theorem enFold_complete (fs : List Feature) (m : Nat) {g : String} {f : Feature}
    (hopt : getOptionById fs g = some f)
    (t : EngineState) (hade : offCount fs t + 1 ≤ m + 1) :
    ∀ x, ReachEn fs t.checked g x →
      (f.dependencies.foldl
        (fun a w => checkUncheckOptionById fs (m + 1) a w true true) t).checked x = true := by
  intro x hr
  induction hr with
  | head f2 d hf2 hd hel hc =>
    rw [hopt] at hf2
    obtain rfl := Option.some.inj hf2
    exact enFold_fills fs m f.dependencies t hd hel
  | step d fd e hd hf2 he hel hc ihd =>
    have hdc : t.checked d = false := ReachEn_target_unchecked hd
    rcases enFold_c fs (m + 1) f.dependencies t hade d ihd with h3 | h3
    · rw [hdc] at h3
      cases h3
    · exact h3 fd hf2 e he hel

theorem enFold_exact (fs : List Feature) (m : Nat) {g : String} {f : Feature}
    (hopt : getOptionById fs g = some f)
    (t : EngineState) (hade : offCount fs t + 1 ≤ m + 1) :
    ∀ x, (f.dependencies.foldl
        (fun a w => checkUncheckOptionById fs (m + 1) a w true true) t).checked x = true ↔
      (t.checked x = true ∨ ReachEn fs t.checked g x) := by
  intro x
  constructor
  · intro hx
    rcases enFold_d fs (m + 1) f.dependencies t x hx with h3 | h3
    · exact Or.inl h3
    · rcases h3 with ⟨y, hyL, hely, hyc, hyr⟩
      rcases hyr with rfl | h6
      · exact Or.inr (ReachEn.head f x hopt hyL hely hyc)
      · exact Or.inr (ReachEn_prepend hopt hyL hely hyc h6)
  · intro hx
    rcases hx with hx | hx
    · exact foldl_preserve (fun a w ha => cu_true_mono fs (m + 1) a w true x ha) _ t hx
    · exact enFold_complete fs m hopt t hade x hx

theorem cu_true_exact {fs : List Feature} {g : String} {f : Feature}
    (hopt : getOptionById fs g = some f) (m : Nat) (t : EngineState)
    (hch : t.checked g = false) (hade : offCount fs t ≤ m + 1) :
    ∀ x, (checkUncheckOptionById fs (m + 2) t g true true).checked x = true ↔
      (t.checked x = true ∨ x = g ∨ ReachEn fs t.checked g x) := by
  intro x
  have hade2 : offCount fs (flipOn t g) + 1 ≤ m + 1 := by
    have := offCount_flipOn hopt hch
    omega
  have hmain := enFold_exact fs m hopt (flipOn t g) hade2 x
  have heq : checkUncheckOptionById fs (m + 2) t g true true =
      updateGlobalCheckboxState fs (updateCategoryCheckboxState fs
        (f.dependencies.foldl
          (fun a w => checkUncheckOptionById fs (m + 1) a w true true) (flipOn t g))
        f.category.name) := by
    rw [cu_succ_true hopt hch]
    simp only [if_pos rfl, if_true]
  rw [heq]
  simp only [updateGlobal_checked, updateCategory_checked]
  rw [hmain]
  constructor
  · rintro (hx | hx)
    · rw [flipOn_checked] at hx
      by_cases hxg : x = g
      · exact Or.inr (Or.inl hxg)
      · rw [if_neg hxg] at hx
        exact Or.inl hx
    · refine Or.inr (Or.inr (ReachEn_mono ?_ hx))
      intro w hw
      rw [flipOn_checked] at hw
      by_cases hwg : w = g
      · rw [if_pos hwg] at hw; cases hw
      · rw [if_neg hwg] at hw; exact hw
  · rintro (hx | rfl | hx)
    · refine Or.inl ?_
      rw [flipOn_checked]
      by_cases hxg : x = g
      · rw [if_pos hxg]
      · rw [if_neg hxg]; exact hx
    · exact Or.inl (by rw [flipOn_checked, if_pos rfl])
    · rcases ReachEn_erase hx with rfl | h2
      · exact Or.inl (by rw [flipOn_checked, if_pos rfl])
      · refine Or.inr (ReachEn_mono ?_ h2)
        intro w hw
        by_cases hwg : w = g
        · rw [if_pos hwg] at hw; cases hw
        · rw [if_neg hwg] at hw
          rw [flipOn_checked, if_neg hwg]
          exact hw

/-! ## Upward closure of the selection -/

theorem offCount_le_length (fs : List Feature) (s : EngineState) :
    offCount fs s ≤ fs.length :=
  le_trans (List.countP_le_length _) (allIds_length_le fs)

/-- The selection is upward-closed over the catalog-known dependency edges:
every selected feature has each of its dependencies that exists in the
catalog selected as well. -/
def ClosureOK (fs : List Feature) (s : EngineState) : Prop :=
  ∀ f ∈ fs, s.checked f.id = true → ∀ d ∈ f.dependencies,
    elementExists fs d = true → s.checked d = true

/-- States reachable from the fresh page by programmatic toggles through the
cascading commit path and by `applyDefaults` (the C1 operation set without
hydration). -/
inductive ReachableT (fs : List Feature) : EngineState → Prop
  | init : ReachableT fs freshState
  | toggle (s : EngineState) (id : String) (c : Bool) : ReachableT fs s →
      ReachableT fs (checkUncheckOptionById fs (engineFuel fs) s id c true)
  | defaults (s : EngineState) : ReachableT fs s →
      ReachableT fs (applyDefaults fs (engineFuel fs) s)

theorem cu_ClosureOK_true {fs : List Feature} (hnd : (fs.map Feature.id).Nodup)
    {t : EngineState} (hC : ClosureOK fs t) {fuel : Nat}
    (hade : offCount fs t + 1 ≤ fuel) (id : String) :
    ClosureOK fs (checkUncheckOptionById fs fuel t id true true) := by
  intro f hf hfc d hd held
  rcases en_c fs fuel t id hade f.id hfc with h1 | h1
  · exact cu_true_mono fs fuel t id true d (hC f hf h1 d hd held)
  · exact h1 f (getOptionById_self hnd hf) d hd held

theorem cu_ClosureOK_false {fs : List Feature}
    {t : EngineState} (hC : ClosureOK fs t) {fuel : Nat}
    (hade : onCount fs t + 1 ≤ fuel) (id : String) :
    ClosureOK fs (checkUncheckOptionById fs fuel t id false true) := by
  intro f hf hfc d hd held
  have hft : t.checked f.id = true := by
    cases h2 : t.checked f.id
    · rw [cu_false_anti fs fuel t id true f.id h2] at hfc
      cases hfc
    · rfl
  have hdt : t.checked d = true := hC f hf hft d hd held
  cases h3 : (checkUncheckOptionById fs fuel t id false true).checked d
  · rcases dis_c fs fuel t id hade d h3 with h4 | h4
    · rw [hdt] at h4
      cases h4
    · have h5 := h4 f.id (mem_requiredFor_of_dep hf hd)
      rw [hfc] at h5
      cases h5
  · rfl

theorem cu_ClosureOK {fs : List Feature} (hnd : (fs.map Feature.id).Nodup)
    {t : EngineState} (hC : ClosureOK fs t) (id : String) (c : Bool) :
    ClosureOK fs (checkUncheckOptionById fs (engineFuel fs) t id c true) := by
  cases c
  · have hade : onCount fs t + 1 ≤ engineFuel fs := by
      have := onCount_le_length fs t
      unfold engineFuel
      omega
    exact cu_ClosureOK_false hC hade id
  · have hade : offCount fs t + 1 ≤ engineFuel fs := by
      have := offCount_le_length fs t
      unfold engineFuel
      omega
    exact cu_ClosureOK_true hnd hC hade id

theorem applyDefaults_ClosureOK {fs : List Feature} (hnd : (fs.map Feature.id).Nodup)
    {t : EngineState} (hC : ClosureOK fs t) :
    ClosureOK fs (applyDefaults fs (engineFuel fs) t) :=
  @foldl_preserve Feature (ClosureOK fs)
    (fun t2 f => checkUncheckOptionById fs (engineFuel fs) t2 f.id
      (featureisEnabledByDefault fs f.id) true)
    (fun t2 f h => cu_ClosureOK hnd h f.id _) fs t hC

theorem freshState_ClosureOK (fs : List Feature) : ClosureOK fs freshState := by
  intro f hf hfc d hd held
  cases hfc

theorem reachableT_ClosureOK {fs : List Feature} (hnd : (fs.map Feature.id).Nodup) :
    ∀ s, ReachableT fs s → ClosureOK fs s := by
  intro s hr
  induction hr with
  | init => exact freshState_ClosureOK fs
  | toggle s id c hs ih => exact cu_ClosureOK hnd ih id c
  | defaults s hs ih => exact applyDefaults_ClosureOK hnd ih

/-- C1 counterexample: hydration is one of the operations the claim ranges
over, yet hydrating the recorded set `["B"]` onto the chain catalog selects
`B` while leaving its declared dependency `A` unselected, so the selection is
not upward-closed after that hydrate call. -/
theorem upward_closure_hydrate_cex :
    featB ∈ chainCatalog ∧
    (applyRebuildFeatures chainCatalog (engineFuel chainCatalog) freshState ["B"]).checked
      featB.id = true ∧
    "A" ∈ featB.dependencies ∧
    (applyRebuildFeatures chainCatalog (engineFuel chainCatalog) freshState ["B"]).checked
      "A" = false := by
  decide

/-- C1 (amended): for a catalog with distinct feature ids, after any finite
sequence of programmatic toggles through the cascading commit path and
`applyDefaults` calls starting from the fresh catalog state — hydration
excluded, since `applyRebuildFeatures` replays a recorded set verbatim and
deliberately breaks closure — every selected feature has each of its
catalog-known dependencies selected: selection is upward-closed over the
dependency relation restricted to rendered features. -/
theorem upward_closure {fs : List Feature} (hnd : (fs.map Feature.id).Nodup)
    {s : EngineState} (hr : ReachableT fs s) :
    ∀ f ∈ fs, s.checked f.id = true → ∀ d ∈ f.dependencies,
      elementExists fs d = true → s.checked d = true :=
  reachableT_ClosureOK hnd s hr

/-- C1 witness: toggling `C` on in the chain catalog cascades the selection
down to `B` and `A`, and the closure theorem applied to that reachable state
certifies both dependencies selected. -/
theorem upward_closure_witness :
    (checkUncheckOptionById chainCatalog (engineFuel chainCatalog) freshState "C" true
      true).checked "B" = true ∧
    (checkUncheckOptionById chainCatalog (engineFuel chainCatalog) freshState "C" true
      true).checked "A" = true := by
  have h := upward_closure (by decide)
    (ReachableT.toggle freshState "C" true (@ReachableT.init chainCatalog))
  exact ⟨h featC (by decide) (by decide) "B" (by decide) (by decide),
    h featB (by decide) (by decide) "A" (by decide) (by decide)⟩

/-! ## Claim C2: completeness of the confirmed disable cascade -/

/-- The chain catalog with all three features selected (toggling `C` on
cascades the enables down the dependency chain). -/
def chainAll : EngineState :=
  checkUncheckOptionById chainCatalog (engineFuel chainCatalog) freshState "C" true true

/-- C2: confirming a UI-initiated deselection of a selected feature `F`
(the click that flips the checkbox and shows the modal, followed by the
confirm button running `disabledDependentsForFeature`) leaves a feature
unselected exactly when it was already unselected, is `F` itself, or is
reachable from `F` along `requiredFor` (dependents) edges through
previously-selected nodes — so exactly `F` plus its enabled transitive
dependents are removed and no other feature changes state. -/
theorem cascade_completeness {fs : List Feature} {F : String} {f : Feature}
    (hopt : getOptionById fs F = some f)
    {s : EngineState} (hch : s.checked F = true) :
    ∀ x, (disabledDependentsForFeature fs (engineFuel fs)
        (clickFeatureCheckbox fs (engineFuel fs) s F) F).checked x = false ↔
      (s.checked x = false ∨ x = F ∨ ReachDis fs s.checked F x) := by
  intro x
  have hel : elementExists fs F = true := elementExists_of_getOptionById hopt
  have hid : f.id = F := getOptionById_id hopt
  have hfuel : engineFuel fs = fs.length + 1 := rfl
  rw [click_pend hel hch hopt (engineFuel fs)]
  have hdd : ∀ (u : EngineState),
      disabledDependentsForFeature fs (fs.length + 1) u F =
        if requiredFor fs F = [] then u
        else (requiredFor fs F).foldl
          (fun a w => checkUncheckOptionById fs (fs.length + 1) a w false true) u := by
    intro u
    simp only [disabledDependentsForFeature, hopt, hid]
  rw [hfuel, hdd]
  by_cases hreq : requiredFor fs F = []
  · rw [if_pos hreq]
    simp only [updateGlobal_checked, updateCategory_checked]
    have hnor : ¬ ReachDis fs s.checked F x := by
      intro hr2
      induction hr2 with
      | head d hd hc => rw [hreq] at hd; cases hd
      | step d e hd he hc ih => exact ih
    constructor
    · intro hx
      rw [flipOff_checked] at hx
      by_cases hxF : x = F
      · exact Or.inr (Or.inl hxF)
      · rw [if_neg hxF] at hx
        exact Or.inl hx
    · rintro (hx | rfl | hx)
      · rw [flipOff_checked]
        by_cases hxF : x = F
        · rw [if_pos hxF]
        · rw [if_neg hxF]; exact hx
      · rw [flipOff_checked, if_pos rfl]
      · exact absurd hx hnor
  · rw [if_neg hreq]
    have hu : (updateGlobalCheckboxState fs (updateCategoryCheckboxState fs
        (flipOff s F) f.category.name)).checked = (flipOff s F).checked := by
      rw [updateGlobal_checked, updateCategory_checked]
    have hade : onCount fs (updateGlobalCheckboxState fs (updateCategoryCheckboxState fs
        (flipOff s F) f.category.name)) + 1 ≤ fs.length + 1 := by
      have h1 := onCount_le_length fs (updateGlobalCheckboxState fs
        (updateCategoryCheckboxState fs (flipOff s F) f.category.name))
      omega
    rw [disFold_exact fs fs.length F _ hade x, hu]
    constructor
    · rintro (hx | hx)
      · rw [flipOff_checked] at hx
        by_cases hxF : x = F
        · exact Or.inr (Or.inl hxF)
        · rw [if_neg hxF] at hx
          exact Or.inl hx
      · refine Or.inr (Or.inr (ReachDis_mono ?_ hx))
        intro w hw
        rw [flipOff_checked] at hw
        by_cases hwF : w = F
        · rw [if_pos hwF] at hw; cases hw
        · rw [if_neg hwF] at hw; exact hw
    · rintro (hx | rfl | hx)
      · refine Or.inl ?_
        rw [flipOff_checked]
        by_cases hxF : x = F
        · rw [if_pos hxF]
        · rw [if_neg hxF]; exact hx
      · exact Or.inl (by rw [flipOff_checked, if_pos rfl])
      · rcases ReachDis_erase hx with rfl | h2
        · exact Or.inl (by rw [flipOff_checked, if_pos rfl])
        · refine Or.inr (ReachDis_mono ?_ h2)
          intro w hw
          by_cases hwF : w = F
          · rw [if_pos hwF] at hw; cases hw
          · rw [if_neg hwF] at hw
            rw [flipOff_checked, if_neg hwF]
            exact hw

/-- C2 witness: on the fully selected chain `A ← B ← C`, the confirmed
disable of `A` removes `A`, `B` and `C`. -/
theorem cascade_completeness_witness :
    (disabledDependentsForFeature chainCatalog (engineFuel chainCatalog)
        (clickFeatureCheckbox chainCatalog (engineFuel chainCatalog) chainAll "A")
        "A").checked "A" = false ∧
    (disabledDependentsForFeature chainCatalog (engineFuel chainCatalog)
        (clickFeatureCheckbox chainCatalog (engineFuel chainCatalog) chainAll "A")
        "A").checked "B" = false ∧
    (disabledDependentsForFeature chainCatalog (engineFuel chainCatalog)
        (clickFeatureCheckbox chainCatalog (engineFuel chainCatalog) chainAll "A")
        "A").checked "C" = false := by
  have h := @cascade_completeness chainCatalog "A" featA rfl chainAll (by decide)
  refine ⟨(h "A").2 (Or.inr (Or.inl rfl)), ?_, ?_⟩
  · exact (h "B").2 (Or.inr (Or.inr (ReachDis.head "B" (by decide) (by decide))))
  · exact (h "C").2 (Or.inr (Or.inr (ReachDis.step "B" "C"
      (ReachDis.head "B" (by decide) (by decide)) (by decide) (by decide))))

/-! ## Claim C3: the cancel branch of the confirmation gate -/

theorem indicator_stale (i : Indicator) (h : i.indeterminate = true) :
    (⟨i.checked, true⟩ : Indicator) = i := by
  cases i with
  | mk c d =>
    cases d with
    | false => cases h
    | true => rfl

theorem updateCategory_catInd_self {fs : List Feature} {c : String}
    (hne : (categoryFeatures fs c).isEmpty = false) (s : EngineState) :
    (updateCategoryCheckboxState fs s c).catInd c =
      (if catCount fs s c = 0 then ⟨false, false⟩
       else if catCount fs s c = (categoryFeatures fs c).length then ⟨true, false⟩
       else ⟨(s.catInd c).checked, true⟩) := by
  unfold updateCategoryCheckboxState
  rw [if_neg (by simp [hne])]
  simp [catCount]

theorem updateGlobal_globalInd_self (fs : List Feature) (s : EngineState) :
    (updateGlobalCheckboxState fs s).globalInd =
      (if s.selected_options = 0 then ⟨false, false⟩
       else if s.selected_options = (totalOptions fs : Int) then ⟨true, false⟩
       else ⟨s.globalInd.checked, true⟩) := rfl

theorem catCount_flipOff_self {fs : List Feature} (hnd : (fs.map Feature.id).Nodup)
    {F : String} {f : Feature} (hopt : getOptionById fs F = some f)
    {s : EngineState} (hch : s.checked F = true) :
    catCount fs (flipOff s F) f.category.name + 1 = catCount fs s f.category.name := by
  have hf : f ∈ fs := getOptionById_mem hopt
  have hfc : f ∈ categoryFeatures fs f.category.name := by
    unfold categoryFeatures
    exact List.mem_filter.2 ⟨hf, by simp⟩
  have hmapnd : ((categoryFeatures fs f.category.name).map Feature.id).Nodup := by
    have hsub : List.Sublist ((categoryFeatures fs f.category.name).map Feature.id)
        (fs.map Feature.id) := ((List.filter_sublist _).map _)
    exact List.Nodup.sublist hsub hnd
  have hFmem : F ∈ (categoryFeatures fs f.category.name).map Feature.id :=
    List.mem_map.2 ⟨f, hfc, getOptionById_id hopt⟩
  have hbr : ∀ (w : EngineState), catCount fs w f.category.name =
      ((categoryFeatures fs f.category.name).map Feature.id).countP w.checked := by
    intro w
    unfold catCount
    rw [List.countP_map]
    rfl
  rw [hbr, hbr]
  exact @countP_set_false ((categoryFeatures fs f.category.name).map Feature.id)
    hmapnd F hFmem s.checked hch

/-- C3 counterexample: "for any selection state" fails.  From the hydrated
state `{B, C}` on the chain catalog (a state the portal reaches when editing
an older build) the UI deselection of `B` does raise the gate (`C` is an
enabled dependent), yet the cancel button — which re-runs the full enable
cascade for `B` — also switches the dependency `A` on, so the state after
cancelling differs from the state before the attempt. -/
theorem cancel_restores_cex :
    selectedIds chainCatalog (applyRebuildFeatures chainCatalog (engineFuel chainCatalog)
      freshState ["B", "C"]) = ["B", "C"] ∧
    getEnabledDependentFeaturesFor chainCatalog
      (clickFeatureCheckbox chainCatalog (engineFuel chainCatalog)
        (applyRebuildFeatures chainCatalog (engineFuel chainCatalog) freshState ["B", "C"])
        "B") (engineFuel chainCatalog) "B" ≠ [] ∧
    selectedIds chainCatalog (checkUncheckOptionById chainCatalog (engineFuel chainCatalog)
      (clickFeatureCheckbox chainCatalog (engineFuel chainCatalog)
        (applyRebuildFeatures chainCatalog (engineFuel chainCatalog) freshState ["B", "C"])
        "B") "B" true true) ≠ ["B", "C"] := by
  decide

/-- Two indicators show the same tri-state to the user: the `indeterminate`
flags agree, and when the dash is not shown the `checked` boxes agree too
(under an indeterminate display the browser renders the dash regardless of
the latent `checked` property). -/
def DisplayEq (i j : Indicator) : Prop :=
  i.indeterminate = j.indeterminate ∧ (i.indeterminate = false → i.checked = j.checked)

/-- C3 (amended): if before the deselection attempt `F`'s catalog-known
dependencies are selected and the state satisfies the engine's own
consistency invariants — exact cached counter, category indicator of `F`'s
category and global indicator matching their recount switches — then a UI
deselection of `F` that raises the gate followed by the cancel button
restores the checkbox states, the counter and the indicators of every other
category exactly, restores the displayed tri-state of `F`'s category
indicator and of the global indicator, and leaves `F` explicitly selected
again.  (The latent `checked` property stored beneath an indeterminate
indicator may change, because the update routines keep a stale bit in that
branch, so the touched indicators are restored exactly as displayed, not
bit-for-bit.) -/
theorem cancel_restores {fs : List Feature} (hnd : (fs.map Feature.id).Nodup)
    {F : String} {f : Feature} (hopt : getOptionById fs F = some f)
    {s : EngineState} (hch : s.checked F = true)
    (hdeps : ∀ d ∈ f.dependencies, elementExists fs d = true → s.checked d = true)
    (hcnt : CounterOK fs s)
    (hcat : CatOKat fs s f.category.name)
    (hglob : GlobalOK fs s)
    (hgate : getEnabledDependentFeaturesFor fs (clickFeatureCheckbox fs (engineFuel fs) s F)
      (engineFuel fs) F ≠ []) :
    (checkUncheckOptionById fs (engineFuel fs) (clickFeatureCheckbox fs (engineFuel fs) s F)
        F true true).checked F = true ∧
    (checkUncheckOptionById fs (engineFuel fs) (clickFeatureCheckbox fs (engineFuel fs) s F)
        F true true).checked = s.checked ∧
    (checkUncheckOptionById fs (engineFuel fs) (clickFeatureCheckbox fs (engineFuel fs) s F)
        F true true).selected_options = s.selected_options ∧
    (∀ c, c ≠ f.category.name →
      (checkUncheckOptionById fs (engineFuel fs) (clickFeatureCheckbox fs (engineFuel fs) s F)
        F true true).catInd c = s.catInd c) ∧
    DisplayEq ((checkUncheckOptionById fs (engineFuel fs)
        (clickFeatureCheckbox fs (engineFuel fs) s F) F true true).catInd f.category.name)
      (s.catInd f.category.name) ∧
    DisplayEq (checkUncheckOptionById fs (engineFuel fs)
        (clickFeatureCheckbox fs (engineFuel fs) s F) F true true).globalInd s.globalInd := by
  have hel : elementExists fs F = true := elementExists_of_getOptionById hopt
  have hf : f ∈ fs := getOptionById_mem hopt
  have hfid : f.id = F := getOptionById_id hopt
  have hne : (categoryFeatures fs f.category.name).isEmpty = false :=
    categoryFeatures_isEmpty_false_of_mem hf
  have hpend := click_pend hel hch hopt (engineFuel fs)
  rw [hpend]
  have hpchk : (updateGlobalCheckboxState fs (updateCategoryCheckboxState fs (flipOff s F)
      f.category.name)).checked F = false := by
    rw [updateGlobal_checked, updateCategory_checked, flipOff_checked, if_pos rfl]
  have hfuel : engineFuel fs = fs.length + 1 := rfl
  rw [hfuel, cu_succ_true hopt hpchk fs.length true]
  simp only [if_pos rfl, if_true]
  have hgen : ∀ (L : List String), (∀ d ∈ L, d ∈ f.dependencies) →
      L.foldl (fun t d => checkUncheckOptionById fs fs.length t d true true)
        (flipOn (updateGlobalCheckboxState fs (updateCategoryCheckboxState fs (flipOff s F)
          f.category.name)) F) =
        flipOn (updateGlobalCheckboxState fs (updateCategoryCheckboxState fs (flipOff s F)
          f.category.name)) F := by
    intro L
    induction L with
    | nil => intro _; rfl
    | cons z L ih =>
      intro hL
      rw [List.foldl_cons]
      have hz : checkUncheckOptionById fs fs.length
          (flipOn (updateGlobalCheckboxState fs (updateCategoryCheckboxState fs (flipOff s F)
            f.category.name)) F) z true true =
          flipOn (updateGlobalCheckboxState fs (updateCategoryCheckboxState fs (flipOff s F)
            f.category.name)) F := by
        rcases hoz : getOptionById fs z with _ | fz
        · exact cu_none hoz fs.length _ true true
        · have helz : elementExists fs z = true := elementExists_of_getOptionById hoz
          have hzc : (flipOn (updateGlobalCheckboxState fs (updateCategoryCheckboxState fs
              (flipOff s F) f.category.name)) F).checked z = true := by
            rw [flipOn_checked]
            by_cases hzf : z = F
            · rw [if_pos hzf]
            · rw [if_neg hzf, updateGlobal_checked, updateCategory_checked,
                flipOff_checked, if_neg hzf]
              exact hdeps z (hL z (by simp)) helz
          exact cu_same_any hoz hzc fs.length true
      rw [hz]
      exact ih (fun d hd => hL d (by simp [hd]))
  rw [hgen f.dependencies (fun d hd => hd)]
  have hB : (flipOn (updateGlobalCheckboxState fs (updateCategoryCheckboxState fs (flipOff s F)
      f.category.name)) F).checked = s.checked := by
    funext w
    rw [flipOn_checked]
    by_cases hwF : w = F
    · rw [if_pos hwF, hwF, hch]
    · rw [if_neg hwF, updateGlobal_checked, updateCategory_checked, flipOff_checked,
        if_neg hwF]
  have hBcat : (flipOn (updateGlobalCheckboxState fs (updateCategoryCheckboxState fs
      (flipOff s F) f.category.name)) F).catInd f.category.name =
      (if catCount fs (flipOff s F) f.category.name = 0 then ⟨false, false⟩
       else if catCount fs (flipOff s F) f.category.name =
           (categoryFeatures fs f.category.name).length then ⟨true, false⟩
       else ⟨(s.catInd f.category.name).checked, true⟩) := by
    rw [flipOn_catInd, updateGlobal_catInd, updateCategory_catInd_self hne, flipOff_catInd]
  refine ⟨?_, ?_, ?_, ?_, ?_, ?_⟩
  · rw [updateGlobal_checked, updateCategory_checked, hB, hch]
  · rw [updateGlobal_checked, updateCategory_checked, hB]
  · rw [updateGlobal_selected, updateCategory_selected, flipOn_selected,
      updateGlobal_selected, updateCategory_selected, flipOff_selected]
    omega
  · intro c hcK
    rw [updateGlobal_catInd, updateCategory_catInd_other fs _ hcK, flipOn_catInd,
      updateGlobal_catInd, updateCategory_catInd_other fs _ hcK, flipOff_catInd]
  · have hIM : IndMatches (s.catInd f.category.name) (catCount fs s f.category.name)
        (categoryFeatures fs f.category.name).length := hcat
    rw [updateGlobal_catInd, updateCategory_catInd_self hne]
    have hcntB : catCount fs (flipOn (updateGlobalCheckboxState fs
        (updateCategoryCheckboxState fs (flipOff s F) f.category.name)) F)
        f.category.name = catCount fs s f.category.name :=
      catCount_congr (fun x => by rw [hB])
    rw [hcntB, hBcat]
    have hpos : 1 ≤ catCount fs s f.category.name := by
      have hfc : f ∈ categoryFeatures fs f.category.name := by
        unfold categoryFeatures
        exact List.mem_filter.2 ⟨hf, by simp⟩
      have h0 : 0 < (categoryFeatures fs f.category.name).countP
          (fun g => s.checked g.id) := by
        rw [List.countP_pos_iff]
        refine ⟨f, hfc, ?_⟩
        rw [hfid]
        simp [hch]
      unfold catCount
      omega
    by_cases hnt : catCount fs s f.category.name = (categoryFeatures fs f.category.name).length
    · rw [if_neg (by omega), if_pos hnt]
      have hind : (s.catInd f.category.name).indeterminate = false := by
        cases h2 : (s.catInd f.category.name).indeterminate
        · rfl
        · have h3 := hIM.1.1 h2
          exact absurd hnt h3.2
      have hckd : (s.catInd f.category.name).checked = true := by
        rw [hIM.2 hind]
        exact decide_eq_true (by omega)
      refine ⟨?_, ?_⟩
      · rw [hind]
      · intro h2
        rw [hckd]
    · rw [if_neg (by omega), if_neg hnt]
      have hsind : (s.catInd f.category.name).indeterminate = true :=
        hIM.1.2 ⟨by omega, hnt⟩
      refine ⟨?_, ?_⟩
      · rw [hsind]
      · intro h2
        simp at h2
  · have hGM : GIndMatches s.globalInd s.selected_options (totalOptions fs) := hglob
    have hsel : s.selected_options = (onCount fs s : Int) := hcnt
    simp only [updateGlobal_globalInd_self, updateGlobal_selected, updateCategory_selected,
      flipOn_selected, updateCategory_globalInd, flipOn_globalInd, flipOff_selected,
      flipOff_globalInd]
    rw [hsel]
    have hGM2 : GIndMatches s.globalInd ((onCount fs s : Int)) (totalOptions fs) := by
      rw [← hsel]
      exact hGM
    have hNpos : 1 ≤ onCount fs s := by
      have hidm : F ∈ allIds fs := mem_allIds_iff.2 hel
      have h0 : 0 < (allIds fs).countP (fun i => s.checked i) := by
        rw [List.countP_pos_iff]
        exact ⟨F, hidm, by simp [hch]⟩
      unfold onCount
      omega
    have hNle := onCount_le_totalOptions fs s
    by_cases hnT : onCount fs s = totalOptions fs
    · rw [if_neg (show ¬ ((onCount fs s : Int) - 1 + 1 = 0) by omega),
        if_pos (show ((onCount fs s : Int) - 1 + 1 = (totalOptions fs : Int)) by omega)]
      have hind : s.globalInd.indeterminate = false := by
        cases h2 : s.globalInd.indeterminate
        · rfl
        · have h3 := hGM2.1.1 h2
          exact absurd (show ((onCount fs s : Int)) = (totalOptions fs : Int) by omega) h3.2
      have hckd : s.globalInd.checked = true := by
        rw [hGM2.2 hind]
        exact decide_eq_true (by omega)
      refine ⟨?_, ?_⟩
      · rw [hind]
      · intro h2
        rw [hckd]
    · rw [if_neg (show ¬ ((onCount fs s : Int) - 1 + 1 = 0) by omega),
        if_neg (show ¬ ((onCount fs s : Int) - 1 + 1 = (totalOptions fs : Int)) by omega)]
      have hsind : s.globalInd.indeterminate = true :=
        hGM2.1.2 ⟨by omega, by omega⟩
      refine ⟨?_, ?_⟩
      · rw [hsind]
      · intro h2
        simp at h2

/-- C3 witness: on the fully selected chain, the UI deselection of `B`
raises the gate (`C` is an enabled dependent) and cancelling restores the
checkbox states, the counter and an untouched category's indicator exactly,
and the displayed tri-state of the touched core-category indicator and of
the global indicator. -/
theorem cancel_restores_witness :
    (checkUncheckOptionById chainCatalog (engineFuel chainCatalog)
        (clickFeatureCheckbox chainCatalog (engineFuel chainCatalog) chainAll "B")
        "B" true true).checked = chainAll.checked ∧
    (checkUncheckOptionById chainCatalog (engineFuel chainCatalog)
        (clickFeatureCheckbox chainCatalog (engineFuel chainCatalog) chainAll "B")
        "B" true true).selected_options = chainAll.selected_options ∧
    (checkUncheckOptionById chainCatalog (engineFuel chainCatalog)
        (clickFeatureCheckbox chainCatalog (engineFuel chainCatalog) chainAll "B")
        "B" true true).catInd "misc" = chainAll.catInd "misc" ∧
    DisplayEq ((checkUncheckOptionById chainCatalog (engineFuel chainCatalog)
        (clickFeatureCheckbox chainCatalog (engineFuel chainCatalog) chainAll "B")
        "B" true true).catInd "core") (chainAll.catInd "core") ∧
    DisplayEq (checkUncheckOptionById chainCatalog (engineFuel chainCatalog)
        (clickFeatureCheckbox chainCatalog (engineFuel chainCatalog) chainAll "B")
        "B" true true).globalInd chainAll.globalInd := by
  have h := @cancel_restores chainCatalog (by decide) "B" featB rfl chainAll (by decide)
    (by decide) rfl ⟨by decide, by decide⟩ ⟨by decide, by decide⟩ (by decide)
  exact ⟨h.2.1, h.2.2.1, h.2.2.2.1 "misc" (by decide), h.2.2.2.2.1, h.2.2.2.2.2⟩


/-! ## Transfer lemmas between closure-consistent selections -/

theorem ReachEn_transfer {fs : List Feature} {chk1 chk2 : String → Bool}
    (hC : ∀ f ∈ fs, chk2 f.id = true → ∀ d ∈ f.dependencies,
      elementExists fs d = true → chk2 d = true)
    {g x : String} (hr : ReachEn fs chk1 g x) :
    ReachEn fs chk2 g x ∨ chk2 x = true := by
  induction hr with
  | head f d hf hd hel hc =>
    cases h2 : chk2 d
    · exact Or.inl (ReachEn.head f d hf hd hel h2)
    · exact Or.inr rfl
  | step d fd e hd hf he hel hc ih =>
    cases h2 : chk2 e
    · rcases ih with ih2 | ih2
      · exact Or.inl (ReachEn.step d fd e ih2 hf he hel h2)
      · have hfmem : fd ∈ fs := getOptionById_mem hf
        have hfd : fd.id = d := getOptionById_id hf
        have := hC fd hfmem (by rw [hfd]; exact ih2) e he hel
        rw [this] at h2
        cases h2
    · exact Or.inr rfl

theorem ReachDis_transfer {fs : List Feature} {chk1 chk2 : String → Bool}
    (hC : ∀ f ∈ fs, chk2 f.id = true → ∀ d ∈ f.dependencies,
      elementExists fs d = true → chk2 d = true)
    {g x : String} (hr : ReachDis fs chk1 g x) :
    ReachDis fs chk2 g x ∨ chk2 x = false := by
  induction hr with
  | head d hd hc =>
    cases h2 : chk2 d
    · exact Or.inr rfl
    · exact Or.inl (ReachDis.head d hd h2)
  | step d e hd he hc ih =>
    cases h2 : chk2 e
    · exact Or.inr rfl
    · rcases ih with ih2 | ih2
      · exact Or.inl (ReachDis.step d e ih2 he h2)
      · rcases mem_requiredFor_iff.1 he with ⟨fe, hfe, hfeid, hdep⟩
        have held : elementExists fs d = true := ReachDis_target_known hd
        have := hC fe hfe (by rw [hfeid]; exact h2) d hdep held
        rw [this] at ih2
        cases ih2

theorem ReachEn_closed_start {fs : List Feature} {chk : String → Bool}
    (hC : ∀ f ∈ fs, chk f.id = true → ∀ d ∈ f.dependencies,
      elementExists fs d = true → chk d = true)
    {g x : String} (hg : chk g = true) : ¬ ReachEn fs chk g x := by
  intro hr
  induction hr with
  | head f d hf hd hel hc =>
    have hfmem : f ∈ fs := getOptionById_mem hf
    have hfd : f.id = g := getOptionById_id hf
    have := hC f hfmem (by rw [hfd]; exact hg) d hd hel
    rw [this] at hc
    cases hc
  | step d fd e hd hf he hel hc ih => exact ih

theorem ReachDis_open_start {fs : List Feature} {chk : String → Bool}
    (hC : ∀ f ∈ fs, chk f.id = true → ∀ d ∈ f.dependencies,
      elementExists fs d = true → chk d = true)
    {g x : String} (hel : elementExists fs g = true) (hg : chk g = false) :
    ¬ ReachDis fs chk g x := by
  intro hr
  induction hr with
  | head d hd hc =>
    rcases mem_requiredFor_iff.1 hd with ⟨fd, hfd, hfdid, hdep⟩
    have := hC fd hfd (by rw [hfdid]; exact hc) g hdep hel
    rw [this] at hg
    cases hg
  | step d e hd he hc ih => exact ih

theorem cu_agree {fs : List Feature} {g : String} {f : Feature}
    (hopt : getOptionById fs g = some f) (c : Bool)
    {A B : EngineState} (hCA : ClosureOK fs A) (hCB : ClosureOK fs B)
    {x : String} (hax : x = g ∨ B.checked x = A.checked x) :
    (checkUncheckOptionById fs (engineFuel fs) B g c true).checked x =
      (checkUncheckOptionById fs (engineFuel fs) A g c true).checked x := by
  have hel : elementExists fs g = true := elementExists_of_getOptionById hopt
  have hfuel : engineFuel fs = fs.length + 1 := rfl
  by_cases hxg : x = g
  · subst hxg
    rw [hfuel, cu_target hopt fs.length A c true, cu_target hopt fs.length B c true]
  · have hax2 : B.checked x = A.checked x := by
      rcases hax with h1 | h1
      · exact absurd h1 hxg
      · exact h1
    obtain ⟨m, hm⟩ : ∃ m, fs.length = m + 1 := by
      cases hfs : fs with
      | nil => rw [hfs] at hopt; cases hopt
      | cons a l => exact ⟨l.length, rfl⟩
    have hfuel2 : engineFuel fs = m + 2 := by rw [hfuel, hm]
    rw [hfuel2]
    have hadeA : offCount fs A ≤ m + 1 := by
      have := offCount_le_length fs A
      omega
    have hadeB : offCount fs B ≤ m + 1 := by
      have := offCount_le_length fs B
      omega
    have hadeA2 : onCount fs A ≤ m + 1 := by
      have := onCount_le_length fs A
      omega
    have hadeB2 : onCount fs B ≤ m + 1 := by
      have := onCount_le_length fs B
      omega
    cases c with
    | true =>
      by_cases hA : A.checked g = true
      · by_cases hB : B.checked g = true
        · rw [cu_same_any hopt hA, cu_same_any hopt hB]
          exact hax2
        · have hB2 : B.checked g = false := by
            cases h2 : B.checked g
            · rfl
            · exact absurd h2 hB
          rw [cu_same_any hopt hA]
          have hiffB := cu_true_exact hopt m B hB2 hadeB x
          cases hx : A.checked x
          · have hBx : B.checked x = false := by rw [hax2, hx]
            cases hres : (checkUncheckOptionById fs (m + 2) B g true true).checked x
            · rfl
            · rcases hiffB.1 hres with h3 | h3 | h3
              · rw [hBx] at h3; cases h3
              · exact absurd h3 hxg
              · rcases ReachEn_transfer hCA h3 with h4 | h4
                · exact absurd h4 (ReachEn_closed_start hCA hA)
                · rw [hx] at h4; cases h4
          · have hBx : B.checked x = true := by rw [hax2, hx]
            rw [cu_true_mono fs (m + 2) B g true x hBx]
      · have hA2 : A.checked g = false := by
          cases h2 : A.checked g
          · rfl
          · exact absurd h2 hA
        by_cases hB : B.checked g = true
        · rw [cu_same_any hopt hB]
          have hiffA := cu_true_exact hopt m A hA2 hadeA x
          cases hx : B.checked x
          · have hAx : A.checked x = false := by rw [← hax2, hx]
            cases hres : (checkUncheckOptionById fs (m + 2) A g true true).checked x
            · rfl
            · rcases hiffA.1 hres with h3 | h3 | h3
              · rw [hAx] at h3; cases h3
              · exact absurd h3 hxg
              · rcases ReachEn_transfer hCB h3 with h4 | h4
                · exact absurd h4 (ReachEn_closed_start hCB hB)
                · rw [hx] at h4; cases h4
          · have hAx : A.checked x = true := by rw [← hax2, hx]
            rw [cu_true_mono fs (m + 2) A g true x hAx]
        · have hB2 : B.checked g = false := by
            cases h2 : B.checked g
            · rfl
            · exact absurd h2 hB
          have hiffA := cu_true_exact hopt m A hA2 hadeA x
          have hiffB := cu_true_exact hopt m B hB2 hadeB x
          cases hx : A.checked x
          · have hBx : B.checked x = false := by rw [hax2, hx]
            cases hresA : (checkUncheckOptionById fs (m + 2) A g true true).checked x
            · cases hresB : (checkUncheckOptionById fs (m + 2) B g true true).checked x
              · rfl
              · rcases hiffB.1 hresB with h3 | h3 | h3
                · rw [hBx] at h3; cases h3
                · exact absurd h3 hxg
                · rcases ReachEn_transfer hCA h3 with h4 | h4
                  · have := hiffA.2 (Or.inr (Or.inr h4))
                    rw [hresA] at this; cases this
                  · rw [hx] at h4; cases h4
            · rcases hiffA.1 hresA with h3 | h3 | h3
              · rw [hx] at h3; cases h3
              · exact absurd h3 hxg
              · rcases ReachEn_transfer hCB h3 with h4 | h4
                · exact hiffB.2 (Or.inr (Or.inr h4))
                · rw [hBx] at h4; cases h4
          · have hBx : B.checked x = true := by rw [hax2, hx]
            rw [cu_true_mono fs (m + 2) B g true x hBx,
              cu_true_mono fs (m + 2) A g true x hx]
    | false =>
      by_cases hA : A.checked g = false
      · by_cases hB : B.checked g = false
        · rw [cu_same_any hopt hA, cu_same_any hopt hB]
          exact hax2
        · have hB2 : B.checked g = true := by
            cases h2 : B.checked g
            · exact absurd h2 hB
            · rfl
          rw [cu_same_any hopt hA]
          have hiffB := cu_false_exact hopt m B hB2 hadeB2 x
          cases hx : A.checked x
          · have hBx : B.checked x = false := by rw [hax2, hx]
            rw [cu_false_anti fs (m + 2) B g true x hBx]
          · have hBx : B.checked x = true := by rw [hax2, hx]
            cases hres : (checkUncheckOptionById fs (m + 2) B g false true).checked x
            · rcases hiffB.1 hres with h3 | h3 | h3
              · rw [hBx] at h3; cases h3
              · exact absurd h3 hxg
              · rcases ReachDis_transfer hCA h3 with h4 | h4
                · exact absurd h4 (ReachDis_open_start hCA hel hA)
                · rw [hx] at h4; cases h4
            · rfl
      · have hA2 : A.checked g = true := by
          cases h2 : A.checked g
          · exact absurd h2 hA
          · rfl
        by_cases hB : B.checked g = false
        · rw [cu_same_any hopt hB]
          have hiffA := cu_false_exact hopt m A hA2 hadeA2 x
          cases hx : B.checked x
          · have hAx : A.checked x = false := by rw [← hax2, hx]
            rw [cu_false_anti fs (m + 2) A g true x hAx]
          · have hAx : A.checked x = true := by rw [← hax2, hx]
            cases hres : (checkUncheckOptionById fs (m + 2) A g false true).checked x
            · rcases hiffA.1 hres with h3 | h3 | h3
              · rw [hAx] at h3; cases h3
              · exact absurd h3 hxg
              · rcases ReachDis_transfer hCB h3 with h4 | h4
                · exact absurd h4 (ReachDis_open_start hCB hel hB)
                · rw [hx] at h4; cases h4
            · rfl
        · have hB2 : B.checked g = true := by
            cases h2 : B.checked g
            · exact absurd h2 hB
            · rfl
          have hiffA := cu_false_exact hopt m A hA2 hadeA2 x
          have hiffB := cu_false_exact hopt m B hB2 hadeB2 x
          cases hx : A.checked x
          · have hBx : B.checked x = false := by rw [hax2, hx]
            rw [cu_false_anti fs (m + 2) B g true x hBx,
              cu_false_anti fs (m + 2) A g true x hx]
          · have hBx : B.checked x = true := by rw [hax2, hx]
            cases hresA : (checkUncheckOptionById fs (m + 2) A g false true).checked x
            · rcases hiffA.1 hresA with h3 | h3 | h3
              · rw [hx] at h3; cases h3
              · exact absurd h3 hxg
              · rcases ReachDis_transfer hCB h3 with h4 | h4
                · exact hiffB.2 (Or.inr (Or.inr h4))
                · rw [hBx] at h4; cases h4
            · cases hresB : (checkUncheckOptionById fs (m + 2) B g false true).checked x
              · rcases hiffB.1 hresB with h3 | h3 | h3
                · rw [hBx] at h3; cases h3
                · exact absurd h3 hxg
                · rcases ReachDis_transfer hCA h3 with h4 | h4
                  · have := hiffA.2 (Or.inr (Or.inr h4))
                    rw [hresA] at this; cases this
                  · rw [hx] at h4; cases h4
              · rfl

theorem applyDefaults_sim {fs : List Feature} (hnd : (fs.map Feature.id).Nodup) :
    ∀ (R : List Feature) (A B : EngineState), (∀ f2 ∈ R, f2 ∈ fs) →
      ClosureOK fs A → ClosureOK fs B →
      (∀ x, B.checked x = A.checked x ∨ ∃ f2 ∈ R, f2.id = x) →
      ∀ x, (R.foldl (fun t f2 => checkUncheckOptionById fs (engineFuel fs) t f2.id
          (featureisEnabledByDefault fs f2.id) true) B).checked x =
        (R.foldl (fun t f2 => checkUncheckOptionById fs (engineFuel fs) t f2.id
          (featureisEnabledByDefault fs f2.id) true) A).checked x := by
  intro R
  induction R with
  | nil =>
    intro A B hmem hCA hCB hag x
    rcases hag x with h1 | ⟨f2, hf2, h3⟩
    · exact h1
    · cases hf2
  | cons g R ihR =>
    intro A B hmem hCA hCB hag x
    rw [List.foldl_cons, List.foldl_cons]
    have hg : g ∈ fs := hmem g (by simp)
    have hopt : getOptionById fs g.id = some g := getOptionById_self hnd hg
    refine ihR _ _ (fun f2 h => hmem f2 (by simp [h])) (cu_ClosureOK hnd hCA g.id _)
      (cu_ClosureOK hnd hCB g.id _) ?_ x
    intro y
    rcases hag y with h1 | ⟨f2, hf2, h3⟩
    · exact Or.inl (cu_agree hopt _ hCA hCB (Or.inr h1))
    · rcases List.mem_cons.1 hf2 with rfl | hf3
      · exact Or.inl (cu_agree hopt _ hCA hCB (Or.inl h3.symm))
      · exact Or.inr ⟨f2, hf3, h3⟩

/-- C4 counterexample catalog member: defaults on, depends on `Q`. -/
def featP : Feature :=
  { id := "P", name := "P", category := { name := "core", description := "" },
    dependencies := ["Q"], default_enabled := true }

/-- C4 counterexample catalog member: defaults off. -/
def featQ : Feature :=
  { id := "Q", name := "Q", category := { name := "core", description := "" },
    dependencies := [], default_enabled := false }

/-- C4 counterexample catalog member: defaults on, no dependencies. -/
def featR : Feature :=
  { id := "R", name := "R", category := { name := "core", description := "" },
    dependencies := [], default_enabled := true }

/-- A catalog on which `applyDefaults` does not produce the upward closure of
the default-enabled set. -/
def defaultsCatalog : List Feature := [featP, featQ, featR]

/-- C4 counterexample: the claim that the state after `applyDefaults` equals
the default-enabled set closed upward under dependencies is false.  `P`
defaults on (so the claimed set contains `P`, `Q` and `R`), but processing
`Q` — which defaults off — after `P` disables `Q` again together with its
dependent `P`, leaving only `{R}` selected. -/
theorem defaults_idempotent_cex :
    featureisEnabledByDefault defaultsCatalog "P" = true ∧
    "Q" ∈ featP.dependencies ∧
    selectedIds defaultsCatalog
      (applyDefaults defaultsCatalog (engineFuel defaultsCatalog) freshState) = ["R"] := by
  decide

/-- C4 (amended): for a catalog with distinct feature ids, running
`applyDefaults` twice in a row from the freshly loaded state yields the same
selection state after each call: the checkbox states, the counter and the
serialised selection are identical after the first and after the second call.
(The second part of the original claim — that this state equals the
default-enabled set closed upward under dependencies — is false, see the
counterexample: a default-off feature processed after a default-on dependent
removes both.) -/
theorem defaults_idempotent {fs : List Feature} (hnd : (fs.map Feature.id).Nodup) :
    (applyDefaults fs (engineFuel fs)
        (applyDefaults fs (engineFuel fs) freshState)).checked =
      (applyDefaults fs (engineFuel fs) freshState).checked ∧
    (applyDefaults fs (engineFuel fs)
        (applyDefaults fs (engineFuel fs) freshState)).selected_options =
      (applyDefaults fs (engineFuel fs) freshState).selected_options ∧
    selectedIds fs (applyDefaults fs (engineFuel fs)
        (applyDefaults fs (engineFuel fs) freshState)) =
      selectedIds fs (applyDefaults fs (engineFuel fs) freshState) := by
  have hCfresh := freshState_ClosureOK fs
  have hC1 : ClosureOK fs (applyDefaults fs (engineFuel fs) freshState) :=
    applyDefaults_ClosureOK hnd hCfresh
  have hag : ∀ x, (applyDefaults fs (engineFuel fs) freshState).checked x =
      freshState.checked x ∨ ∃ f2 ∈ fs, f2.id = x := by
    intro x
    by_cases hx : elementExists fs x = true
    · rcases elementExists_iff.1 hx with ⟨f2, hf2, hfx⟩
      exact Or.inr ⟨f2, hf2, hfx⟩
    · refine Or.inl ?_
      have hx2 : elementExists fs x = false := by
        cases h2 : elementExists fs x
        · rfl
        · exact absurd h2 hx
      exact @foldl_preserve Feature
        (fun u => u.checked x = freshState.checked x)
        (fun t f2 => checkUncheckOptionById fs (engineFuel fs) t f2.id
          (featureisEnabledByDefault fs f2.id) true)
        (fun u f2 hu => by
          show (checkUncheckOptionById fs (engineFuel fs) u f2.id
            (featureisEnabledByDefault fs f2.id) true).checked x = freshState.checked x
          rw [cu_unknown_unchanged fs hx2 (engineFuel fs) u f2.id _ true]
          exact hu)
        fs freshState rfl
  have hchk : ∀ x, (applyDefaults fs (engineFuel fs)
      (applyDefaults fs (engineFuel fs) freshState)).checked x =
      (applyDefaults fs (engineFuel fs) freshState).checked x :=
    applyDefaults_sim hnd fs freshState (applyDefaults fs (engineFuel fs) freshState)
      (fun f2 h => h) hCfresh hC1 hag
  have hchkf : (applyDefaults fs (engineFuel fs)
      (applyDefaults fs (engineFuel fs) freshState)).checked =
      (applyDefaults fs (engineFuel fs) freshState).checked := funext hchk
  refine ⟨hchkf, ?_, ?_⟩
  · have hck1 : CounterOK fs (applyDefaults fs (engineFuel fs) freshState) :=
      applyDefaults_preserve (cu_preserves_CounterOK fs) (engineFuel fs) freshState
        (freshState_CounterOK fs)
    have hck2 : CounterOK fs (applyDefaults fs (engineFuel fs)
        (applyDefaults fs (engineFuel fs) freshState)) :=
      applyDefaults_preserve (cu_preserves_CounterOK fs) (engineFuel fs) _ hck1
    have honc : onCount fs (applyDefaults fs (engineFuel fs)
        (applyDefaults fs (engineFuel fs) freshState)) =
        onCount fs (applyDefaults fs (engineFuel fs) freshState) := by
      unfold onCount
      apply List.countP_congr
      intro y hy
      rw [hchk y]
    have h1 : (applyDefaults fs (engineFuel fs)
        (applyDefaults fs (engineFuel fs) freshState)).selected_options =
        (onCount fs (applyDefaults fs (engineFuel fs)
          (applyDefaults fs (engineFuel fs) freshState)) : Int) := hck2
    have h2 : (applyDefaults fs (engineFuel fs) freshState).selected_options =
        (onCount fs (applyDefaults fs (engineFuel fs) freshState) : Int) := hck1
    rw [h1, h2, honc]
  · unfold selectedIds
    rw [hchkf]

/-- C4 witness: on the three-feature catalog of the counterexample the two
consecutive `applyDefaults` runs agree on the checkbox states, the counter
and the serialised selection. -/
theorem defaults_idempotent_witness :
    (applyDefaults defaultsCatalog (engineFuel defaultsCatalog)
        (applyDefaults defaultsCatalog (engineFuel defaultsCatalog) freshState)).checked =
      (applyDefaults defaultsCatalog (engineFuel defaultsCatalog) freshState).checked ∧
    (applyDefaults defaultsCatalog (engineFuel defaultsCatalog)
        (applyDefaults defaultsCatalog (engineFuel defaultsCatalog)
          freshState)).selected_options =
      (applyDefaults defaultsCatalog (engineFuel defaultsCatalog)
        freshState).selected_options ∧
    selectedIds defaultsCatalog (applyDefaults defaultsCatalog (engineFuel defaultsCatalog)
        (applyDefaults defaultsCatalog (engineFuel defaultsCatalog) freshState)) =
      selectedIds defaultsCatalog
        (applyDefaults defaultsCatalog (engineFuel defaultsCatalog) freshState) :=
  defaults_idempotent (by decide)
